import Mathlib

/-!
Rebalancing core of the object store: `ais/rebalance.go`.

Shallow embedding of the rebalance manager and of the mountpath walkers.

Conventions of the embedding.

* Calls into collaborators that are not part of `rebalance.go` (the file
  system, the placement oracle, the streaming bundle, the peers) are answered
  by explicit inputs: a `Deps` record for pure helpers, and per-entry or
  per-run records (`GEntry`, `LEntry`, `GlobalEnv`, `LocalEnv`) holding what
  each call returned.
* Side effects are recorded twice: durable state lives in `World` (marker
  files, activity registry, get-from-neighbor switches), every call that
  matters for the protocol is appended to a trace of `Event`s in program
  order.
* Goroutines are run one after the other (walkers in spawn order, a send's
  completion callback right after the `walk` that submitted it).  A blocked
  channel send or wait ends the run with status `blocked`, a negative count
  handed to `wg.Add` with status `panicked`.
* `int64` arithmetic wraps: `addInt64`.
-/

namespace Rebalance

/-! ## Basic values -/

/-- Go `error` value: its message and what `os.IsNotExist` answers for it. -/
structure GoError where
  msg : String
  notExist : Bool
deriving DecidableEq, Repr

/-- The function `errors.New` (also used for `fmt.Errorf`): a plain error. -/
def errorsNew (s : String) : GoError := ⟨s, false⟩

/-- Two's-complement wrap of an integer into the `int64` range. -/
def wrapInt64 (x : Int) : Int := (x + 2 ^ 63) % 2 ^ 64 - 2 ^ 63

/-- Go `+` on `int64`. -/
def addInt64 (a b : Int) : Int := wrapInt64 (a + b)

/-- Membership in the `int64` range. -/
def inInt64 (x : Int) : Prop := -(2 ^ 63) ≤ x ∧ x < 2 ^ 63

/-- Target descriptor `cluster.Snode`, with the fields the manager reads. -/
structure Snode where
  DaemonID : String
  PublicURL : String
  ControlURL : String
deriving DecidableEq, Repr

/-- Membership snapshot `smapX`: the target map (in iteration order) and the
version. -/
structure smapX where
  Tmap : List Snode
  Version : Int
deriving DecidableEq, Repr

/-- The method `smap.CountTargets()`. -/
def smapX.CountTargets (smap : smapX) : Int := (smap.Tmap.length : Int)

/-- The struct `transport.ObjectAttrs`. -/
structure ObjectAttrs where
  Size : Int
  Atime : Int
  CksumType : String
  CksumValue : String
  Version : String
deriving DecidableEq, Repr

/-- The struct `transport.Header`. -/
structure Header where
  Bucket : String
  Objname : String
  IsLocal : Bool
  Opaque : String
  ObjAttrs : ObjectAttrs
deriving DecidableEq, Repr

/-- Calls recorded in program order. -/
inductive Event where
  /-- `rtnamemap.Lock(uname, false)`: read lock -/
  | lock (uname : String)
  /-- `rtnamemap.Unlock(uname, false)`: read unlock -/
  | unlock (uname : String)
  /-- `cmn.NewFileHandle(fqn)` -/
  | openFile (fqn : String)
  /-- `wg.Add(1)` -/
  | wgAdd
  /-- `wg.Done()` -/
  | wgDone
  /-- `streams.SendV(hdr, file, callback, si)` -/
  | sendV (hdr : Header) (dest : String)
  /-- `xreb.confirmCh <- struct` -/
  | confirm
  /-- `cmn.CreateDir(dir)` -/
  | createDir (dir : String)
  /-- `lom.CopyObject(dst, buf)` -/
  | copyObject (src dst : String)
  /-- `t.fshc(err, path)` -/
  | fshc (err : GoError) (path : String)
  /-- `slab.Alloc()` -/
  | slabAlloc
  /-- `slab.Free(buf)` -/
  | slabFree
  /-- `streams.Resync()` -/
  | resync
  /-- `cmn.CreateFile(path)` -/
  | createFile (path : String)
  /-- `os.Remove(path)` -/
  | removeFile (path : String)
  /-- `go jogger.jog()` for the walker of this path -/
  | spawn (mpath : String)
  /-- `statsif.Add(name, value)` -/
  | statsAdd (name : String) (value : Int)
  /-- `waitForRebalanceFinish(si, version)` started for a peer -/
  | waitFinish (peer : String) (version : Int)
  /-- `pollRebalancingDone` returned -/
  | pollDone
  /-- `xreb.EndTime(now)` -/
  | endTime
deriving DecidableEq, Repr

/-- The rebalance activity `xactRebBase` as the walkers see it: its printed
form (`String()`) and its abort flag (`Aborted()`, set by `Abort()`). -/
structure xactRebBase where
  str : String
  aborted : Bool
deriving DecidableEq, Repr

/-- The method `xreb.Abort()`. -/
def xactRebBase.Abort (x : xactRebBase) : xactRebBase := { x with aborted := true }

/-- Helpers called by `rebalance.go` whose source is elsewhere, taken as
parameters: the walk-error classifier `cmn.PathWalkErr`, the placement oracle
`hrwTarget` (result and error string), `filepath.Join`, `filepath.Dir`, and
the configuration constants read by `persistentMarker`. -/
structure Deps where
  PathWalkErr : GoError → String
  hrwTarget : String → String → smapX → Snode × String
  Join : String → String → String
  Dir : String → String
  Confdir : String
  LocalRebMarker : String
  GlobalRebMarker : String

/-- Modelled from the spec: `cluster.Uname`, the key of the per-object lock
registry, is not in the sources at hand; the registry is keyed by
`bucket/object`. -/
def Uname (bucket objname : String) : String := bucket ++ "/" ++ objname

/-- The fields of `rebJoggerBase` that `walk` reads or writes; `self` is
`rj.t.si.DaemonID`. -/
structure rebJoggerBase where
  self : String
  mpath : String
  objectsMoved : Int
  bytesMoved : Int
deriving DecidableEq, Repr

/-- The struct `globalRebJogger`. -/
structure globalRebJogger where
  base : rebJoggerBase
  smap : smapX
deriving DecidableEq, Repr

/-- The struct `localRebJogger` (the slab and the buffer carry no state the
model needs). -/
structure localRebJogger where
  base : rebJoggerBase
deriving DecidableEq, Repr

/-! ## Global walker -/

/-- One invocation of `globalRebJogger.walk`: its arguments and what every
call it may make on the entry returns. -/
structure GEntry where
  /-- argument `fqn` -/
  fqn : String
  /-- argument `err` -/
  err : Option GoError
  /-- `fi.Mode().IsDir()` -/
  isDir : Bool
  /-- `fi.Size()` -/
  size : Int
  /-- error string of `lom.Fill("", 0)` -/
  fillErr : String
  /-- `lom.Bucket` after the first fill -/
  bucket : String
  /-- `lom.Objname` after the first fill -/
  objname : String
  /-- `lom.BckIsLocal` -/
  bckIsLocal : Bool
  /-- error string of `lom.Fill("", LomAtime|LomCksum|LomCksumMissingRecomp)` -/
  fillAttrsErr : String
  /-- `lom.Exists()` -/
  lomExists : Bool
  /-- `lom.IsCopy()` -/
  isCopy : Bool
  /-- `lom.Atime().UnixNano()` -/
  atime : Int
  /-- `lom.Cksum().Get()` -/
  cksumType : String
  /-- second component of `lom.Cksum().Get()` -/
  cksumValue : String
  /-- `lom.Version()` -/
  version : String
  /-- error of `cmn.NewFileHandle(lom.FQN)` -/
  openErr : Option GoError
  /-- error returned by `streams.SendV` -/
  sendErr : Option GoError
  /-- error handed to the completion callback of an accepted send -/
  cbErr : Option GoError
deriving DecidableEq, Repr

/-- Modelled from the spec: `lom.Uname()` is not in the sources at hand; it is
the registry key of the locator's bucket and object name. -/
def GEntry.lomUname (e : GEntry) : String := Uname e.bucket e.objname

/-- The transfer header built by `globalRebJogger.walk`. -/
def GEntry.hdr (self : String) (e : GEntry) : Header :=
  { Bucket := e.bucket, Objname := e.objname, IsLocal := e.bckIsLocal, Opaque := self,
    ObjAttrs := { Size := e.size, Atime := e.atime, CksumType := e.cksumType,
                  CksumValue := e.cksumValue, Version := e.version } }

/-- Result of one `walk` of a global walker: the returned error, the walker
and the activity afterwards, the calls made, and the header of a send the
bundle accepted (its completion callback is still to run). -/
structure GWalkResult where
  err : Option GoError
  rj : globalRebJogger
  xreb : xactRebBase
  events : List Event
  pending : Option Header
deriving DecidableEq, Repr

/-- The method `globalRebJogger.rebalanceObjCallback`. -/
def globalRebJogger.rebalanceObjCallback (rj : globalRebJogger) (hdr : Header)
    (err : Option GoError) : globalRebJogger × List Event :=
  let uname := Uname hdr.Bucket hdr.Objname
  let rj1 : globalRebJogger :=
    match err with
    | some _ => rj
    | none =>
      { rj with base := { rj.base with
          objectsMoved := addInt64 rj.base.objectsMoved 1,
          bytesMoved := addInt64 rj.base.bytesMoved hdr.ObjAttrs.Size } }
  (rj1, [Event.unlock uname, Event.wgDone])

/-- The method `globalRebJogger.walk`. -/
def globalRebJogger.walk (d : Deps) (rj : globalRebJogger) (xreb : xactRebBase)
    (e : GEntry) : GWalkResult :=
  if xreb.aborted then
    ⟨some (errorsNew (xreb.str ++ ": aborted, path " ++ rj.base.mpath)), rj, xreb, [], none⟩
  else
    match e.err with
    | some err =>
      if d.PathWalkErr err ≠ "" then ⟨some err, rj, xreb, [], none⟩
      else ⟨none, rj, xreb, [], none⟩
    | none =>
      if e.isDir then ⟨none, rj, xreb, [], none⟩
      else if e.fillErr ≠ "" then ⟨none, rj, xreb, [], none⟩
      else
        let si := (d.hrwTarget e.bucket e.objname rj.smap).1
        let errstr := (d.hrwTarget e.bucket e.objname rj.smap).2
        if errstr ≠ "" then ⟨some (errorsNew errstr), rj, xreb, [], none⟩
        else if si.DaemonID = rj.base.self then ⟨none, rj, xreb, [], none⟩
        else if e.fillAttrsErr ≠ "" then
          ⟨some (errorsNew e.fillAttrsErr), rj, xreb, [], none⟩
        else if !e.lomExists || e.isCopy then ⟨none, rj, xreb, [], none⟩
        else
          match e.openErr with
          | some err =>
            ⟨some err, rj, xreb,
              [Event.lock e.lomUname, Event.openFile e.fqn, Event.unlock e.lomUname], none⟩
          | none =>
            let hdr := e.hdr rj.base.self
            match e.sendErr with
            | some err =>
              ⟨some err, rj, xreb,
                [Event.lock e.lomUname, Event.openFile e.fqn, Event.wgAdd,
                 Event.sendV hdr si.DaemonID, Event.unlock e.lomUname, Event.wgDone], none⟩
            | none =>
              ⟨none, rj, xreb,
                [Event.lock e.lomUname, Event.openFile e.fqn, Event.wgAdd,
                 Event.sendV hdr si.DaemonID], some hdr⟩

/-- The completion of the send a `walk` left pending: the bundle runs the
callback once, with the completion error of the entry. -/
def globalRebJogger.complete (e : GEntry) (r : GWalkResult) : globalRebJogger × List Event :=
  match r.pending with
  | some hdr => r.rj.rebalanceObjCallback hdr e.cbErr
  | none => (r.rj, [])

/-- What a traversal meets, in order: an entry handed to `walk`, or an
`Abort()` of the activity by another party landing between two entries. -/
inductive GStep where
  | visit (e : GEntry)
  | extAbort
deriving DecidableEq, Repr

/-- Result of a traversal by a global walker. -/
structure GJogResult where
  err : Option GoError
  rj : globalRebJogger
  xreb : xactRebBase
  events : List Event
deriving DecidableEq, Repr

/-- The call `filepath.Walk(rj.mpath, rj.walk)`: `walk` is called on the
entries in order and the first non-nil return ends the traversal.  The
completion callback of an accepted send runs before the next entry. -/
def globalRebJogger.traverse (d : Deps) :
    globalRebJogger → xactRebBase → List GStep → GJogResult
  | rj, x, [] => ⟨none, rj, x, []⟩
  | rj, x, GStep.extAbort :: rest => globalRebJogger.traverse d rj x.Abort rest
  | rj, x, GStep.visit e :: rest =>
    let r := rj.walk d x e
    let c := globalRebJogger.complete e r
    match r.err with
    | some err => ⟨some err, c.1, r.xreb, r.events ++ c.2⟩
    | none =>
      let t := globalRebJogger.traverse d c.1 r.xreb rest
      ⟨t.err, t.rj, t.xreb, r.events ++ c.2 ++ t.events⟩

/-- The method `globalRebJogger.jog`. -/
def globalRebJogger.jog (d : Deps) (rj : globalRebJogger) (x : xactRebBase)
    (steps : List GStep) : GJogResult :=
  let t := rj.traverse d x steps
  ⟨t.err, t.rj, t.xreb, t.events ++ [Event.confirm, Event.wgDone]⟩

/-! ## Local walker -/

/-- One invocation of `localRebJogger.walk`: its arguments and what every call
it may make on the entry returns. -/
structure LEntry where
  /-- argument `fqn` -/
  fqn : String
  /-- argument `err` -/
  err : Option GoError
  /-- `fileInfo.IsDir()` -/
  isDir : Bool
  /-- `fileInfo.Size()` -/
  size : Int
  /-- error string of `lom.Fill("", LomFstat|LomCopy)` -/
  fillErr : String
  /-- `lom.Bucket` -/
  bucket : String
  /-- `lom.Objname` -/
  objname : String
  /-- `lom.Exists()` -/
  lomExists : Bool
  /-- `lom.IsCopy()` -/
  isCopy : Bool
  /-- `lom.Misplaced()` -/
  misplaced : Bool
  /-- `lom.HrwFQN` -/
  hrwFQN : String
  /-- error of `cmn.CreateDir(dir)` -/
  createDirErr : Option GoError
  /-- error of `lom.CopyObject(lom.HrwFQN, rj.buf)` -/
  copyErr : Option GoError
deriving DecidableEq, Repr

/-- Modelled from the spec: `lom.Uname()` is not in the sources at hand; it is
the registry key of the locator's bucket and object name. -/
def LEntry.lomUname (e : LEntry) : String := Uname e.bucket e.objname

/-- Result of one `walk` of a local walker. -/
structure LWalkResult where
  err : Option GoError
  rj : localRebJogger
  xreb : xactRebBase
  events : List Event
deriving DecidableEq, Repr

/-- The method `localRebJogger.walk`. -/
def localRebJogger.walk (d : Deps) (rj : localRebJogger) (xreb : xactRebBase)
    (e : LEntry) : LWalkResult :=
  if xreb.aborted then
    ⟨some (errorsNew (xreb.str ++ " aborted, path " ++ rj.base.mpath)), rj, xreb, []⟩
  else
    match e.err with
    | some err =>
      if d.PathWalkErr err ≠ "" then ⟨some err, rj, xreb, []⟩
      else ⟨none, rj, xreb, []⟩
    | none =>
      if e.isDir then ⟨none, rj, xreb, []⟩
      else if e.fillErr ≠ "" then ⟨none, rj, xreb, []⟩
      else if !e.lomExists || e.isCopy then ⟨none, rj, xreb, []⟩
      else if !e.misplaced then ⟨none, rj, xreb, []⟩
      else
        let dir := d.Dir e.hrwFQN
        match e.createDirErr with
        | some err =>
          ⟨none, rj, xreb.Abort, [Event.createDir dir, Event.fshc err e.hrwFQN]⟩
        | none =>
          match e.copyErr with
          | some err =>
            if !err.notExist then
              ⟨some err, rj, xreb.Abort,
                [Event.createDir dir, Event.lock e.lomUname,
                 Event.copyObject e.fqn e.hrwFQN, Event.unlock e.lomUname,
                 Event.fshc err e.hrwFQN]⟩
            else
              ⟨none, rj, xreb,
                [Event.createDir dir, Event.lock e.lomUname,
                 Event.copyObject e.fqn e.hrwFQN, Event.unlock e.lomUname]⟩
          | none =>
            ⟨none,
              { rj with base := { rj.base with
                  objectsMoved := addInt64 rj.base.objectsMoved 1,
                  bytesMoved := addInt64 rj.base.bytesMoved e.size } },
              xreb,
              [Event.createDir dir, Event.lock e.lomUname,
               Event.copyObject e.fqn e.hrwFQN, Event.unlock e.lomUname]⟩

/-- What a local traversal meets, in order. -/
inductive LStep where
  | visit (e : LEntry)
  | extAbort
deriving DecidableEq, Repr

/-- Result of a traversal by a local walker. -/
structure LJogResult where
  err : Option GoError
  rj : localRebJogger
  xreb : xactRebBase
  events : List Event
deriving DecidableEq, Repr

/-- The call `filepath.Walk(rj.mpath, rj.walk)` of a local walker. -/
def localRebJogger.traverse (d : Deps) :
    localRebJogger → xactRebBase → List LStep → LJogResult
  | rj, x, [] => ⟨none, rj, x, []⟩
  | rj, x, LStep.extAbort :: rest => localRebJogger.traverse d rj x.Abort rest
  | rj, x, LStep.visit e :: rest =>
    let r := rj.walk d x e
    match r.err with
    | some err => ⟨some err, r.rj, r.xreb, r.events⟩
    | none =>
      let t := localRebJogger.traverse d r.rj r.xreb rest
      ⟨t.err, t.rj, t.xreb, r.events ++ t.events⟩

/-- The method `localRebJogger.jog`. -/
def localRebJogger.jog (d : Deps) (rj : localRebJogger) (x : xactRebBase)
    (steps : List LStep) : LJogResult :=
  let t := rj.traverse d x steps
  ⟨t.err, t.rj, t.xreb,
    [Event.slabAlloc] ++ t.events ++ [Event.confirm, Event.slabFree, Event.wgDone]⟩

/-! ## Rebalance manager -/

/-- Durable state the manager acts on: the marker files present on disk, the
registered global and local activities (`xactions.findU`), whether the
get-from-neighbor lookups are active, and the calls made so far. -/
structure World where
  files : List String
  xGlobal : Option xactRebBase
  xLocal : Option xactRebBase
  gfnGlobal : Bool
  gfnLocal : Bool
  trace : List Event
deriving DecidableEq, Repr

/-- How a run of the manager ended: it returned, it is stuck for ever on a
channel send or a wait group, or the process panicked. -/
inductive Status where
  | returned
  | blocked
  | panicked
deriving DecidableEq, Repr

/-- End of a run: how it ended and the state it left. -/
structure Outcome where
  status : Status
  world : World
deriving DecidableEq, Repr

/-- The constant `localRebType`. -/
def localRebType : Nat := 0

/-- The constant `globalRebType`. -/
def globalRebType : Nat := 1

/-- The function `persistentMarker`. -/
def persistentMarker (d : Deps) (rebType : Nat) : String :=
  match rebType with
  | 0 => d.Join d.Confdir d.LocalRebMarker
  | 1 => d.Join d.Confdir d.GlobalRebMarker
  | _ => ""

/-- The call `cmn.CreateFile(path)` on the set of files: it fails when the
file system reports an error, and always for the empty path, which names no
file; on success the file exists afterwards. -/
def CreateFile (path : String) (fsErr : Option GoError) (files : List String) :
    Bool × List String :=
  if path = "" then (false, files)
  else
    match fsErr with
    | some _ => (false, files)
    | none => (true, if path ∈ files then files else path :: files)

/-- The call `os.Remove(path)` on the set of files: without an error the file
is gone afterwards, with an error nothing changes. -/
def osRemove (path : String) (fsErr : Option GoError) (files : List String) : List String :=
  match fsErr with
  | some _ => files
  | none => files.filter (fun f => f ≠ path)

/-- Modelled from the spec: the names of the stats counters
(`stats.RebGlobalCount` and its siblings) are constants of the stats package
that are not in the sources at hand. -/
def RebGlobalCount : String := "reb.global.n"

/-- Modelled from the spec: the constant `stats.RebGlobalSize`. -/
def RebGlobalSize : String := "reb.global.size"

/-- Modelled from the spec: the constant `stats.RebLocalCount`. -/
def RebLocalCount : String := "reb.local.n"

/-- Modelled from the spec: the constant `stats.RebLocalSize`. -/
def RebLocalSize : String := "reb.local.size"

/-- Sum of `int64` values as the `+=` loops compute it. -/
def sumInt64 (xs : List Int) : Int := xs.foldl addInt64 0

/-- The method `rebManager.abortGlobalReb`; `removeErr` is the result of
`os.Remove`. -/
def abortGlobalReb (d : Deps) (removeErr : Option GoError) (w : World) : World :=
  match w.xGlobal with
  | none => w
  | some xx =>
    let pmarker := persistentMarker d globalRebType
    { w with
      xGlobal := some xx.Abort,
      files := osRemove pmarker removeErr w.files,
      trace := w.trace ++ [Event.removeFile pmarker] }

/-- The finalization block shared in shape by `runGlobalReb` and
`runLocalReb` (`if pmarker != ""` up to the stats update); `countName` and
`sizeName` are the two stats counters of the rebalance kind. -/
def finalization (pmarker : String) (countName sizeName : String)
    (objectsMoved bytesMoved : List Int) (aborted : Bool) (removeErr : Option GoError)
    (w : World) : World :=
  if pmarker ≠ "" then
    let totalObjectsMoved := sumInt64 objectsMoved
    let totalBytesMoved := sumInt64 bytesMoved
    let w1 : World :=
      if !aborted then
        { w with files := osRemove pmarker removeErr w.files,
                 trace := w.trace ++ [Event.removeFile pmarker] }
      else w
    if totalObjectsMoved > 0 then
      { w1 with trace := w1.trace ++ [Event.statsAdd countName totalObjectsMoved,
                                      Event.statsAdd sizeName totalBytesMoved] }
    else w1
  else w

/-- The struct `fs.MountpathInfo`, reduced to the two walker roots
`MakePath(fs.ObjectType, false)` and `MakePath(fs.ObjectType, true)`. -/
structure MountpathInfo where
  pathC : String
  pathL : String
deriving DecidableEq, Repr

/-- The roots of the walkers in spawn order: two per mountpath. -/
def walkerPaths (availablePaths : List MountpathInfo) : List String :=
  availablePaths.flatMap (fun m => [m.pathC, m.pathL])

/-- The method `rebManager.pollRebalancingDone`: the wait group is set to
`len(Tmap) - 1` and one waiter is started per target other than self.  A
negative count panics at `Add`; a counter that is never brought to zero blocks
`Wait` for ever; otherwise `Wait` returns once `len(Tmap) - 1` waiters are
done (the waiters in excess are counted by `surplusWaiters`). -/
def pollRebalancingDone (self : String) (newSmap : smapX) : Status × List Event :=
  let n : Int := (newSmap.Tmap.length : Int) - 1
  if n < 0 then (Status.panicked, [])
  else
    let peers := newSmap.Tmap.filter (fun si => si.DaemonID ≠ self)
    let evs := peers.map (fun si => Event.waitFinish si.DaemonID newSmap.Version)
    if (peers.length : Int) < n then (Status.blocked, evs)
    else (Status.returned, evs ++ [Event.pollDone])

/-- The waiters of `pollRebalancingDone` in excess of the wait-group count
`len(Tmap) - 1`: `wg.Wait` does not wait for them, and the `wg.Done` of each,
in a goroutine of its own, finds the counter at zero and panics. -/
def surplusWaiters (self : String) (newSmap : smapX) : Nat :=
  (newSmap.Tmap.filter (fun si => si.DaemonID ≠ self)).length - (newSmap.Tmap.length - 1)

/-- Inputs of a run of `runGlobalReb`. -/
structure GlobalEnv where
  /-- `reb.t.si.DaemonID` -/
  self : String
  /-- result of `reb.pingTarget(si, config)` -/
  pingTarget : Snode → Bool
  /-- `fs.Mountpaths.Get()` -/
  availablePaths : List MountpathInfo
  /-- result of `xactions.renewGlobalReb(ver, runnerCnt)`, `none` for nil -/
  renew : Option xactRebBase
  /-- what `cmn.CreateFile(pmarker)` meets -/
  createErr : Option GoError
  /-- what `os.Remove(pmarker)` meets -/
  removeErr : Option GoError
  /-- what the traversal of the tree rooted at a path meets -/
  tree : String → List GStep
  /-- an `Abort()` by another party after the walkers are done and before the
  flag is read -/
  abortAtJoin : Bool

/-- The walkers of a global run, each run to completion in spawn order. -/
def runGlobalJoggers (d : Deps) (self : String) (smap : smapX) (tree : String → List GStep) :
    List String → xactRebBase → List globalRebJogger × xactRebBase × List Event
  | [], x => ([], x, [])
  | p :: ps, x =>
    let rc : globalRebJogger := { base := ⟨self, p, 0, 0⟩, smap := smap }
    let j := rc.jog d x (tree p)
    let rest := runGlobalJoggers d self smap tree ps j.xreb
    (j.rj :: rest.1, rest.2.1, [Event.wgAdd, Event.spawn p] ++ j.events ++ rest.2.2)

/-- State of a run when all walkers have joined (`wg.Wait()` returned): the
marker path (empty when the marker could not be created), the walkers, the
activity and the world. -/
structure GlobalJoined where
  pmarker : String
  joggers : List globalRebJogger
  xreb : xactRebBase
  world : World
deriving DecidableEq, Repr

/-- The part of `runGlobalReb` from the deactivation of get-from-neighbor to
the join of the walkers. -/
def globalKickoff (d : Deps) (env : GlobalEnv) (w : World) (smap : smapX)
    (xreb : xactRebBase) : GlobalJoined :=
  let pmarker := persistentMarker d globalRebType
  let created := CreateFile pmarker env.createErr w.files
  let js := runGlobalJoggers d env.self smap env.tree (walkerPaths env.availablePaths) xreb
  let xj := if env.abortAtJoin then js.2.1.Abort else js.2.1
  { pmarker := if created.1 then pmarker else "",
    joggers := js.1,
    xreb := xj,
    world :=
      { w with xGlobal := some xj, gfnGlobal := false, files := created.2,
               trace := w.trace ++ [Event.resync, Event.createFile pmarker] ++ js.2.2 } }

/-- The end of `runGlobalReb`: the termination barrier when self is the new
target, then `xreb.EndTime`. -/
def globalBarrier (env : GlobalEnv) (smap : smapX) (newTargetID : String) (w : World) :
    Outcome :=
  if newTargetID = env.self then
    let p := pollRebalancingDone env.self smap
    match p.1 with
    | Status.returned =>
      ⟨Status.returned, { w with trace := w.trace ++ p.2 ++ [Event.endTime] }⟩
    | st => ⟨st, { w with trace := w.trace ++ p.2 }⟩
  else ⟨Status.returned, { w with trace := w.trace ++ [Event.endTime] }⟩

/-- The method `rebManager.runGlobalReb`. -/
def runGlobalReb (d : Deps) (env : GlobalEnv) (w : World) (smap : smapX)
    (newTargetID : String) : Outcome :=
  let cnt : Int := smap.CountTargets - 1
  if cnt < 0 then ⟨Status.panicked, w⟩
  else
    let peers := smap.Tmap.filter (fun si => si.DaemonID ≠ env.self)
    let cancelCh := peers.filter (fun si => !env.pingTarget si)
    if (cancelCh.length : Int) > cnt then ⟨Status.blocked, w⟩
    else if cancelCh.length > 0 then ⟨Status.returned, w⟩
    else
      match env.renew with
      | none => ⟨Status.returned, w⟩
      | some xreb =>
        let k := globalKickoff d env w smap xreb
        let w2 := finalization k.pmarker RebGlobalCount RebGlobalSize
                    (k.joggers.map (fun j => j.base.objectsMoved))
                    (k.joggers.map (fun j => j.base.bytesMoved))
                    k.xreb.aborted env.removeErr k.world
        globalBarrier env smap newTargetID w2

/-- Inputs of a run of `runLocalReb`. -/
structure LocalEnv where
  /-- `reb.t.si.DaemonID` -/
  self : String
  /-- `fs.Mountpaths.Get()` -/
  availablePaths : List MountpathInfo
  /-- result of `xactions.renewLocalReb(runnerCnt)` -/
  renew : xactRebBase
  /-- what `cmn.CreateFile(pmarker)` meets -/
  createErr : Option GoError
  /-- what `os.Remove(pmarker)` meets -/
  removeErr : Option GoError
  /-- what the traversal of the tree rooted at a path meets -/
  tree : String → List LStep
  /-- an `Abort()` by another party after the walkers are done and before the
  flag is read -/
  abortAtJoin : Bool

/-- The walkers of a local run, each run to completion in spawn order. -/
def runLocalJoggers (d : Deps) (self : String) (tree : String → List LStep) :
    List String → xactRebBase → List localRebJogger × xactRebBase × List Event
  | [], x => ([], x, [])
  | p :: ps, x =>
    let jogger : localRebJogger := { base := ⟨self, p, 0, 0⟩ }
    let j := jogger.jog d x (tree p)
    let rest := runLocalJoggers d self tree ps j.xreb
    (j.rj :: rest.1, rest.2.1, [Event.wgAdd, Event.spawn p] ++ j.events ++ rest.2.2)

/-- State of a local run when all walkers have joined. -/
structure LocalJoined where
  pmarker : String
  joggers : List localRebJogger
  xreb : xactRebBase
  world : World
deriving DecidableEq, Repr

/-- The part of `runLocalReb` up to the join of the walkers. -/
def localKickoff (d : Deps) (env : LocalEnv) (w : World) : LocalJoined :=
  let xreb := env.renew
  let pmarker := persistentMarker d localRebType
  let created := CreateFile pmarker env.createErr w.files
  let js := runLocalJoggers d env.self env.tree (walkerPaths env.availablePaths) xreb
  let xj := if env.abortAtJoin then js.2.1.Abort else js.2.1
  { pmarker := if created.1 then pmarker else "",
    joggers := js.1,
    xreb := xj,
    world :=
      { w with xLocal := some xj, gfnLocal := false, files := created.2,
               trace := w.trace ++ [Event.createFile pmarker] ++ js.2.2 } }

/-- The method `rebManager.runLocalReb`. -/
def runLocalReb (d : Deps) (env : LocalEnv) (w : World) : Outcome :=
  let k := localKickoff d env w
  let w2 := finalization k.pmarker RebLocalCount RebLocalSize
              (k.joggers.map (fun j => j.base.objectsMoved))
              (k.joggers.map (fun j => j.base.bytesMoved))
              k.xreb.aborted env.removeErr k.world
  ⟨Status.returned, { w2 with trace := w2.trace ++ [Event.endTime] }⟩

/-! ## Liveness probe and termination barrier of one peer -/

/-- Go `/` on `int64` for a non-zero divisor: the quotient truncated toward
zero. -/
def divInt64 (a b : Int) : Int := wrapInt64 (Int.tdiv a b)

/-- Go `*` on `int64`. -/
def mulInt64 (a b : Int) : Int := wrapInt64 (a * b)

/-- The durations (`time.Duration`, nanoseconds in an `int64`) read by
`pingTarget` and `waitForRebalanceFinish`: `keepaliveTimeoutDuration(config)`,
`keepaliveRetryDuration(config)`, `config.Rebalance.DestRetryTime`,
`config.Timeout.MaxKeepalive` and the constant `defaultTimeout`. -/
structure Config where
  keepaliveTimeout : Int
  keepaliveRetry : Int
  DestRetryTime : Int
  MaxKeepalive : Int
  defaultTimeout : Int
deriving DecidableEq, Repr

/-- Calls made toward one peer, in program order. -/
inductive NetEvent where
  /-- GET of the health endpoint, with `callArgs.timeout` -/
  | health (timeout : Int)
  /-- GET of the daemon endpoint with `what=smap`, with `callArgs.timeout` -/
  | smap (timeout : Int)
  /-- `time.Sleep(keepaliveRetryDuration(config))` -/
  | sleep (d : Int)
  /-- `time.Sleep(NeighborRebalanceStartDelay)` -/
  | settle
deriving DecidableEq, Repr

/-- The retry loop of `pingTarget`: `n` iterations are left, `i` is the loop
counter, `timeout` is `callArgs.timeout`; `healthOk i` tells whether call
number `i` comes back without error.  The result is `ok` and the calls made. -/
def pingLoop (config : Config) (healthOk : Nat → Bool) :
    Nat → Nat → Int → Bool × List NetEvent
  | 0, _, _ => (false, [])
  | n + 1, i, timeout =>
    if healthOk i then (true, [NetEvent.health timeout])
    else
      let t1 := addInt64 timeout (divInt64 timeout 2)
      let t2 := if t1 > config.MaxKeepalive then config.MaxKeepalive else t1
      let r := pingLoop config healthOk n (i + 1) t2
      (r.1, NetEvent.health timeout :: NetEvent.sleep config.keepaliveRetry :: r.2)

/-- The method `rebManager.pingTarget`; `none` is the panic of the integer
division by a zero timeout. -/
def pingTarget (config : Config) (healthOk : Nat → Bool) : Option (Bool × List NetEvent) :=
  let timeout := config.keepaliveTimeout
  if timeout = 0 then none
  else
    let retries := divInt64 config.DestRetryTime timeout
    some (pingLoop config healthOk retries.toNat 1 timeout)

/-- The error of a call as `waitForRebalanceFinish` tells it apart:
`context.DeadlineExceeded` or any other error. -/
inductive CallErr where
  | deadline
  | other
deriving DecidableEq, Repr

/-- Result of a snapshot call: `res.err`, and the version of the snapshot
decoded from `res.outjson` (`none` when `jsoniter.Unmarshal` fails). -/
structure SmapRes where
  err : Option CallErr
  version : Option Int
deriving DecidableEq, Repr

/-- Result of a health call: `res.err`, and `status.IsRebalancing` decoded
from `res.outjson` (`none` when `jsoniter.Unmarshal` fails). -/
structure HealthRes where
  err : Option CallErr
  isRebalancing : Option Bool
deriving DecidableEq, Repr

/-- What the peer answers: to the snapshot call that opens iteration `k` of
phase 1, to the retry of that iteration, and to health call `k` of phase 3. -/
structure Peer where
  first : Nat → SmapRes
  retry : Nat → SmapRes
  health : Nat → HealthRes

/-- How a loop of `waitForRebalanceFinish` stands: it left through `return`,
it left through `break`, or it is still polling (iterations used up). -/
inductive LoopExit where
  | returned
  | broke
  | polling
deriving DecidableEq, Repr

/-- Phase 1 of `waitForRebalanceFinish`: at most `fuel` iterations from
iteration `k` on, `timeout` being `args.timeout`. -/
def waitPhase1 (config : Config) (rebalanceVersion : Int) (peer : Peer) :
    Nat → Nat → Int → List NetEvent × LoopExit
  | 0, _, _ => ([], LoopExit.polling)
  | fuel + 1, k, timeout =>
    let res0 := peer.first k
    let retried : Bool := res0.err = some CallErr.deadline
    let timeout1 := if retried then mulInt64 config.keepaliveTimeout 2 else timeout
    let res := if retried then peer.retry k else res0
    let evs := if retried then [NetEvent.smap timeout, NetEvent.smap timeout1]
               else [NetEvent.smap timeout]
    match res.err with
    | some _ => (evs, LoopExit.returned)
    | none =>
      match res.version with
      | none => (evs, LoopExit.returned)
      | some v =>
        if v ≥ rebalanceVersion then (evs, LoopExit.broke)
        else
          let r := waitPhase1 config rebalanceVersion peer fuel (k + 1) timeout1
          (evs ++ NetEvent.sleep config.keepaliveRetry :: r.1, r.2)

/-- Phase 3 of `waitForRebalanceFinish`: at most `fuel` iterations from health
call `k` on. -/
def waitPhase3 (config : Config) (peer : Peer) : Nat → Nat → List NetEvent × LoopExit
  | 0, _ => ([], LoopExit.polling)
  | fuel + 1, k =>
    let res := peer.health k
    match res.err with
    | some _ => ([NetEvent.health config.defaultTimeout], LoopExit.broke)
    | none =>
      match res.isRebalancing with
      | none => ([NetEvent.health config.defaultTimeout], LoopExit.broke)
      | some false => ([NetEvent.health config.defaultTimeout], LoopExit.broke)
      | some true =>
        let r := waitPhase3 config peer fuel (k + 1)
        (NetEvent.health config.defaultTimeout :: NetEvent.sleep config.keepaliveRetry :: r.1,
         r.2)

/-- Result of `waitForRebalanceFinish` run for a bounded number of loop
iterations: whether it has returned, and the calls made so far. -/
structure WaitResult where
  done : Bool
  events : List NetEvent
deriving DecidableEq, Repr

/-- The method `rebManager.waitForRebalanceFinish`, each of its two loops
given `fuel` iterations. -/
def waitForRebalanceFinish (config : Config) (peer : Peer) (rebalanceVersion : Int)
    (fuel : Nat) : WaitResult :=
  let p1 := waitPhase1 config rebalanceVersion peer fuel 0 config.defaultTimeout
  match p1.2 with
  | LoopExit.returned => ⟨true, p1.1⟩
  | LoopExit.polling => ⟨false, p1.1⟩
  | LoopExit.broke =>
    let p3 := waitPhase3 config peer fuel 0
    ⟨p3.2 = LoopExit.broke, p1.1 ++ NetEvent.settle :: p3.1⟩

/-! ## Inbound object receiver -/

/-- Modelled from the spec: the names of the receive counters
(`stats.RxCount`, `stats.RxSize`) are constants of the stats package that are
not in the sources at hand. -/
def RxCount : String := "rx.n"

/-- Modelled from the spec: the constant `stats.RxSize`. -/
def RxSize : String := "rx.size"

/-- What `recvRebalanceObj` leaves behind: the access time and the version set
on the locator of the received object (when it got that far) and the stats
updates made. -/
structure RecvResult where
  lomAtime : Option Int
  lomVersion : Option String
  stats : List Event
deriving DecidableEq, Repr

/-- The method `rebManager.recvRebalanceObj`; `initErr` is the result of
`roi.init()` and `recvErr` that of `roi.recv()`. -/
def recvRebalanceObj (hdr : Header) (err initErr recvErr : Option GoError) : RecvResult :=
  match err with
  | some _ => ⟨none, none, []⟩
  | none =>
    match initErr with
    | some _ => ⟨none, none, []⟩
    | none =>
      match recvErr with
      | some _ => ⟨some hdr.ObjAttrs.Atime, some hdr.ObjAttrs.Version, []⟩
      | none =>
        ⟨some hdr.ObjAttrs.Atime, some hdr.ObjAttrs.Version,
          [Event.statsAdd RxCount 1, Event.statsAdd RxSize hdr.ObjAttrs.Size]⟩

/-! ## Bucket identity: `cmn/bucket.go`

Go strings are taken as sequences of characters; the two markers searched for
are ASCII. -/

/-- The constant `NsUUIDPrefix`. -/
def NsUUIDPrefix : Char := '@'

/-- The constant `NsNamePrefix`. -/
def NsNamePrefix : Char := '#'

/-- The constant `BckProviderSeparator`. -/
def BckProviderSeparator : String := "://"

/-- The struct `Ns`. -/
structure Ns where
  UUID : String
  Name : String
deriving DecidableEq, Repr

/-- The struct `Bck`. -/
structure Bck where
  Name : String
  Provider : String
  Ns : Ns
deriving DecidableEq, Repr

/-- The variable `NsGlobal`. -/
def NsGlobal : Ns := ⟨"", ""⟩

/-- The method `Ns.IsGlobal`. -/
def Ns.IsGlobal (n : Ns) : Bool := n = NsGlobal

/-- The function `ParseNsUname`. -/
def ParseNsUname (s : String) : Ns :=
  let s1 : List Char :=
    if s.data.length > 0 ∧ s.data.head? = some NsUUIDPrefix then s.data.drop 1 else s.data
  let idx := s1.indexOf NsNamePrefix
  if idx = s1.length then ⟨String.mk s1, ""⟩
  else ⟨String.mk (s1.take idx), String.mk (s1.drop (idx + 1))⟩

/-- The method `Ns.Uname`. -/
def Ns.Uname (n : Ns) : String :=
  String.singleton NsUUIDPrefix ++ n.UUID ++ String.singleton NsNamePrefix ++ n.Name

/-- The method `Ns.String`. -/
def Ns.String (n : Ns) : String :=
  if n.IsGlobal then ""
  else
    let res := ""
    let res := if n.UUID ≠ "" then res ++ (String.singleton NsUUIDPrefix ++ n.UUID) else res
    let res := if n.Name ≠ "" then res ++ (String.singleton NsNamePrefix ++ n.Name) else res
    res

/-- The method `Bck.String`. -/
def Bck.String (b : Bck) : String :=
  if b.Ns.IsGlobal then
    if b.Provider = "" then b.Name
    else b.Provider ++ BckProviderSeparator ++ b.Name
  else if b.Provider = "" then b.Ns.String ++ "/" ++ b.Name
  else b.Provider ++ BckProviderSeparator ++ b.Ns.String ++ "/" ++ b.Name

/-! ## Disk metric names: `stats/common_prom.go` -/

/-- The function `strings.Split` for a separator of one character. -/
def stringsSplit (sep : Char) : List Char → List (List Char)
  | [] => [[]]
  | c :: cs =>
    if c = sep then [] :: stringsSplit sep cs
    else
      match stringsSplit sep cs with
      | seg :: segs => (c :: seg) :: segs
      | [] => [[c]]

/-- The scan of `strings.ReplaceAll` for a non-empty `old`: occurrences are
replaced from left to right without overlap; `fuel` bounds the steps. -/
def replaceAllAux (old new : List Char) : Nat → List Char → List Char
  | 0, s => s
  | fuel + 1, s =>
    if old.isPrefixOf s then new ++ replaceAllAux old new fuel (s.drop old.length)
    else
      match s with
      | [] => []
      | c :: cs => c :: replaceAllAux old new fuel cs

/-- The function `strings.ReplaceAll`; an empty `old` matches before every
character and at the end. -/
def stringsReplaceAll (s old new : List Char) : List Char :=
  if old = [] then new ++ s.flatMap (fun c => c :: new)
  else replaceAllAux old new (s.length + 1) s

/-- The function `extractPromDiskMetricName`; `none` is the panic of the index
`[1]` on a name without a dot. -/
def extractPromDiskMetricName (name : String) : Option (String × String) :=
  match (stringsSplit '.' name.data)[1]? with
  | none => none
  | some diskName =>
    some (String.mk diskName,
      String.mk (stringsReplaceAll name.data ('.' :: diskName ++ ['.']) ['.']))

/-! ## Mountpath health checker: `health/fshc.go` -/

/-- The method `FSHC.isTestPassed`; `errorLimit` is `config.ErrorLimit`. -/
def isTestPassed (errorLimit : Int) (readErrors writeErrors : Int) (available : Bool) :
    Bool × Option GoError :=
  if !available then (false, some (errorsNew "mountpath is unavailable"))
  else
    let passed : Bool := readErrors < errorLimit ∧ writeErrors < errorLimit
    if !passed then
      (passed, some (errorsNew ("too many errors: " ++ toString readErrors ++
        " read error(s), " ++ toString writeErrors ++ " write error(s)")))
    else (passed, none)

/-- The method `FSHC.runMpathTest`, given what `testMountpath` returned: the
calls `DisableMountpath(mpath, reason)` made on the dispatcher. -/
def runMpathTest (errorLimit : Int) (mpath : String) (readErrs writeErrs : Int)
    (pathExists : Bool) : List (String × String) :=
  let r := isTestPassed errorLimit readErrs writeErrs pathExists
  if r.1 then []
  else
    match r.2 with
    | some whyFailed => [(mpath, whyFailed.msg)]
    | none => []

/-! ## Paged listing: `cmd/cli/commands/bucket.go` -/

/-- One round of the paged loop of `listObjects`: the error of
`api.ListObjectsPage`, the entries of the page, `msg.ContinuationToken` after
the call, and the error of `printObjectProps`. -/
structure ObjListPage where
  err : Option GoError
  Entries : List String
  token : String
  printErr : Option GoError
deriving DecidableEq, Repr

/-- Result of the paged loop: whether it has returned (it has not when the
pages at hand are used up), the error returned, the entries handed to each
call of `printObjectProps`, and the number of pages fetched. -/
structure PagedResult where
  returned : Bool
  err : Option GoError
  printed : List (List String)
  fetched : Nat
deriving DecidableEq, Repr

/-- The paged loop of `listObjects` (`if flagIsSet(c, pagedFlag)`), over the
pages the server returns in order, with the loop variables `pageCounter` and
`toShow`. -/
def listObjectsPaged (limit maxPages : Int) : List ObjListPage → Int → Int → PagedResult
  | [], _, _ => ⟨false, none, [], 0⟩
  | page :: rest, pageCounter, toShow =>
    match page.err with
    | some err => ⟨true, some err, [], 1⟩
    | none =>
      let toPrint :=
        if limit > 0 ∧ toShow < page.Entries.length then page.Entries.take toShow.toNat
        else page.Entries
      match page.printErr with
      | some err => ⟨true, some err, [toPrint], 1⟩
      | none =>
        if page.token = "" then ⟨true, none, [toPrint], 1⟩
        else if maxPages > 0 ∧ pageCounter + 1 ≥ maxPages then ⟨true, none, [toPrint], 1⟩
        else
          let toShow1 := if limit > 0 then toShow - page.Entries.length else toShow
          if limit > 0 ∧ toShow1 ≤ 0 then ⟨true, none, [toPrint], 1⟩
          else
            let r := listObjectsPaged limit maxPages rest (pageCounter + 1) toShow1
            ⟨r.returned, r.err, toPrint :: r.printed, r.fetched + 1⟩

/-! ## Node digests: `hrw-bench/helpers.go` -/

/-- The function `xorshift64` on the value of a `uint64`. -/
def xorshift64 (x : Nat) : Nat :=
  let x1 := x ^^^ (x >>> 12)
  let x2 := x1 ^^^ ((x1 <<< 25) % 2 ^ 64)
  let x3 := x2 ^^^ (x2 >>> 27)
  (x3 * 2685821657736338717) % 2 ^ 64

/-! ## Throttling: `fs/throttle.go` -/

/-- The constant `throttleBatch`. -/
def throttleBatch : Int := 0x1f

/-- The constant `throMiniBatch`. -/
def throMiniBatch : Int := 0x1f >>> 1

/-- The constant `throMicroBatch`. -/
def throMicroBatch : Int := 0x1f >>> 2

/-- Go `&` on `int64`: the bitwise and of the two's-complement bit patterns. -/
def andInt64 (a b : Int) : Int :=
  wrapInt64 ((((a % 2 ^ 64).toNat &&& (b % 2 ^ 64).toNat : Nat) : Int))

/-- The function `IsThrottle`. -/
def IsThrottle (n : Int) : Bool := andInt64 n throttleBatch = throttleBatch

/-- The function `IsMiniThrottle`. -/
def IsMiniThrottle (n : Int) : Bool := andInt64 n throMiniBatch = throMiniBatch

/-- The function `IsMicroThrottle`. -/
def IsMicroThrottle (n : Int) : Bool := andInt64 n throMicroBatch = throMicroBatch

/-! ## Specification vocabulary and sample data -/

/-- The run of `runGlobalReb` gets as far as the marker file and creates it:
the cancel channel can be made, every probed peer answers, the activity is
granted, and `cmn.CreateFile` succeeds. -/
def globalMarkerCreated (d : Deps) (env : GlobalEnv) (w : World) (smap : smapX) : Prop :=
  0 ≤ smap.CountTargets - 1 ∧
  (∀ si ∈ smap.Tmap, si.DaemonID ≠ env.self → env.pingTarget si = true) ∧
  env.renew.isSome = true ∧
  (CreateFile (persistentMarker d globalRebType) env.createErr w.files).1 = true

/-- The run of `runLocalReb` creates the marker file. -/
def localMarkerCreated (d : Deps) (env : LocalEnv) (w : World) : Prop :=
  (CreateFile (persistentMarker d localRebType) env.createErr w.files).1 = true

/-- Sample `filepath.Dir` on clean slash-separated paths: the path without
its last element. -/
def exDir (p : String) : String :=
  match p.data.reverse.dropWhile (fun c => c ≠ '/') with
  | [] => "."
  | [_] => "/"
  | _ :: rest => String.mk rest.reverse

/-- Sample helpers: only a missing path is not reportable, the oracle fails on
an empty snapshot and otherwise keeps the object named `mine` on the first
target and places every other object on the last one. -/
def exDeps : Deps :=
  { PathWalkErr := fun err => if err.notExist then "" else "walk: " ++ err.msg,
    hrwTarget := fun _ objname smap =>
      match smap.Tmap with
      | [] => (⟨"", "", ""⟩, "no targets")
      | si :: rest => if objname = "mine" then (si, "") else ((rest.getLast?).getD si, ""),
    Join := fun a b => a ++ "/" ++ b,
    Dir := exDir,
    Confdir := "/etc/ais",
    LocalRebMarker := ".localrebalancing",
    GlobalRebMarker := ".globalrebalancing" }

/-- Sample target A (self in the sample runs). -/
def exA : Snode := ⟨"A", "http://a", "http://a:1"⟩

/-- Sample target B. -/
def exB : Snode := ⟨"B", "http://b", "http://b:1"⟩

/-- Sample snapshot with targets A and B, version 7. -/
def exSmap : smapX := ⟨[exA, exB], 7⟩

/-- Sample object file that the oracle places on B and whose send succeeds. -/
def exEntry : GEntry :=
  { fqn := "/mp1/cloud/b/o2", err := none, isDir := false, size := 10, fillErr := "",
    bucket := "b", objname := "o2", bckIsLocal := false, fillAttrsErr := "",
    lomExists := true, isCopy := false, atime := 5, cksumType := "xxhash", cksumValue := "ab",
    version := "1", openErr := none, sendErr := none, cbErr := none }

/-- Sample run on target A: one mountpath, one object to move, all peers up. -/
def exEnv : GlobalEnv :=
  { self := "A", pingTarget := fun _ => true, availablePaths := [⟨"/mp1/cloud", "/mp1/local"⟩],
    renew := some ⟨"xaction", false⟩, createErr := none, removeErr := none,
    tree := fun p => if p = "/mp1/cloud" then [GStep.visit exEntry] else [],
    abortAtJoin := false }

/-- Sample local run on target A: one mountpath with nothing to move. -/
def exLocalEnv : LocalEnv :=
  { self := "A", availablePaths := [⟨"/mp1/cloud", "/mp1/local"⟩],
    renew := ⟨"xaction", false⟩, createErr := none, removeErr := none,
    tree := fun _ => [], abortAtJoin := false }

/-- Sample initial state: no marker, no activity, get-from-neighbor active. -/
def exWorld : World := ⟨[], none, none, true, true, []⟩

/-- Sample state during a global rebalance: the marker is on disk and the
activity is registered. -/
def exRunning : World :=
  ⟨["/etc/ais/.globalrebalancing"], some ⟨"xaction", false⟩, none, false, true, []⟩

/-- Sample run in which no peer answers the probes. -/
def exEnvDown : GlobalEnv := { exEnv with pingTarget := fun _ => false }

/-- Sample snapshot that holds target B only (target A, self, is not in it). -/
def exSmapB : smapX := ⟨[exB], 7⟩

/-- In the trace `tr` the marker `pm` is removed at a point where the
termination barrier has not returned yet, and the barrier returns later. -/
def removedBeforeBarrierReturn (tr : List Event) (pm : String) : Prop :=
  ∃ pre post, tr = pre ++ Event.removeFile pm :: post ∧
    Event.pollDone ∉ pre ∧ Event.pollDone ∈ post

/-- The calls made for one entry: those of `walk`, followed by those of the
completion callback when `walk` left a send pending. -/
def walkAndComplete (d : Deps) (rj : globalRebJogger) (x : xactRebBase) (e : GEntry) :
    List Event :=
  (rj.walk d x e).events ++ (globalRebJogger.complete e (rj.walk d x e)).2

/-- The entry is an object file (handed to `walk` without error, not a
directory, locator filled) and the placement oracle, under the walker's
snapshot, answers the target itself. -/
def placedOnSelf (d : Deps) (rj : globalRebJogger) (e : GEntry) : Prop :=
  e.err = none ∧ e.isDir = false ∧ e.fillErr = "" ∧
  (d.hrwTarget e.bucket e.objname rj.smap).2 = "" ∧
  (d.hrwTarget e.bucket e.objname rj.smap).1.DaemonID = rj.base.self

/-- Sample global walker of target A on the cloud tree of the mountpath. -/
def exJogger : globalRebJogger := { base := ⟨"A", "/mp1/cloud", 0, 0⟩, smap := exSmap }

/-- Sample activity, not aborted. -/
def exXact : xactRebBase := ⟨"xaction", false⟩

/-- Sample object file that the oracle keeps on A. -/
def exEntryMine : GEntry := { exEntry with fqn := "/mp1/cloud/b/mine", objname := "mine" }

/-- Sample header of a completed send. -/
def exHdr : Header := exEntry.hdr "A"

/-- Sample object file to be moved to B whose checksum cannot be read. -/
def exEntryBadAttrs : GEntry := { exEntry with fillAttrsErr := "no checksum" }

/-- Sample global walker whose snapshot holds no target. -/
def exJoggerNoTargets : globalRebJogger :=
  { base := ⟨"A", "/mp1/cloud", 0, 0⟩, smap := ⟨[], 7⟩ }

/-- Sample run in which another party aborts the activity before the join. -/
def exEnvAborted : GlobalEnv := { exEnv with abortAtJoin := true }

/-- Sample run in which the marker file cannot be created. -/
def exEnvNoMarker : GlobalEnv := { exEnv with createErr := some (errorsNew "read-only") }

/-- The `statsif.Add` calls of a trace, in order: counter name and value. -/
def statsCalls (tr : List Event) : List (String × Int) :=
  tr.filterMap (fun ev =>
    match ev with
    | Event.statsAdd name value => some (name, value)
    | _ => none)

/-- Number of steps the walkers of a global run meet, over all trees. -/
def globalVisits (env : GlobalEnv) : Nat :=
  ((walkerPaths env.availablePaths).map (fun p => (env.tree p).length)).sum

/-- Number of steps the walkers of a local run meet, over all trees. -/
def localVisits (env : LocalEnv) : Nat :=
  ((walkerPaths env.availablePaths).map (fun p => (env.tree p).length)).sum

/-- The `go jogger.jog()` calls of a trace, in order: the walker roots. -/
def spawnCalls (tr : List Event) : List String :=
  tr.filterMap (fun ev =>
    match ev with
    | Event.spawn mpath => some mpath
    | _ => none)

/-- The `os.Remove` calls of a trace, in order: the paths. -/
def removeCalls (tr : List Event) : List String :=
  tr.filterMap (fun ev =>
    match ev with
    | Event.removeFile path => some path
    | _ => none)

/-- The calls a global walker makes: locks, file opens, sends, wait-group
updates and the final confirmation. -/
def Event.isWalkerCall : Event → Bool
  | Event.lock _ => true
  | Event.unlock _ => true
  | Event.openFile _ => true
  | Event.wgAdd => true
  | Event.wgDone => true
  | Event.sendV _ _ => true
  | Event.confirm => true
  | _ => false

/-- The run of `runGlobalReb` passes liveness and is granted an activity, but
`cmn.CreateFile` fails on the marker. -/
def globalMarkerFailed (d : Deps) (env : GlobalEnv) (w : World) (smap : smapX) : Prop :=
  0 ≤ smap.CountTargets - 1 ∧
  (∀ si ∈ smap.Tmap, si.DaemonID ≠ env.self → env.pingTarget si = true) ∧
  env.renew.isSome = true ∧
  (CreateFile (persistentMarker d globalRebType) env.createErr w.files).1 = false

/-- The entry reaches the copy of `localRebJogger.walk`: it is handed over
without error, is not a directory, its locator is filled, the object exists,
is no replica, is misplaced, and its destination directory was created. -/
def reachesCopy (e : LEntry) : Prop :=
  e.err = none ∧ e.isDir = false ∧ e.fillErr = "" ∧ e.lomExists = true ∧
  e.isCopy = false ∧ e.misplaced = true ∧ e.createDirErr = none

/-- The entry reaches the creation of the destination directory in
`localRebJogger.walk`: a misplaced, existing object that is no replica. -/
def reachesCreateDir (e : LEntry) : Prop :=
  e.err = none ∧ e.isDir = false ∧ e.fillErr = "" ∧ e.lomExists = true ∧
  e.isCopy = false ∧ e.misplaced = true

/-- The object of the entry does not exist, is a replica copy, or is not
locally misplaced. -/
def nothingToMove (e : LEntry) : Prop :=
  e.lomExists = false ∨ e.isCopy = true ∨ e.misplaced = false

/-- The function `strings.Contains`. -/
def stringsContains (s substr : String) : Prop := substr.data <:+: s.data

/-- Modelled from the spec: the method `String()` of the activity is not in
the sources at hand.  The spec has the error returned on abort carry the token
`xaction`; that error starts with the printed form of the activity, which is
where the token comes from. -/
def xactRebBase.printsToken (x : xactRebBase) : Prop := stringsContains x.str "xaction"

/-- Sample local walker of target A on the cloud tree of the mountpath. -/
def exLocalJogger : localRebJogger := { base := ⟨"A", "/mp1/cloud", 0, 0⟩ }

/-- Sample misplaced object of ten bytes whose copy to the second mountpath
succeeds. -/
def exLEntry : LEntry :=
  { fqn := "/mp1/cloud/b/o3", err := none, isDir := false, size := 10, fillErr := "",
    bucket := "b", objname := "o3", lomExists := true, isCopy := false, misplaced := true,
    hrwFQN := "/mp2/cloud/b/o3", createDirErr := none, copyErr := none }

/-- Sample misplaced object whose source vanishes during the copy. -/
def exLEntryGone : LEntry := { exLEntry with copyErr := some ⟨"no such file", true⟩ }

/-- Sample misplaced object whose copy fails on the destination. -/
def exLEntryFull : LEntry := { exLEntry with copyErr := some ⟨"no space left", false⟩ }

/-- Sample misplaced object whose destination directory cannot be created. -/
def exLEntryNoDir : LEntry := { exLEntry with createDirErr := some ⟨"read-only", false⟩ }

/-- Sample object that is where it belongs. -/
def exLEntryInPlace : LEntry := { exLEntry with misplaced := false }

/-- Sample activity, aborted. -/
def exXactAborted : xactRebBase := ⟨"xaction", true⟩

/-- The timeouts of the health calls of a sequence of calls, in order. -/
def healthCalls (evs : List NetEvent) : List Int :=
  evs.filterMap (fun ev =>
    match ev with
    | NetEvent.health timeout => some timeout
    | _ => none)

/-- Sample configuration: keepalive timeout 2 s, retry interval 1 s, liveness
budget 6 s, timeout cap 4 s, default timeout 30 s. -/
def exConfig : Config :=
  { keepaliveTimeout := 2000000000, keepaliveRetry := 1000000000,
    DestRetryTime := 6000000000, MaxKeepalive := 4000000000,
    defaultTimeout := 30000000000 }

/-- Sample peer health: the second call is the first to succeed. -/
def exHealthSecond : Nat → Bool := fun i => i == 2

/-- Sample peer health: no call ever succeeds. -/
def exHealthNever : Nat → Bool := fun _ => false

/-- The answer phase 1 acts on in iteration `k`: that of the retry when the
first call ran into the deadline, that of the first call otherwise. -/
def Peer.answer (peer : Peer) (k : Nat) : SmapRes :=
  if (peer.first k).err = some CallErr.deadline then peer.retry k else peer.first k

/-- In iteration `k` of phase 1 a snapshot of version at least
`rebalanceVersion` is received from the peer. -/
def caughtUpAt (peer : Peer) (rebalanceVersion : Int) (k : Nat) : Prop :=
  (peer.answer k).err = none ∧
  ∃ v, (peer.answer k).version = some v ∧ v ≥ rebalanceVersion

/-- In iteration `k` of phase 1 an older snapshot is received from the peer. -/
def behindAt (peer : Peer) (rebalanceVersion : Int) (k : Nat) : Prop :=
  (peer.answer k).err = none ∧
  ∃ v, (peer.answer k).version = some v ∧ v < rebalanceVersion

/-- Iteration `k` of phase 1 fails: the call fails (after the single deadline
retry), or its response cannot be decoded. -/
def failsAt (peer : Peer) (k : Nat) : Prop :=
  (peer.answer k).err ≠ none ∨ (peer.answer k).version = none

/-- The calls contain the settling delay or a poll of the peer's health. -/
def entersPhase3 (evs : List NetEvent) : Prop :=
  NetEvent.settle ∈ evs ∨ ∃ t, NetEvent.health t ∈ evs

/-- Sample peer: its snapshot is one version behind at first, then current;
it is rebalancing at the first health poll and done at the second. -/
def exPeer : Peer :=
  { first := fun k => if k = 0 then ⟨none, some 6⟩ else ⟨none, some 7⟩,
    retry := fun _ => ⟨some CallErr.other, none⟩,
    health := fun k => if k = 0 then ⟨none, some true⟩ else ⟨none, some false⟩ }

/-- Sample peer: its snapshot is behind at first, then the call runs into the
deadline, and so does the retry. -/
def exPeerDown : Peer :=
  { first := fun k => if k = 0 then ⟨none, some 6⟩ else ⟨some CallErr.deadline, none⟩,
    retry := fun _ => ⟨some CallErr.deadline, none⟩,
    health := fun _ => ⟨none, some false⟩ }

/-- Sample peer: its first snapshot call runs into the deadline, the retry
brings a current snapshot; it is not rebalancing. -/
def exPeerSlow : Peer :=
  { first := fun _ => ⟨some CallErr.deadline, none⟩,
    retry := fun _ => ⟨none, some 7⟩,
    health := fun _ => ⟨none, some false⟩ }

/-- Sample bucket without provider in the global namespace. -/
def exBckPlain : Bck := ⟨"photos", "", NsGlobal⟩

/-- Sample bucket of provider `ais` in a namespace of a remote cluster. -/
def exBckRemote : Bck := ⟨"photos", "ais", ⟨"cluster1", "team"⟩⟩

/-- The daemon IDs of the targets of a snapshot. -/
def smapX.targetIDs (smap : smapX) : List String := smap.Tmap.map Snode.DaemonID

/-- The target map of a snapshot is a Go map keyed by daemon ID: no two of
its entries carry the same ID. -/
def smapX.keyedByID (smap : smapX) : Prop := smap.targetIDs.Nodup

/-- The targets of a snapshot other than `self`: the peers that
`runGlobalReb` probes and that `pollRebalancingDone` waits for. -/
def smapX.peersOf (smap : smapX) (self : String) : List Snode :=
  smap.Tmap.filter (fun si => si.DaemonID ≠ self)

/-- The entries of a sequence of pages, in order. -/
def allEntries (pages : List ObjListPage) : List String :=
  pages.flatMap (fun p => p.Entries)

/-- Sample listing of two pages, of three and of four entries. -/
def exPages : List ObjListPage :=
  [⟨none, ["a", "b", "c"], "t1", none⟩, ⟨none, ["d", "e", "f", "g"], "", none⟩]

/-- The statement `x ^= x >> 12` of `xorshift64`. -/
def xorshiftStepA (x : Nat) : Nat := x ^^^ (x >>> 12)

/-- The statement `x ^= x << 25` of `xorshift64`, on `uint64`. -/
def xorshiftStepB (x : Nat) : Nat := x ^^^ ((x <<< 25) % 2 ^ 64)

/-- The statement `x ^= x >> 27` of `xorshift64`. -/
def xorshiftStepC (x : Nat) : Nat := x ^^^ (x >>> 27)

/-- The final multiplication of `xorshift64`, on `uint64`. -/
def xorshiftMul (x : Nat) : Nat := (x * 2685821657736338717) % 2 ^ 64

/-- The map `f` sends 64-bit values to 64-bit values, one-to-one and onto. -/
def invertibleOn64 (f : Nat → Nat) : Prop :=
  (∀ x, x < 2 ^ 64 → f x < 2 ^ 64) ∧
  (∀ x y, x < 2 ^ 64 → y < 2 ^ 64 → f x = f y → x = y) ∧
  (∀ z, z < 2 ^ 64 → ∃ x, x < 2 ^ 64 ∧ f x = z)

/-- Sample configuration with a keepalive timeout of zero. -/
def exConfigZero : Config := { exConfig with keepaliveTimeout := 0 }

/-- Sample configuration with negative durations: keepalive timeout -2 s,
liveness budget -7 s. -/
def exConfigNeg : Config :=
  { exConfig with keepaliveTimeout := -2000000000, DestRetryTime := -7000000000 }

/-- Sample configuration whose liveness budget of 1 s is smaller than the
keepalive timeout of 2 s. -/
def exConfigShort : Config := { exConfig with DestRetryTime := 1000000000 }

/-- Sample peer: its first snapshot call runs into the deadline and the retry
brings an old snapshot; from the second iteration on the snapshot is current;
it is not rebalancing. -/
def exPeerSlowBehind : Peer :=
  { first := fun k => if k = 0 then ⟨some CallErr.deadline, none⟩ else ⟨none, some 7⟩,
    retry := fun _ => ⟨none, some 6⟩,
    health := fun _ => ⟨none, some false⟩ }

/-! ## Lemmas on the manager -/

theorem CreateFile_ok {p : String} {e : Option GoError} {fs : List String}
    (h : (CreateFile p e fs).1 = true) : p ≠ "" ∧ e = none ∧ p ∈ (CreateFile p e fs).2 := by
  unfold CreateFile at h ⊢
  by_cases hp : p = ""
  · simp [hp] at h
  · cases e with
    | some err => simp [hp] at h
    | none =>
      refine ⟨hp, rfl, ?_⟩
      by_cases hm : p ∈ fs <;> simp [hp, hm]

theorem finalization_files (pm cn sn : String) (os bs : List Int) (ab : Bool)
    (re : Option GoError) (w : World) :
    (finalization pm cn sn os bs ab re w).files =
      if pm ≠ "" ∧ ab = false then osRemove pm re w.files else w.files := by
  unfold finalization
  by_cases hp : pm = "" <;> cases ab <;> simp [hp] <;> split <;> rfl

theorem finalization_xGlobal (pm cn sn : String) (os bs : List Int) (ab : Bool)
    (re : Option GoError) (w : World) :
    (finalization pm cn sn os bs ab re w).xGlobal = w.xGlobal := by
  unfold finalization
  by_cases hp : pm = "" <;> cases ab <;> simp [hp] <;> split <;> rfl

theorem finalization_xLocal (pm cn sn : String) (os bs : List Int) (ab : Bool)
    (re : Option GoError) (w : World) :
    (finalization pm cn sn os bs ab re w).xLocal = w.xLocal := by
  unfold finalization
  by_cases hp : pm = "" <;> cases ab <;> simp [hp] <;> split <;> rfl

theorem globalBarrier_files (env : GlobalEnv) (smap : smapX) (t : String) (w : World) :
    (globalBarrier env smap t w).world.files = w.files := by
  unfold globalBarrier
  by_cases h : t = env.self
  · simp only [h, if_true]
    cases (pollRebalancingDone env.self smap).1 <;> rfl
  · simp only [h, if_false]

theorem globalBarrier_xGlobal (env : GlobalEnv) (smap : smapX) (t : String) (w : World) :
    (globalBarrier env smap t w).world.xGlobal = w.xGlobal := by
  unfold globalBarrier
  by_cases h : t = env.self
  · simp only [h, if_true]
    cases (pollRebalancingDone env.self smap).1 <;> rfl
  · simp only [h, if_false]

/-- When every probed peer answers, the cancel channel stays empty. -/
theorem cancelCh_nil (env : GlobalEnv) (smap : smapX)
    (hping : ∀ si ∈ smap.Tmap, si.DaemonID ≠ env.self → env.pingTarget si = true) :
    List.filter (fun si => !env.pingTarget si)
      (List.filter (fun si => decide (si.DaemonID ≠ env.self)) smap.Tmap) = [] := by
  rw [List.filter_eq_nil_iff]
  intro si hsi
  rw [List.mem_filter] at hsi
  simp [hping si hsi.1 (by simpa using hsi.2)]

/-- Past liveness and renewal, `runGlobalReb` is kickoff, finalization and
barrier in sequence. -/
theorem runGlobalReb_proceeds (d : Deps) (env : GlobalEnv) (w : World) (smap : smapX)
    (newTargetID : String) (x : xactRebBase)
    (hcnt : 0 ≤ smap.CountTargets - 1)
    (hping : ∀ si ∈ smap.Tmap, si.DaemonID ≠ env.self → env.pingTarget si = true)
    (hx : env.renew = some x) :
    runGlobalReb d env w smap newTargetID =
      globalBarrier env smap newTargetID
        (finalization (globalKickoff d env w smap x).pmarker RebGlobalCount RebGlobalSize
          ((globalKickoff d env w smap x).joggers.map (fun j => j.base.objectsMoved))
          ((globalKickoff d env w smap x).joggers.map (fun j => j.base.bytesMoved))
          (globalKickoff d env w smap x).xreb.aborted env.removeErr
          (globalKickoff d env w smap x).world) := by
  have hcnt' : ¬ (smap.CountTargets - 1 < 0) := not_lt.mpr hcnt
  have h0 : ¬ ((0 : Int) > smap.CountTargets - 1) := by simpa using hcnt
  unfold runGlobalReb
  simp only [hcnt', cancelCh_nil env smap hping, hx, if_false, List.length_nil,
    Nat.cast_zero, h0, gt_iff_lt, lt_self_iff_false]

/-! ## C1 -/

/-- C1. In `runGlobalReb` and in `runLocalReb`, for every run in which the
marker file was created: once the walkers have joined, the marker is still on
disk when the activity's abort flag is set, and, the remove call succeeding,
the marker is gone if and only if the flag is not set. -/
theorem marker_removed_iff_not_aborted (d : Deps) :
    (∀ (env : GlobalEnv) (w : World) (smap : smapX) (newTargetID : String),
      globalMarkerCreated d env w smap →
      ∃ x, (runGlobalReb d env w smap newTargetID).world.xGlobal = some x ∧
        (x.aborted = true →
          persistentMarker d globalRebType ∈ (runGlobalReb d env w smap newTargetID).world.files) ∧
        (env.removeErr = none →
          (persistentMarker d globalRebType ∉ (runGlobalReb d env w smap newTargetID).world.files
            ↔ x.aborted = false))) ∧
    (∀ (env : LocalEnv) (w : World),
      localMarkerCreated d env w →
      ∃ x, (runLocalReb d env w).world.xLocal = some x ∧
        (x.aborted = true →
          persistentMarker d localRebType ∈ (runLocalReb d env w).world.files) ∧
        (env.removeErr = none →
          (persistentMarker d localRebType ∉ (runLocalReb d env w).world.files
            ↔ x.aborted = false))) := by
  constructor
  · intro env w smap t ⟨hcnt, hping, hren, hcr⟩
    obtain ⟨x0, hx0⟩ := Option.isSome_iff_exists.mp hren
    obtain ⟨hne, -, hmem⟩ := CreateFile_ok hcr
    rw [runGlobalReb_proceeds d env w smap t x0 hcnt hping hx0]
    refine ⟨(globalKickoff d env w smap x0).xreb, ?_, ?_, ?_⟩
    · rw [globalBarrier_xGlobal, finalization_xGlobal]; rfl
    · intro hab
      rw [globalBarrier_files, finalization_files]
      simp only [hab, Bool.true_eq_false, and_false, if_false]
      exact hmem
    · intro hre
      rw [globalBarrier_files, finalization_files]
      have hpm : (globalKickoff d env w smap x0).pmarker = persistentMarker d globalRebType := by
        simp [globalKickoff, hcr]
      rw [hpm]
      cases hab : (globalKickoff d env w smap x0).xreb.aborted
      · simp [hne, hre, osRemove]
      · simpa [hne] using hmem
  · intro env w hcr
    obtain ⟨hne, -, hmem⟩ := CreateFile_ok (show (CreateFile (persistentMarker d localRebType) env.createErr w.files).1 = true from hcr)
    refine ⟨(localKickoff d env w).xreb, ?_, ?_, ?_⟩
    · show (finalization _ _ _ _ _ _ _ _).xLocal = _
      rw [finalization_xLocal]; rfl
    · intro hab
      show _ ∈ (finalization _ _ _ _ _ _ _ _).files
      rw [finalization_files]
      simp only [hab, Bool.true_eq_false, and_false, if_false]
      exact hmem
    · intro hre
      show _ ∉ (finalization _ _ _ _ _ _ _ _).files ↔ _
      rw [finalization_files]
      have hcr1 : (CreateFile (persistentMarker d localRebType) env.createErr w.files).1 = true :=
        hcr
      have hpm : (localKickoff d env w).pmarker = persistentMarker d localRebType := by
        simp [localKickoff, hcr1]
      rw [hpm]
      cases hab : (localKickoff d env w).xreb.aborted
      · simp [hne, hre, osRemove]
      · simpa [hne] using hmem

/-- C1 on the sample runs: the clean global and local runs end without the
marker, the aborted global run ends with it. -/
theorem marker_removed_iff_not_aborted_witness :
    persistentMarker exDeps globalRebType ∉
      (runGlobalReb exDeps exEnv exWorld exSmap "A").world.files ∧
    persistentMarker exDeps globalRebType ∈
      (runGlobalReb exDeps exEnvAborted exWorld exSmap "A").world.files ∧
    persistentMarker exDeps localRebType ∉ (runLocalReb exDeps exLocalEnv exWorld).world.files :=
  ⟨match (marker_removed_iff_not_aborted exDeps).1 exEnv exWorld exSmap "A"
      ⟨by decide, by decide, by decide, by decide⟩ with
    | ⟨x, hx, _, h⟩ => (h rfl).mpr (by
        have h0 : (runGlobalReb exDeps exEnv exWorld exSmap "A").world.xGlobal =
            some ⟨"xaction", false⟩ := by decide
        rw [h0] at hx
        cases hx
        rfl),
   match (marker_removed_iff_not_aborted exDeps).1 exEnvAborted exWorld exSmap "A"
      ⟨by decide, by decide, by decide, by decide⟩ with
    | ⟨x, hx, h, _⟩ => h (by
        have h0 : (runGlobalReb exDeps exEnvAborted exWorld exSmap "A").world.xGlobal =
            some ⟨"xaction", true⟩ := by decide
        rw [h0] at hx
        cases hx
        rfl),
   match (marker_removed_iff_not_aborted exDeps).2 exLocalEnv exWorld
      (by unfold localMarkerCreated; decide) with
    | ⟨x, hx, _, h⟩ => (h rfl).mpr (by
        have h0 : (runLocalReb exDeps exLocalEnv exWorld).world.xLocal =
            some ⟨"xaction", false⟩ := by decide
        rw [h0] at hx
        cases hx
        rfl)⟩

/-! ## C2 -/

/-- C2, as stated, fails: with the activity registered and the marker on disk,
`abortGlobalReb` sets the abort flag and the marker is gone afterwards. -/
theorem abortGlobalReb_marker_example :
    exRunning.xGlobal = some ⟨"xaction", false⟩ ∧
    persistentMarker exDeps globalRebType ∈ exRunning.files ∧
    (abortGlobalReb exDeps none exRunning).xGlobal = some ⟨"xaction", true⟩ ∧
    persistentMarker exDeps globalRebType ∉ (abortGlobalReb exDeps none exRunning).files := by
  decide

/-- C2, amended. For every state in which a global rebalance activity is
registered and the global marker file exists, `abortGlobalReb` sets the
activity's abort flag and calls `os.Remove` on the marker: the marker is gone
when that call succeeds and the files are untouched when it fails. -/
theorem abortGlobalReb_sets_flag_removes_marker (d : Deps) (removeErr : Option GoError)
    (w : World) (xx : xactRebBase) (hx : w.xGlobal = some xx)
    (hm : persistentMarker d globalRebType ∈ w.files) :
    (abortGlobalReb d removeErr w).xGlobal = some { xx with aborted := true } ∧
    (abortGlobalReb d removeErr w).trace =
      w.trace ++ [Event.removeFile (persistentMarker d globalRebType)] ∧
    (removeErr = none →
      persistentMarker d globalRebType ∉ (abortGlobalReb d removeErr w).files) ∧
    (removeErr ≠ none →
      persistentMarker d globalRebType ∈ (abortGlobalReb d removeErr w).files ∧
      (abortGlobalReb d removeErr w).files = w.files) := by
  refine ⟨by simp [abortGlobalReb, hx, xactRebBase.Abort], by simp [abortGlobalReb, hx], ?_, ?_⟩
  · intro h
    simp [abortGlobalReb, hx, h, osRemove]
  · intro h
    cases removeErr with
    | none => exact absurd rfl h
    | some err => simp [abortGlobalReb, hx, osRemove, hm]

/-- C2, amended, on the sample state of a running global rebalance. -/
theorem abortGlobalReb_sets_flag_removes_marker_witness :
    (abortGlobalReb exDeps none exRunning).xGlobal = some ⟨"xaction", true⟩ ∧
    (abortGlobalReb exDeps none exRunning).trace =
      exRunning.trace ++ [Event.removeFile (persistentMarker exDeps globalRebType)] ∧
    persistentMarker exDeps globalRebType ∉ (abortGlobalReb exDeps none exRunning).files :=
  ⟨(abortGlobalReb_sets_flag_removes_marker exDeps none exRunning ⟨"xaction", false⟩
      (by decide) (by decide)).1,
   (abortGlobalReb_sets_flag_removes_marker exDeps none exRunning ⟨"xaction", false⟩
      (by decide) (by decide)).2.1,
   (abortGlobalReb_sets_flag_removes_marker exDeps none exRunning ⟨"xaction", false⟩
      (by decide) (by decide)).2.2.1 rfl⟩

/-! ## C3 -/

/-- C3, as stated, fails: on a snapshot without self whose only target does
not answer, the failure message does not fit the cancel channel (capacity
`len(Tmap) - 1 = 0`): the run is stuck and does not return. -/
theorem runGlobalReb_blocked_example :
    exB ∈ exSmapB.Tmap ∧ exB.DaemonID ≠ exEnvDown.self ∧ exEnvDown.pingTarget exB = false ∧
    (runGlobalReb exDeps exEnvDown exWorld exSmapB "").status = Status.blocked := by
  decide

/-- C3, amended. For every snapshot and every outcome of the peer probes: if
`pingTarget` returns false for at least one target other than self,
`runGlobalReb` changes no state (no activity registered, get-from-neighbor
untouched, no resync, no marker, no walker); and when the snapshot contains
self, it returns. -/
theorem runGlobalReb_peer_down_no_change (d : Deps) (env : GlobalEnv) (w : World)
    (smap : smapX) (newTargetID : String) (si : Snode) (hsi : si ∈ smap.Tmap)
    (hne : si.DaemonID ≠ env.self) (hdown : env.pingTarget si = false) :
    (runGlobalReb d env w smap newTargetID).world = w ∧
    ((∃ me ∈ smap.Tmap, me.DaemonID = env.self) →
      (runGlobalReb d env w smap newTargetID).status = Status.returned) := by
  have hlen : 0 < smap.Tmap.length := List.length_pos_of_mem hsi
  have hcnt : ¬ (smap.CountTargets - 1 < 0) := by
    unfold smapX.CountTargets; omega
  have hmem : si ∈ List.filter (fun si => !env.pingTarget si)
      (List.filter (fun si => decide (si.DaemonID ≠ env.self)) smap.Tmap) := by
    simp [List.mem_filter, hsi, hne, hdown]
  have hpos : 0 < (List.filter (fun si => !env.pingTarget si)
      (List.filter (fun si => decide (si.DaemonID ≠ env.self)) smap.Tmap)).length :=
    List.length_pos_of_mem hmem
  unfold runGlobalReb
  simp only [hcnt, if_false, hpos, gt_iff_lt, if_true]
  constructor
  · split <;> rfl
  · rintro ⟨me, hme, hself⟩
    have h1 : (List.filter (fun si => decide (si.DaemonID ≠ env.self)) smap.Tmap).length
        < smap.Tmap.length := by
      rw [List.length_filter_lt_length_iff_exists]
      exact ⟨me, hme, by simp [hself]⟩
    have h2 := List.length_filter_le (fun si => !env.pingTarget si)
      (List.filter (fun si => decide (si.DaemonID ≠ env.self)) smap.Tmap)
    have h3 : ¬ (smap.CountTargets - 1 < ((List.filter (fun si => !env.pingTarget si)
        (List.filter (fun si => decide (si.DaemonID ≠ env.self)) smap.Tmap)).length : Int)) := by
      unfold smapX.CountTargets; omega
    simp only [h3, if_false]

/-- C3, amended, on the sample snapshot with target B down. -/
theorem runGlobalReb_peer_down_no_change_witness :
    (runGlobalReb exDeps exEnvDown exWorld exSmap "").world = exWorld ∧
    (runGlobalReb exDeps exEnvDown exWorld exSmap "").status = Status.returned :=
  ⟨(runGlobalReb_peer_down_no_change exDeps exEnvDown exWorld exSmap "" exB
      (by decide) (by decide) (by decide)).1,
   (runGlobalReb_peer_down_no_change exDeps exEnvDown exWorld exSmap "" exB
      (by decide) (by decide) (by decide)).2 ⟨exA, by decide, rfl⟩⟩

/-! ## C4 -/

theorem finalization_trace (pm cn sn : String) (os bs : List Int) (ab : Bool)
    (re : Option GoError) (w : World) :
    (finalization pm cn sn os bs ab re w).trace =
      w.trace ++ (if pm ≠ "" ∧ ab = false then [Event.removeFile pm] else []) ++
        (if pm ≠ "" ∧ sumInt64 os > 0 then
          [Event.statsAdd cn (sumInt64 os), Event.statsAdd sn (sumInt64 bs)] else []) := by
  unfold finalization
  by_cases hp : pm = "" <;> cases ab <;> by_cases hs : sumInt64 os > 0 <;> simp [hp, hs]

theorem globalBarrier_trace (env : GlobalEnv) (smap : smapX) (t : String) (w : World) :
    (globalBarrier env smap t w).world.trace =
      w.trace ++ (if t = env.self then
        (pollRebalancingDone env.self smap).2 ++
          (if (pollRebalancingDone env.self smap).1 = Status.returned then [Event.endTime]
           else [])
        else [Event.endTime]) := by
  unfold globalBarrier
  by_cases h : t = env.self
  · simp only [h, if_true]
    cases hp : (pollRebalancingDone env.self smap).1 <;> simp
  · simp only [h, if_false]

/-- The barrier makes no call other than starting waiters and returning. -/
theorem pollRebalancingDone_events (self : String) (smap : smapX) :
    ∀ e ∈ (pollRebalancingDone self smap).2,
      e = Event.pollDone ∨ ∃ p v, e = Event.waitFinish p v := by
  intro e he
  unfold pollRebalancingDone at he
  simp only at he
  split at he
  · simp at he
  · split at he
    · simp only [List.mem_map] at he
      obtain ⟨si, -, rfl⟩ := he
      exact Or.inr ⟨_, _, rfl⟩
    · simp only [List.mem_append, List.mem_map, List.mem_singleton] at he
      rcases he with ⟨si, -, rfl⟩ | rfl
      · exact Or.inr ⟨_, _, rfl⟩
      · exact Or.inl rfl

/-- C4, as stated, fails: in the sample run, where the new target is self,
the marker is removed before the termination barrier returns. -/
theorem marker_removed_before_barrier_example :
    exEnv.self = "A" ∧
    removedBeforeBarrierReturn (runGlobalReb exDeps exEnv exWorld exSmap "A").world.trace
      (persistentMarker exDeps globalRebType) :=
  ⟨rfl,
   [Event.resync, Event.createFile "/etc/ais/.globalrebalancing", Event.wgAdd,
    Event.spawn "/mp1/cloud", Event.lock "b/o2", Event.openFile "/mp1/cloud/b/o2",
    Event.wgAdd, Event.sendV (exEntry.hdr "A") "B", Event.unlock "b/o2", Event.wgDone,
    Event.confirm, Event.wgDone, Event.wgAdd, Event.spawn "/mp1/local", Event.confirm,
    Event.wgDone],
   [Event.statsAdd "reb.global.n" 1, Event.statsAdd "reb.global.size" 10,
    Event.waitFinish "B" 7, Event.pollDone, Event.endTime],
   by decide, by decide, by decide⟩

/-- C4, amended. For every run of `runGlobalReb` in which `newTargetID` is the
target's own ID, the marker was created and the activity is not aborted at the
join: the removal of the marker is the first call after the join; the stats
update and then the calls of the termination barrier `pollRebalancingDone`
follow it, and the barrier removes nothing; `xreb.EndTime` alone waits for the
barrier to return. -/
theorem marker_removed_at_finalization_then_barrier (d : Deps) (env : GlobalEnv) (w : World)
    (smap : smapX) (x : xactRebBase) (hc : globalMarkerCreated d env w smap)
    (hx : env.renew = some x) (hab : (globalKickoff d env w smap x).xreb.aborted = false) :
    ∃ stats, (∀ e ∈ stats, ∃ n v, e = Event.statsAdd n v) ∧
      (runGlobalReb d env w smap env.self).world.trace =
        (globalKickoff d env w smap x).world.trace ++
          Event.removeFile (persistentMarker d globalRebType) :: stats ++
          (pollRebalancingDone env.self smap).2 ++
          (if (pollRebalancingDone env.self smap).1 = Status.returned then [Event.endTime]
           else []) ∧
      (∀ p, Event.removeFile p ∉ (pollRebalancingDone env.self smap).2) ∧
      (env.removeErr = none →
        persistentMarker d globalRebType ∉ (runGlobalReb d env w smap env.self).world.files) := by
  obtain ⟨hcnt, hping, hren, hcr⟩ := hc
  obtain ⟨hne, -, hmem⟩ := CreateFile_ok hcr
  have hpm : (globalKickoff d env w smap x).pmarker = persistentMarker d globalRebType := by
    simp [globalKickoff, hcr]
  rw [runGlobalReb_proceeds d env w smap env.self x hcnt hping hx]
  rw [globalBarrier_trace, globalBarrier_files, finalization_trace, finalization_files, hpm, hab]
  refine ⟨(if sumInt64 (List.map (fun j => j.base.objectsMoved)
      (globalKickoff d env w smap x).joggers) > 0 then
        [Event.statsAdd RebGlobalCount (sumInt64 (List.map (fun j => j.base.objectsMoved)
          (globalKickoff d env w smap x).joggers)),
         Event.statsAdd RebGlobalSize (sumInt64 (List.map (fun j => j.base.bytesMoved)
          (globalKickoff d env w smap x).joggers))] else []), ?_, ?_, ?_, ?_⟩
  · intro e he
    split at he
    · simp only [List.mem_cons, List.mem_singleton, List.not_mem_nil, or_false] at he
      rcases he with rfl | rfl <;> exact ⟨_, _, rfl⟩
    · simp at he
  · simp [hne]
  · intro p hp
    rcases pollRebalancingDone_events env.self smap _ hp with h | ⟨_, _, h⟩ <;> cases h
  · intro hre
    simp [hne, hre, osRemove]

/-- C4, amended, on the sample run started by the new target itself. -/
theorem marker_removed_at_finalization_then_barrier_witness :
    ∃ stats, (∀ e ∈ stats, ∃ n v, e = Event.statsAdd n v) ∧
      (runGlobalReb exDeps exEnv exWorld exSmap exEnv.self).world.trace =
        (globalKickoff exDeps exEnv exWorld exSmap ⟨"xaction", false⟩).world.trace ++
          Event.removeFile (persistentMarker exDeps globalRebType) :: stats ++
          (pollRebalancingDone exEnv.self exSmap).2 ++
          (if (pollRebalancingDone exEnv.self exSmap).1 = Status.returned then [Event.endTime]
           else []) ∧
      (∀ p, Event.removeFile p ∉ (pollRebalancingDone exEnv.self exSmap).2) ∧
      persistentMarker exDeps globalRebType ∉
        (runGlobalReb exDeps exEnv exWorld exSmap exEnv.self).world.files :=
  match marker_removed_at_finalization_then_barrier exDeps exEnv exWorld exSmap
      ⟨"xaction", false⟩ ⟨by decide, by decide, by decide, by decide⟩ rfl (by decide) with
  | ⟨stats, h1, h2, h3, h4⟩ => ⟨stats, h1, h2, h3, h4 rfl⟩

/-! ## C5 -/

/-- The four shapes of the result of `walk`: nothing done; lock, open and
unlock; a refused send, undone on the spot; an accepted send left pending. -/
theorem walk_cases (d : Deps) (rj : globalRebJogger) (x : xactRebBase) (e : GEntry) :
    ((rj.walk d x e).events = [] ∧ (rj.walk d x e).pending = none) ∨
    ((rj.walk d x e).events =
        [Event.lock e.lomUname, Event.openFile e.fqn, Event.unlock e.lomUname] ∧
      (rj.walk d x e).pending = none) ∨
    (∃ dest, (rj.walk d x e).events =
        [Event.lock e.lomUname, Event.openFile e.fqn, Event.wgAdd,
         Event.sendV (e.hdr rj.base.self) dest, Event.unlock e.lomUname, Event.wgDone] ∧
      (rj.walk d x e).pending = none) ∨
    (∃ dest, (rj.walk d x e).events =
        [Event.lock e.lomUname, Event.openFile e.fqn, Event.wgAdd,
         Event.sendV (e.hdr rj.base.self) dest] ∧
      (rj.walk d x e).pending = some (e.hdr rj.base.self)) := by
  unfold globalRebJogger.walk
  dsimp only
  repeat' split
  all_goals simp

/-- The calls made for one entry are one of three sequences: none; lock, open,
unlock; lock, open, add, send, unlock, done. -/
theorem walkAndComplete_cases (d : Deps) (rj : globalRebJogger) (x : xactRebBase)
    (e : GEntry) :
    walkAndComplete d rj x e = [] ∨
    walkAndComplete d rj x e =
      [Event.lock e.lomUname, Event.openFile e.fqn, Event.unlock e.lomUname] ∨
    ∃ dest, walkAndComplete d rj x e =
      [Event.lock e.lomUname, Event.openFile e.fqn, Event.wgAdd,
       Event.sendV (e.hdr rj.base.self) dest, Event.unlock e.lomUname, Event.wgDone] := by
  unfold walkAndComplete globalRebJogger.complete
  rcases walk_cases d rj x e with ⟨h1, h2⟩ | ⟨h1, h2⟩ | ⟨dest, h1, h2⟩ | ⟨dest, h1, h2⟩ <;>
    rw [h1, h2]
  · exact Or.inl rfl
  · exact Or.inr (Or.inl rfl)
  · exact Or.inr (Or.inr ⟨dest, rfl⟩)
  · refine Or.inr (Or.inr ⟨dest, ?_⟩)
    simp [globalRebJogger.rebalanceObjCallback, GEntry.hdr, GEntry.lomUname]

/-- C5. For every invocation of `globalRebJogger.walk`, whatever its outcome
(no lock taken; open fails; `SendV` fails; `SendV` accepts and the completion
callback runs once, with or without an error): every name is read-unlocked as
often as it is read-locked, which is at most once for the object's name and
never for another name, and `wg.Done` is called as often as `wg.Add(1)`, at
most once. -/
theorem walk_lock_and_wg_balanced (d : Deps) (rj : globalRebJogger) (x : xactRebBase)
    (e : GEntry) :
    (∀ n, (walkAndComplete d rj x e).count (Event.unlock n) =
            (walkAndComplete d rj x e).count (Event.lock n)) ∧
    (∀ n, (walkAndComplete d rj x e).count (Event.lock n) ≤
            if n = e.lomUname then 1 else 0) ∧
    (walkAndComplete d rj x e).count Event.wgDone =
      (walkAndComplete d rj x e).count Event.wgAdd ∧
    (walkAndComplete d rj x e).count Event.wgAdd ≤ 1 := by
  rcases walkAndComplete_cases d rj x e with h | h | ⟨dest, h⟩ <;> rw [h]
  · simp
  · refine ⟨fun n => ?_, fun n => ?_, ?_, ?_⟩ <;>
      (simp [List.count_cons]; try (split <;> simp_all))
  · refine ⟨fun n => ?_, fun n => ?_, ?_, ?_⟩ <;>
      (simp [List.count_cons]; try (split <;> simp_all))

/-! ## C6 -/

/-- Inside the `int64` range the wrap is the identity. -/
theorem wrapInt64_of_inInt64 {x : Int} (h : inInt64 x) : wrapInt64 x = x := by
  unfold inInt64 at h
  unfold wrapInt64
  omega

/-- The method `walk` of a global walker changes neither the walker nor the
activity. -/
theorem globalWalk_rj_xreb (d : Deps) (rj : globalRebJogger) (x : xactRebBase)
    (e : GEntry) : (rj.walk d x e).rj = rj ∧ (rj.walk d x e).xreb = x := by
  unfold globalRebJogger.walk
  dsimp only
  repeat' split
  all_goals simp

/-- C6. For every header and completion error passed to
`rebalanceObjCallback`: with a nil error `objectsMoved` becomes
`objectsMoved + 1` and `bytesMoved` becomes `bytesMoved + hdr.ObjAttrs.Size`
(`int64` additions, exact whenever the sums fit `int64`); with a non-nil error
the walker is unchanged; and `globalRebJogger.walk` itself leaves the walker,
hence both counters, unchanged. -/
theorem rebalanceObjCallback_counters (rj : globalRebJogger) (hdr : Header)
    (err : Option GoError) :
    (err = none →
      (rj.rebalanceObjCallback hdr err).1.base.objectsMoved =
        addInt64 rj.base.objectsMoved 1 ∧
      (rj.rebalanceObjCallback hdr err).1.base.bytesMoved =
        addInt64 rj.base.bytesMoved hdr.ObjAttrs.Size) ∧
    (err = none → inInt64 (rj.base.objectsMoved + 1) →
      inInt64 (rj.base.bytesMoved + hdr.ObjAttrs.Size) →
      (rj.rebalanceObjCallback hdr err).1.base.objectsMoved = rj.base.objectsMoved + 1 ∧
      (rj.rebalanceObjCallback hdr err).1.base.bytesMoved =
        rj.base.bytesMoved + hdr.ObjAttrs.Size) ∧
    (err ≠ none → (rj.rebalanceObjCallback hdr err).1 = rj) ∧
    (∀ (d : Deps) (x : xactRebBase) (e : GEntry),
      (rj.walk d x e).rj.base.objectsMoved = rj.base.objectsMoved ∧
      (rj.walk d x e).rj.base.bytesMoved = rj.base.bytesMoved) := by
  refine ⟨?_, ?_, ?_, ?_⟩
  · rintro rfl
    exact ⟨rfl, rfl⟩
  · rintro rfl ho hb
    exact ⟨wrapInt64_of_inInt64 ho, wrapInt64_of_inInt64 hb⟩
  · intro h
    cases err with
    | none => exact absurd rfl h
    | some _ => rfl
  · intro d x e
    rw [(globalWalk_rj_xreb d rj x e).1]
    exact ⟨rfl, rfl⟩

/-- C6 on the sample header: a completed send counts one object of ten bytes,
a failed one counts nothing. -/
theorem rebalanceObjCallback_counters_witness :
    ((exJogger.rebalanceObjCallback exHdr none).1.base.objectsMoved = 0 + 1 ∧
      (exJogger.rebalanceObjCallback exHdr none).1.base.bytesMoved = 0 + 10) ∧
    (exJogger.rebalanceObjCallback exHdr (some (errorsNew "broken pipe"))).1 = exJogger :=
  ⟨(rebalanceObjCallback_counters exJogger exHdr none).2.1 rfl
      (by unfold inInt64; decide) (by unfold inInt64; decide),
   (rebalanceObjCallback_counters exJogger exHdr (some (errorsNew "broken pipe"))).2.2.1
      (by decide)⟩

/-! ## C7 -/

/-- C7. For a walker whose activity is not aborted: on every entry whose
placement is the target itself, `globalRebJogger.walk` returns nil, makes no
call (no lock, no open, no `wg.Add`, no `SendV`), leaves nothing pending and
changes neither counter; hence a traversal over such entries visits them all,
sends nothing and keeps `objectsMoved` and `bytesMoved` at their initial
value. -/
theorem walk_skips_entries_placed_on_self (d : Deps) (rj : globalRebJogger)
    (x : xactRebBase) (hx : x.aborted = false) :
    (∀ e, placedOnSelf d rj e → rj.walk d x e = ⟨none, rj, x, [], none⟩) ∧
    (∀ es : List GEntry, (∀ e ∈ es, placedOnSelf d rj e) →
      rj.traverse d x (es.map GStep.visit) = ⟨none, rj, x, []⟩) := by
  have hwalk : ∀ e, placedOnSelf d rj e → rj.walk d x e = ⟨none, rj, x, [], none⟩ := by
    rintro e ⟨h1, h2, h3, h4, h5⟩
    unfold globalRebJogger.walk
    simp [hx, h1, h2, h3, h4, h5]
  refine ⟨hwalk, ?_⟩
  intro es
  induction es with
  | nil => intro _; rfl
  | cons e es ih =>
    intro h
    have he := hwalk e (h e (List.mem_cons_self _ _))
    have ih' := ih (fun e' he' => h e' (List.mem_cons_of_mem _ he'))
    simp only [List.map_cons, globalRebJogger.traverse, he, globalRebJogger.complete]
    rw [ih']
    rfl

/-- C7 on the sample object that the oracle keeps on the target itself. -/
theorem walk_skips_entries_placed_on_self_witness :
    exJogger.walk exDeps exXact exEntryMine = ⟨none, exJogger, exXact, [], none⟩ ∧
    exJogger.traverse exDeps exXact ([exEntryMine, exEntryMine].map GStep.visit) =
      ⟨none, exJogger, exXact, []⟩ :=
  ⟨(walk_skips_entries_placed_on_self exDeps exJogger exXact rfl).1 exEntryMine
      (by unfold placedOnSelf; decide),
   (walk_skips_entries_placed_on_self exDeps exJogger exXact rfl).2 [exEntryMine, exEntryMine]
      (by unfold placedOnSelf; decide)⟩

/-! ## C8 -/

/-- A skipped entry does not show in the traversal. -/
theorem globalTraverse_skip (d : Deps) (rj : globalRebJogger) (x : xactRebBase)
    (e : GEntry) (rest : List GStep) (h : rj.walk d x e = ⟨none, rj, x, [], none⟩) :
    rj.traverse d x (GStep.visit e :: rest) = rj.traverse d x rest := by
  simp [globalRebJogger.traverse, h, globalRebJogger.complete]

/-- An entry on which `walk` fails before any call ends the traversal. -/
theorem globalTraverse_stop (d : Deps) (rj : globalRebJogger) (x : xactRebBase)
    (e : GEntry) (rest : List GStep) (err : GoError)
    (h : rj.walk d x e = ⟨some err, rj, x, [], none⟩) :
    rj.traverse d x (GStep.visit e :: rest) = ⟨some err, rj, x, []⟩ := by
  simp [globalRebJogger.traverse, h, globalRebJogger.complete]

/-- C8, as stated, fails: when the fill of the atime and checksum attributes
fails, `walk` returns an error and the traversal ends; the entry after it,
which would have been sent, is not visited. -/
theorem walk_attrs_fill_failure_example :
    exEntryBadAttrs.fillAttrsErr ≠ "" ∧
    (exJogger.walk exDeps exXact exEntryBadAttrs).err = some (errorsNew "no checksum") ∧
    exJogger.traverse exDeps exXact [GStep.visit exEntryBadAttrs, GStep.visit exEntry] =
      ⟨some (errorsNew "no checksum"), exJogger, exXact, []⟩ ∧
    (exJogger.traverse exDeps exXact [GStep.visit exEntry]).events ≠ [] := by
  decide

/-- C8, amended. For every entry visited by `globalRebJogger.walk` (activity
not aborted, entry handed over without error, not a directory): when the
initial fill from the path fails, the entry is skipped, `walk` returns nil and
the traversal continues with the next entry; when the later fill of the atime
and checksum attributes fails (placement on another target), `walk` returns an
error carrying the fill's message and the traversal of this walker ends. -/
theorem walk_fill_failures (d : Deps) (rj : globalRebJogger) (x : xactRebBase) (e : GEntry)
    (hx : x.aborted = false) (herr : e.err = none) (hdir : e.isDir = false) :
    (e.fillErr ≠ "" →
      rj.walk d x e = ⟨none, rj, x, [], none⟩ ∧
      ∀ rest, rj.traverse d x (GStep.visit e :: rest) = rj.traverse d x rest) ∧
    (e.fillErr = "" → (d.hrwTarget e.bucket e.objname rj.smap).2 = "" →
      (d.hrwTarget e.bucket e.objname rj.smap).1.DaemonID ≠ rj.base.self →
      e.fillAttrsErr ≠ "" →
      rj.walk d x e = ⟨some (errorsNew e.fillAttrsErr), rj, x, [], none⟩ ∧
      ∀ rest, rj.traverse d x (GStep.visit e :: rest) =
        ⟨some (errorsNew e.fillAttrsErr), rj, x, []⟩) := by
  constructor
  · intro hf
    have hw : rj.walk d x e = ⟨none, rj, x, [], none⟩ := by
      unfold globalRebJogger.walk
      simp [hx, herr, hdir, hf]
    exact ⟨hw, fun rest => globalTraverse_skip d rj x e rest hw⟩
  · intro hf hh hs ha
    have hw : rj.walk d x e = ⟨some (errorsNew e.fillAttrsErr), rj, x, [], none⟩ := by
      unfold globalRebJogger.walk
      simp [hx, herr, hdir, hf, hh, hs, ha]
    exact ⟨hw, fun rest => globalTraverse_stop d rj x e rest _ hw⟩

/-- C8, amended, on the sample objects: a failed first fill is skipped, a
failed attribute fill ends the traversal. -/
theorem walk_fill_failures_witness :
    (exJogger.walk exDeps exXact { exEntry with fillErr := "bad xattr" } =
        ⟨none, exJogger, exXact, [], none⟩ ∧
      ∀ rest, exJogger.traverse exDeps exXact
          (GStep.visit { exEntry with fillErr := "bad xattr" } :: rest) =
        exJogger.traverse exDeps exXact rest) ∧
    (exJogger.walk exDeps exXact exEntryBadAttrs =
        ⟨some (errorsNew "no checksum"), exJogger, exXact, [], none⟩ ∧
      ∀ rest, exJogger.traverse exDeps exXact (GStep.visit exEntryBadAttrs :: rest) =
        ⟨some (errorsNew "no checksum"), exJogger, exXact, []⟩) :=
  ⟨(walk_fill_failures exDeps exJogger exXact { exEntry with fillErr := "bad xattr" }
      rfl rfl rfl).1 (by decide),
   (walk_fill_failures exDeps exJogger exXact exEntryBadAttrs rfl rfl rfl).2
      rfl (by decide) (by decide) (by decide)⟩

/-! ## C9 -/

/-- A global walker never sets the abort flag: without an `Abort()` from
another party the activity comes out of a traversal as it went in. -/
theorem globalTraverse_xreb (d : Deps) (steps : List GStep) :
    ∀ (rj : globalRebJogger) (x : xactRebBase), GStep.extAbort ∉ steps →
      (rj.traverse d x steps).xreb = x := by
  induction steps with
  | nil => intro rj x _; rfl
  | cons s rest ih =>
    intro rj x hs
    cases s with
    | extAbort => exact absurd (List.mem_cons_self _ _) hs
    | visit e =>
      have hrest : GStep.extAbort ∉ rest := fun h => hs (List.mem_cons_of_mem _ h)
      simp only [globalRebJogger.traverse]
      split
      · exact (globalWalk_rj_xreb d rj x e).2
      · simp only []
        rw [ih _ _ hrest]
        exact (globalWalk_rj_xreb d rj x e).2

/-- The walkers of a run leave the activity as it was granted when no other
party aborts it. -/
theorem runGlobalJoggers_xreb (d : Deps) (self : String) (smap : smapX)
    (tree : String → List GStep) (htree : ∀ p, GStep.extAbort ∉ tree p) (paths : List String) :
    ∀ x, (runGlobalJoggers d self smap tree paths x).2.1 = x := by
  induction paths with
  | nil => intro x; rfl
  | cons p ps ih =>
    intro x
    simp only [runGlobalJoggers, globalRebJogger.jog]
    rw [ih, globalTraverse_xreb d _ _ _ (htree p)]

/-- C9, as stated, fails: on an empty snapshot the oracle reports an error,
`walk` returns it, and the activity's abort flag is still unset; a
finalization reading that flag removes the marker. -/
theorem walk_placement_error_example :
    (exDeps.hrwTarget exEntry.bucket exEntry.objname exJoggerNoTargets.smap).2 ≠ "" ∧
    (exJoggerNoTargets.walk exDeps exXact exEntry).err = some (errorsNew "no targets") ∧
    (exJoggerNoTargets.walk exDeps exXact exEntry).xreb.aborted = false ∧
    persistentMarker exDeps globalRebType ∈ exRunning.files ∧
    persistentMarker exDeps globalRebType ∉
      (finalization (persistentMarker exDeps globalRebType) RebGlobalCount RebGlobalSize
        [0] [0] (exJoggerNoTargets.walk exDeps exXact exEntry).xreb.aborted none
        exRunning).files := by
  decide

/-- C9, amended. For every entry for which the placement oracle `hrwTarget`
reports an error, `globalRebJogger.walk` returns that error and the traversal
of this walker ends; the activity's abort flag is not set by it: a global
walker never sets the flag, so without an abort by another party the activity
reaches the join as it was granted, the other walkers are not stopped, and
finalization treats the run as not aborted. -/
theorem walk_placement_error_stops_walker_only (d : Deps) (rj : globalRebJogger)
    (x : xactRebBase) (e : GEntry) (hx : x.aborted = false) (herr : e.err = none)
    (hdir : e.isDir = false) (hfill : e.fillErr = "")
    (hhrw : (d.hrwTarget e.bucket e.objname rj.smap).2 ≠ "") :
    rj.walk d x e =
      ⟨some (errorsNew (d.hrwTarget e.bucket e.objname rj.smap).2), rj, x, [], none⟩ ∧
    (∀ rest, rj.traverse d x (GStep.visit e :: rest) =
      ⟨some (errorsNew (d.hrwTarget e.bucket e.objname rj.smap).2), rj, x, []⟩) ∧
    (∀ (env : GlobalEnv) (w : World) (smap : smapX) (x0 : xactRebBase),
      (∀ p, GStep.extAbort ∉ env.tree p) → env.abortAtJoin = false →
      (globalKickoff d env w smap x0).xreb = x0) := by
  have hw : rj.walk d x e =
      ⟨some (errorsNew (d.hrwTarget e.bucket e.objname rj.smap).2), rj, x, [], none⟩ := by
    unfold globalRebJogger.walk
    simp [hx, herr, hdir, hfill, hhrw]
  refine ⟨hw, fun rest => globalTraverse_stop d rj x e rest _ hw, ?_⟩
  intro env w smap x0 htree hj
  simp [globalKickoff, hj, runGlobalJoggers_xreb d env.self smap env.tree htree]

/-- C9, amended, on the sample walker whose snapshot holds no target. -/
theorem walk_placement_error_stops_walker_only_witness :
    exJoggerNoTargets.walk exDeps exXact exEntry =
      ⟨some (errorsNew "no targets"), exJoggerNoTargets, exXact, [], none⟩ ∧
    (∀ rest, exJoggerNoTargets.traverse exDeps exXact (GStep.visit exEntry :: rest) =
      ⟨some (errorsNew "no targets"), exJoggerNoTargets, exXact, []⟩) ∧
    (globalKickoff exDeps exEnv exWorld exSmap exXact).xreb = exXact :=
  ⟨(walk_placement_error_stops_walker_only exDeps exJoggerNoTargets exXact exEntry
      rfl rfl rfl rfl (by decide)).1,
   (walk_placement_error_stops_walker_only exDeps exJoggerNoTargets exXact exEntry
      rfl rfl rfl rfl (by decide)).2.1,
   (walk_placement_error_stops_walker_only exDeps exJoggerNoTargets exXact exEntry
      rfl rfl rfl rfl (by decide)).2.2 exEnv exWorld exSmap exXact
      (by intro p; unfold exEnv; dsimp only; split <;> decide) rfl⟩

/-! ## C10 -/

theorem statsCalls_append (a b : List Event) :
    statsCalls (a ++ b) = statsCalls a ++ statsCalls b := by
  unfold statsCalls
  exact List.filterMap_append _ _ _

/-- The `+=` loop over non-negative values whose sum fits `int64` computes
that sum. -/
theorem foldl_addInt64_eq (xs : List Int) :
    ∀ a : Int, 0 ≤ a → (∀ v ∈ xs, 0 ≤ v) → a + xs.sum < 2 ^ 63 →
      xs.foldl addInt64 a = a + xs.sum := by
  induction xs with
  | nil => intro a _ _ _; simp
  | cons v vs ih =>
    intro a ha hv hs
    have hv0 : 0 ≤ v := hv v (List.mem_cons_self _ _)
    have hvs : ∀ u ∈ vs, 0 ≤ u := fun u hu => hv u (List.mem_cons_of_mem _ hu)
    have hsum : 0 ≤ vs.sum := List.sum_nonneg hvs
    rw [List.sum_cons] at hs
    have hstep : addInt64 a v = a + v := by
      apply wrapInt64_of_inInt64
      unfold inInt64
      constructor <;> omega
    rw [List.foldl_cons, hstep, ih (a + v) (by omega) hvs (by omega), List.sum_cons]
    ring

theorem sumInt64_eq_sum (xs : List Int) (hv : ∀ v ∈ xs, 0 ≤ v) (hs : xs.sum < 2 ^ 63) :
    sumInt64 xs = xs.sum := by
  unfold sumInt64
  rw [foldl_addInt64_eq xs 0 le_rfl hv (by simpa using hs)]
  simp

/-- The calls made for one entry by a global walker are no stats updates. -/
theorem statsCalls_walkAndComplete (d : Deps) (rj : globalRebJogger) (x : xactRebBase)
    (e : GEntry) : statsCalls (walkAndComplete d rj x e) = [] := by
  rcases walkAndComplete_cases d rj x e with h | h | ⟨dest, h⟩ <;> rw [h] <;> rfl

/-- The completion of a send moves the object counter by at most one. -/
theorem globalComplete_objectsMoved (e : GEntry) (r : GWalkResult) :
    (globalRebJogger.complete e r).1.base.objectsMoved = r.rj.base.objectsMoved ∨
    (globalRebJogger.complete e r).1.base.objectsMoved =
      addInt64 r.rj.base.objectsMoved 1 := by
  unfold globalRebJogger.complete globalRebJogger.rebalanceObjCallback
  cases r.pending with
  | none => exact Or.inl rfl
  | some hdr =>
    cases e.cbErr with
    | none => exact Or.inr rfl
    | some _ => exact Or.inl rfl

/-- A traversal by a global walker makes no stats update, and its object
counter grows by at most the number of steps. -/
theorem globalTraverse_bound (d : Deps) (steps : List GStep) :
    ∀ (rj : globalRebJogger) (x : xactRebBase),
      statsCalls (rj.traverse d x steps).events = [] ∧
      (0 ≤ rj.base.objectsMoved → rj.base.objectsMoved + steps.length < 2 ^ 63 →
        0 ≤ (rj.traverse d x steps).rj.base.objectsMoved ∧
        (rj.traverse d x steps).rj.base.objectsMoved ≤
          rj.base.objectsMoved + steps.length) := by
  induction steps with
  | nil =>
    intro rj x
    exact ⟨rfl, fun h _ => ⟨h, by simp [globalRebJogger.traverse]⟩⟩
  | cons s rest ih =>
    intro rj x
    cases s with
    | extAbort =>
      simp only [globalRebJogger.traverse]
      refine ⟨(ih rj x.Abort).1, fun h0 hlen => ?_⟩
      have := (ih rj x.Abort).2 h0 (by simp only [List.length_cons] at hlen; push_cast at hlen; omega)
      simp only [List.length_cons]
      push_cast
      omega
    | visit e =>
      have hev : statsCalls ((rj.walk d x e).events ++
          (globalRebJogger.complete e (rj.walk d x e)).2) = [] :=
        statsCalls_walkAndComplete d rj x e
      have hstep : 0 ≤ rj.base.objectsMoved →
          rj.base.objectsMoved + ((rest.length : Int) + 1) < 2 ^ 63 →
          0 ≤ (globalRebJogger.complete e (rj.walk d x e)).1.base.objectsMoved ∧
          (globalRebJogger.complete e (rj.walk d x e)).1.base.objectsMoved ≤
            rj.base.objectsMoved + 1 := by
        intro h0 hlen
        have hrj := (globalWalk_rj_xreb d rj x e).1
        rcases globalComplete_objectsMoved e (rj.walk d x e) with h | h
        · rw [h, hrj]; omega
        · rw [h, hrj]
          have : addInt64 rj.base.objectsMoved 1 = rj.base.objectsMoved + 1 := by
            apply wrapInt64_of_inInt64
            unfold inInt64
            constructor <;> omega
          rw [this]; omega
      simp only [globalRebJogger.traverse]
      split
      · refine ⟨hev, fun h0 hlen => ?_⟩
        simp only [List.length_cons] at hlen ⊢
        push_cast at hlen ⊢
        have := hstep h0 hlen
        omega
      · simp only []
        refine ⟨?_, fun h0 hlen => ?_⟩
        · rw [statsCalls_append, hev, (ih _ _).1]; rfl
        · simp only [List.length_cons] at hlen ⊢
          push_cast at hlen ⊢
          have h1 := hstep h0 hlen
          have h2 := (ih (globalRebJogger.complete e (rj.walk d x e)).1 (rj.walk d x e).xreb).2
            h1.1 (by omega)
          omega

/-- The walkers of a global run make no stats update, none of their object
counters is negative, and the counters add up to at most the number of steps
met. -/
theorem runGlobalJoggers_bound (d : Deps) (self : String) (smap : smapX)
    (tree : String → List GStep) (paths : List String) :
    ∀ x, statsCalls (runGlobalJoggers d self smap tree paths x).2.2 = [] ∧
      (((paths.map (fun p => (tree p).length)).sum : Int) < 2 ^ 63 →
        (∀ v ∈ (runGlobalJoggers d self smap tree paths x).1.map
            (fun j => j.base.objectsMoved), 0 ≤ v) ∧
        ((runGlobalJoggers d self smap tree paths x).1.map
            (fun j => j.base.objectsMoved)).sum ≤
          ((paths.map (fun p => (tree p).length)).sum : Int)) := by
  induction paths with
  | nil => intro x; simp [runGlobalJoggers, statsCalls]
  | cons p ps ih =>
    intro x
    have hb := globalTraverse_bound d (tree p)
      { base := ⟨self, p, 0, 0⟩, smap := smap } x
    simp only [runGlobalJoggers, globalRebJogger.jog]
    refine ⟨?_, fun hlen => ?_⟩
    · rw [statsCalls_append, statsCalls_append, statsCalls_append, hb.1, (ih _).1]
      rfl
    · simp only [List.map_cons, List.sum_cons] at hlen ⊢
      generalize (ps.map (fun p => (tree p).length)).sum = S at hlen ih ⊢
      push_cast at hlen ⊢
      have h1 := hb.2 (le_refl (0 : Int)) (by show (0 : Int) + _ < _; omega)
      have h2 := (ih ((globalRebJogger.traverse d
        { base := ⟨self, p, 0, 0⟩, smap := smap } x (tree p)).xreb)).2 (by omega)
      dsimp only at h1
      refine ⟨?_, by omega⟩
      intro v hv
      rcases List.mem_cons.mp hv with rfl | hv
      · exact h1.1
      · exact h2.1 v hv

/-- One `walk` of a local walker makes no stats update and moves the object
counter by at most one. -/
theorem localWalk_step (d : Deps) (rj : localRebJogger) (x : xactRebBase)
    (e : LEntry) :
    statsCalls (rj.walk d x e).events = [] ∧
    ((rj.walk d x e).rj.base.objectsMoved = rj.base.objectsMoved ∨
      (rj.walk d x e).rj.base.objectsMoved = addInt64 rj.base.objectsMoved 1) := by
  unfold localRebJogger.walk
  dsimp only
  repeat' split
  all_goals simp [statsCalls]

/-- A traversal by a local walker makes no stats update, and its object
counter grows by at most the number of steps. -/
theorem localTraverse_bound (d : Deps) (steps : List LStep) :
    ∀ (rj : localRebJogger) (x : xactRebBase),
      statsCalls (rj.traverse d x steps).events = [] ∧
      (0 ≤ rj.base.objectsMoved → rj.base.objectsMoved + steps.length < 2 ^ 63 →
        0 ≤ (rj.traverse d x steps).rj.base.objectsMoved ∧
        (rj.traverse d x steps).rj.base.objectsMoved ≤
          rj.base.objectsMoved + steps.length) := by
  induction steps with
  | nil =>
    intro rj x
    exact ⟨rfl, fun h _ => ⟨h, by simp [localRebJogger.traverse]⟩⟩
  | cons s rest ih =>
    intro rj x
    cases s with
    | extAbort =>
      simp only [localRebJogger.traverse]
      refine ⟨(ih rj x.Abort).1, fun h0 hlen => ?_⟩
      have := (ih rj x.Abort).2 h0 (by simp only [List.length_cons] at hlen; push_cast at hlen; omega)
      simp only [List.length_cons]
      push_cast
      omega
    | visit e =>
      have hev := (localWalk_step d rj x e).1
      have hstep : 0 ≤ rj.base.objectsMoved →
          rj.base.objectsMoved + ((rest.length : Int) + 1) < 2 ^ 63 →
          0 ≤ (rj.walk d x e).rj.base.objectsMoved ∧
          (rj.walk d x e).rj.base.objectsMoved ≤ rj.base.objectsMoved + 1 := by
        intro h0 hlen
        rcases (localWalk_step d rj x e).2 with h | h
        · rw [h]; omega
        · rw [h]
          have : addInt64 rj.base.objectsMoved 1 = rj.base.objectsMoved + 1 := by
            apply wrapInt64_of_inInt64
            unfold inInt64
            constructor <;> omega
          rw [this]; omega
      simp only [localRebJogger.traverse]
      split
      · refine ⟨hev, fun h0 hlen => ?_⟩
        simp only [List.length_cons] at hlen ⊢
        push_cast at hlen ⊢
        have := hstep h0 hlen
        omega
      · simp only []
        refine ⟨?_, fun h0 hlen => ?_⟩
        · rw [statsCalls_append, hev, (ih _ _).1]; rfl
        · simp only [List.length_cons] at hlen ⊢
          push_cast at hlen ⊢
          have h1 := hstep h0 hlen
          have h2 := (ih (rj.walk d x e).rj (rj.walk d x e).xreb).2 h1.1 (by omega)
          omega

/-- The walkers of a local run make no stats update, none of their object
counters is negative, and the counters add up to at most the number of steps
met. -/
theorem runLocalJoggers_bound (d : Deps) (self : String)
    (tree : String → List LStep) (paths : List String) :
    ∀ x, statsCalls (runLocalJoggers d self tree paths x).2.2 = [] ∧
      (((paths.map (fun p => (tree p).length)).sum : Int) < 2 ^ 63 →
        (∀ v ∈ (runLocalJoggers d self tree paths x).1.map
            (fun j => j.base.objectsMoved), 0 ≤ v) ∧
        ((runLocalJoggers d self tree paths x).1.map
            (fun j => j.base.objectsMoved)).sum ≤
          ((paths.map (fun p => (tree p).length)).sum : Int)) := by
  induction paths with
  | nil => intro x; simp [runLocalJoggers, statsCalls]
  | cons p ps ih =>
    intro x
    have hb := localTraverse_bound d (tree p) { base := ⟨self, p, 0, 0⟩ } x
    simp only [runLocalJoggers, localRebJogger.jog]
    refine ⟨?_, fun hlen => ?_⟩
    · rw [statsCalls_append, statsCalls_append, statsCalls_append, statsCalls_append,
        hb.1, (ih _).1]
      rfl
    · simp only [List.map_cons, List.sum_cons] at hlen ⊢
      generalize (ps.map (fun p => (tree p).length)).sum = S at hlen ih ⊢
      push_cast at hlen ⊢
      have h1 := hb.2 (le_refl (0 : Int)) (by show (0 : Int) + _ < _; omega)
      have h2 := (ih ((localRebJogger.traverse d
        { base := ⟨self, p, 0, 0⟩ } x (tree p)).xreb)).2 (by omega)
      dsimp only at h1
      refine ⟨?_, by omega⟩
      intro v hv
      rcases List.mem_cons.mp hv with rfl | hv
      · exact h1.1
      · exact h2.1 v hv

theorem statsCalls_pollRebalancingDone (self : String) (smap : smapX) :
    statsCalls (pollRebalancingDone self smap).2 = [] := by
  have h := pollRebalancingDone_events self smap
  generalize (pollRebalancingDone self smap).2 = l at h
  induction l with
  | nil => rfl
  | cons e es ih =>
    have he := h e (List.mem_cons_self _ _)
    have hes := ih (fun e' he' => h e' (List.mem_cons_of_mem _ he'))
    rcases he with rfl | ⟨p, v, rfl⟩ <;> simpa [statsCalls] using hes

/-- The stats updates of the finalization block, given walkers whose object
counters are not negative and whose sum fits `int64`. -/
theorem statsCalls_finalization (pm cn sn : String) (os bs : List Int) (ab : Bool)
    (re : Option GoError) (w : World) (hpm : pm ≠ "") (hv : ∀ v ∈ os, 0 ≤ v)
    (hs : os.sum < 2 ^ 63) :
    statsCalls (finalization pm cn sn os bs ab re w).trace =
      statsCalls w.trace ++
        (if os.sum ≠ 0 then [(cn, os.sum), (sn, sumInt64 bs)] else []) := by
  have hsum : 0 ≤ os.sum := List.sum_nonneg hv
  rw [finalization_trace, statsCalls_append, statsCalls_append, sumInt64_eq_sum os hv hs]
  have h1 : statsCalls (if pm ≠ "" ∧ ab = false then [Event.removeFile pm] else []) = [] := by
    split <;> rfl
  rw [h1, List.append_nil]
  by_cases h0 : os.sum = 0
  · simp [h0, statsCalls]
  · have hpos : os.sum > 0 := lt_of_le_of_ne hsum (Ne.symm h0)
    simp [h0, hpos, hpm, statsCalls]

/-- C10, as stated, fails: in the sample run in which the marker cannot be
created, a walker has moved one object and the run completes without adding
anything to the stats. -/
theorem stats_skipped_without_marker_example :
    (globalKickoff exDeps exEnvNoMarker exWorld exSmap exXact).joggers.map
      (fun j => j.base.objectsMoved) = [1, 0] ∧
    (runGlobalReb exDeps exEnvNoMarker exWorld exSmap "").status = Status.returned ∧
    statsCalls (runGlobalReb exDeps exEnvNoMarker exWorld exSmap "").world.trace = [] := by
  decide

/-- C10, amended. For every run of `runGlobalReb` (respectively
`runLocalReb`) in which the marker file was created, the walkers meeting fewer
than `2 ^ 63` entries: the stats counter `reb.global.n` (resp. `reb.local.n`)
is increased by the sum of the walkers' `objectsMoved` and `reb.global.size`
(resp. `reb.local.size`) by the `int64` sum of their `bytesMoved` whenever the
object sum is non-zero, and nothing is added when it is zero. -/
theorem stats_added_when_marker_created (d : Deps) :
    (∀ (env : GlobalEnv) (w : World) (smap : smapX) (newTargetID : String)
        (x : xactRebBase),
      globalMarkerCreated d env w smap → env.renew = some x →
      (globalVisits env : Int) < 2 ^ 63 →
      statsCalls (runGlobalReb d env w smap newTargetID).world.trace =
        statsCalls w.trace ++
          (if ((globalKickoff d env w smap x).joggers.map
                (fun j => j.base.objectsMoved)).sum ≠ 0 then
            [(RebGlobalCount, ((globalKickoff d env w smap x).joggers.map
                (fun j => j.base.objectsMoved)).sum),
             (RebGlobalSize, sumInt64 ((globalKickoff d env w smap x).joggers.map
                (fun j => j.base.bytesMoved)))]
           else [])) ∧
    (∀ (env : LocalEnv) (w : World),
      localMarkerCreated d env w → (localVisits env : Int) < 2 ^ 63 →
      statsCalls (runLocalReb d env w).world.trace =
        statsCalls w.trace ++
          (if ((localKickoff d env w).joggers.map (fun j => j.base.objectsMoved)).sum ≠ 0 then
            [(RebLocalCount, ((localKickoff d env w).joggers.map
                (fun j => j.base.objectsMoved)).sum),
             (RebLocalSize, sumInt64 ((localKickoff d env w).joggers.map
                (fun j => j.base.bytesMoved)))]
           else [])) := by
  constructor
  · intro env w smap t x ⟨hcnt, hping, _, hcr⟩ hx hvis
    obtain ⟨hne, -, -⟩ := CreateFile_ok hcr
    have hpm : (globalKickoff d env w smap x).pmarker = persistentMarker d globalRebType := by
      simp [globalKickoff, hcr]
    have hb := (runGlobalJoggers_bound d env.self smap env.tree
      (walkerPaths env.availablePaths) x)
    have hb2 := hb.2 (by unfold globalVisits at hvis; exact hvis)
    have hjs : (globalKickoff d env w smap x).joggers =
        (runGlobalJoggers d env.self smap env.tree (walkerPaths env.availablePaths) x).1 := rfl
    have hk : statsCalls (globalKickoff d env w smap x).world.trace = statsCalls w.trace := by
      show statsCalls (w.trace ++ [Event.resync, Event.createFile _] ++ _) = _
      rw [statsCalls_append, statsCalls_append, hb.1]
      simp [statsCalls]
    rw [runGlobalReb_proceeds d env w smap t x hcnt hping hx, globalBarrier_trace,
      statsCalls_append,
      statsCalls_finalization _ _ _ _ _ _ _ _ (by rw [hpm]; exact hne)
        (by rw [hjs]; exact hb2.1)
        (by rw [hjs]; unfold globalVisits at hvis; exact lt_of_le_of_lt hb2.2 hvis),
      hk]
    have hbar : statsCalls (if t = env.self then
        (pollRebalancingDone env.self smap).2 ++
          (if (pollRebalancingDone env.self smap).1 = Status.returned then [Event.endTime]
           else [])
        else [Event.endTime]) = [] := by
      split
      · rw [statsCalls_append, statsCalls_pollRebalancingDone]
        split <;> rfl
      · rfl
    rw [hbar, List.append_nil]
  · intro env w hcr hvis
    have hcr1 : (CreateFile (persistentMarker d localRebType) env.createErr w.files).1 = true :=
      hcr
    obtain ⟨hne, -, -⟩ := CreateFile_ok hcr1
    have hpm : (localKickoff d env w).pmarker = persistentMarker d localRebType := by
      simp [localKickoff, hcr1]
    have hb := (runLocalJoggers_bound d env.self env.tree
      (walkerPaths env.availablePaths) env.renew)
    have hb2 := hb.2 (by unfold localVisits at hvis; exact hvis)
    have hjs : (localKickoff d env w).joggers =
        (runLocalJoggers d env.self env.tree (walkerPaths env.availablePaths) env.renew).1 := rfl
    have hk : statsCalls (localKickoff d env w).world.trace = statsCalls w.trace := by
      show statsCalls (w.trace ++ [Event.createFile _] ++ _) = _
      rw [statsCalls_append, statsCalls_append, hb.1]
      simp [statsCalls]
    show statsCalls ((finalization _ _ _ _ _ _ _ _).trace ++ [Event.endTime]) = _
    rw [statsCalls_append,
      statsCalls_finalization _ _ _ _ _ _ _ _ (by rw [hpm]; exact hne)
        (by rw [hjs]; exact hb2.1)
        (by rw [hjs]; unfold localVisits at hvis; exact lt_of_le_of_lt hb2.2 hvis),
      hk]
    simp [statsCalls]

/-- C10, amended, on the sample runs: one object of ten bytes moved by the
global run, nothing by the local one. -/
theorem stats_added_when_marker_created_witness :
    statsCalls (runGlobalReb exDeps exEnv exWorld exSmap "A").world.trace =
      [("reb.global.n", 1), ("reb.global.size", 10)] ∧
    statsCalls (runLocalReb exDeps exLocalEnv exWorld).world.trace = [] :=
  ⟨((stats_added_when_marker_created exDeps).1 exEnv exWorld exSmap "A" exXact
      ⟨by decide, by decide, by decide, by decide⟩ rfl (by decide)).trans (by decide),
   ((stats_added_when_marker_created exDeps).2 exLocalEnv exWorld
      (by unfold localMarkerCreated; decide) (by decide)).trans (by decide)⟩


/-! ## C11 -/

theorem spawnCalls_append (a b : List Event) :
    spawnCalls (a ++ b) = spawnCalls a ++ spawnCalls b := by
  unfold spawnCalls
  exact List.filterMap_append _ _ _

theorem removeCalls_append (a b : List Event) :
    removeCalls (a ++ b) = removeCalls a ++ removeCalls b := by
  unfold removeCalls
  exact List.filterMap_append _ _ _

/-- Walker calls are neither spawns nor removals. -/
theorem walkerCalls_no_spawn_remove (l : List Event)
    (h : ∀ ev ∈ l, ev.isWalkerCall = true) : spawnCalls l = [] ∧ removeCalls l = [] := by
  induction l with
  | nil => exact ⟨rfl, rfl⟩
  | cons ev rest ih =>
    have hev := h ev (List.mem_cons_self _ _)
    have hrest := ih (fun e' he' => h e' (List.mem_cons_of_mem _ he'))
    cases ev <;> simp [Event.isWalkerCall] at hev <;>
      simpa [spawnCalls, removeCalls] using hrest

/-- A traversal by a global walker makes walker calls only. -/
theorem globalTraverse_walkerCalls (d : Deps) (steps : List GStep) :
    ∀ (rj : globalRebJogger) (x : xactRebBase),
      ∀ ev ∈ (rj.traverse d x steps).events, ev.isWalkerCall = true := by
  induction steps with
  | nil => intro rj x ev hev; simp [globalRebJogger.traverse] at hev
  | cons s rest ih =>
    intro rj x
    cases s with
    | extAbort => simpa only [globalRebJogger.traverse] using ih rj x.Abort
    | visit e =>
      have hwc : ∀ ev ∈ (rj.walk d x e).events ++
          (globalRebJogger.complete e (rj.walk d x e)).2, ev.isWalkerCall = true := by
        have hc := walkAndComplete_cases d rj x e
        unfold walkAndComplete at hc
        rcases hc with h | h | ⟨dest, h⟩ <;> rw [h] <;> intro ev hev <;>
          simp at hev <;> rcases hev with rfl | hev <;> try rfl
        all_goals rcases hev with rfl | hev <;> try rfl
        all_goals rcases hev with rfl | hev <;> try rfl
        all_goals rcases hev with rfl | hev <;> try rfl
        all_goals rcases hev with rfl | rfl <;> rfl
      simp only [globalRebJogger.traverse]
      split
      · exact hwc
      · intro ev hev
        simp only [List.mem_append] at hev
        rcases hev with hev | hev
        · exact hwc ev (List.mem_append.mpr hev)
        · exact ih _ _ ev hev

/-- The walkers of a global run are spawned on the given roots, in order, and
remove nothing. -/
theorem runGlobalJoggers_spawn_remove (d : Deps) (self : String) (smap : smapX)
    (tree : String → List GStep) (paths : List String) :
    ∀ x, spawnCalls (runGlobalJoggers d self smap tree paths x).2.2 = paths ∧
      removeCalls (runGlobalJoggers d self smap tree paths x).2.2 = [] := by
  induction paths with
  | nil => intro x; exact ⟨rfl, rfl⟩
  | cons p ps ih =>
    intro x
    have hw := walkerCalls_no_spawn_remove _
      (globalTraverse_walkerCalls d (tree p) { base := ⟨self, p, 0, 0⟩, smap := smap } x)
    simp only [runGlobalJoggers, globalRebJogger.jog]
    constructor
    · rw [spawnCalls_append, spawnCalls_append, spawnCalls_append, hw.1, (ih _).1]
      rfl
    · rw [removeCalls_append, removeCalls_append, removeCalls_append, hw.2, (ih _).2]
      rfl

/-- C11. For every run of `runGlobalReb` that passed liveness and was granted
an activity but in which creating the marker file fails: the walkers are
launched all the same, two for every mountpath (its cloud and its local tree),
and no `os.Remove` is called, at finalization or anywhere else in the run. -/
theorem walkers_run_without_marker (d : Deps) (env : GlobalEnv) (w : World) (smap : smapX)
    (newTargetID : String) (h : globalMarkerFailed d env w smap) :
    spawnCalls (runGlobalReb d env w smap newTargetID).world.trace =
      spawnCalls w.trace ++ env.availablePaths.flatMap (fun m => [m.pathC, m.pathL]) ∧
    (env.availablePaths.flatMap (fun m => [m.pathC, m.pathL])).length =
      2 * env.availablePaths.length ∧
    removeCalls (runGlobalReb d env w smap newTargetID).world.trace = removeCalls w.trace ∧
    (runGlobalReb d env w smap newTargetID).world.files = w.files := by
  obtain ⟨hcnt, hping, hren, hcr⟩ := h
  obtain ⟨x, hx⟩ := Option.isSome_iff_exists.mp hren
  have hpm : (globalKickoff d env w smap x).pmarker = "" := by
    simp [globalKickoff, hcr]
  have hfiles : (CreateFile (persistentMarker d globalRebType) env.createErr w.files).2 =
      w.files := by
    unfold CreateFile at hcr ⊢
    split
    · rfl
    · split
      · rfl
      · simp_all
  have hsr := runGlobalJoggers_spawn_remove d env.self smap env.tree
    (walkerPaths env.availablePaths) x
  have hpoll : spawnCalls (pollRebalancingDone env.self smap).2 = [] ∧
      removeCalls (pollRebalancingDone env.self smap).2 = [] := by
    have h := pollRebalancingDone_events env.self smap
    generalize (pollRebalancingDone env.self smap).2 = l at h
    induction l with
    | nil => exact ⟨rfl, rfl⟩
    | cons e es ih =>
      have he := h e (List.mem_cons_self _ _)
      have hes := ih (fun e' he' => h e' (List.mem_cons_of_mem _ he'))
      rcases he with rfl | ⟨p, v, rfl⟩ <;> simpa [spawnCalls, removeCalls] using hes
  have hbar : spawnCalls (if newTargetID = env.self then
        (pollRebalancingDone env.self smap).2 ++
          (if (pollRebalancingDone env.self smap).1 = Status.returned then [Event.endTime]
           else [])
        else [Event.endTime]) = [] ∧
      removeCalls (if newTargetID = env.self then
        (pollRebalancingDone env.self smap).2 ++
          (if (pollRebalancingDone env.self smap).1 = Status.returned then [Event.endTime]
           else [])
        else [Event.endTime]) = [] := by
    split
    · rw [spawnCalls_append, removeCalls_append, hpoll.1, hpoll.2]
      split <;> exact ⟨rfl, rfl⟩
    · exact ⟨rfl, rfl⟩
  have hk : (globalKickoff d env w smap x).world.trace =
      w.trace ++ [Event.resync, Event.createFile (persistentMarker d globalRebType)] ++
        (runGlobalJoggers d env.self smap env.tree (walkerPaths env.availablePaths) x).2.2 :=
    rfl
  rw [runGlobalReb_proceeds d env w smap newTargetID x hcnt hping hx, globalBarrier_trace,
    globalBarrier_files, finalization_trace, finalization_files, hpm]
  refine ⟨?_, ?_, ?_, ?_⟩
  · rw [spawnCalls_append, hbar.1, hk]
    simp only [ne_eq, not_true_eq_false, false_and, if_false, List.append_nil]
    rw [spawnCalls_append, spawnCalls_append, hsr.1]
    simp [spawnCalls, walkerPaths]
  · induction env.availablePaths with
    | nil => rfl
    | cons m ms ih => simp only [List.flatMap_cons, List.length_append, ih, List.length_cons,
        List.length_nil]; omega
  · rw [removeCalls_append, hbar.2, hk]
    simp only [ne_eq, not_true_eq_false, false_and, if_false, List.append_nil]
    rw [removeCalls_append, removeCalls_append, hsr.2]
    simp [removeCalls]
  · simp only [ne_eq, not_true_eq_false, false_and, if_false]
    exact hfiles

/-- C11 on the sample run whose marker cannot be created: both walkers of the
mountpath are launched and nothing is removed. -/
theorem walkers_run_without_marker_witness :
    spawnCalls (runGlobalReb exDeps exEnvNoMarker exWorld exSmap "").world.trace =
      ["/mp1/cloud", "/mp1/local"] ∧
    removeCalls (runGlobalReb exDeps exEnvNoMarker exWorld exSmap "").world.trace = [] :=
  ⟨(walkers_run_without_marker exDeps exEnvNoMarker exWorld exSmap ""
      ⟨by decide, by decide, by decide, by decide⟩).1,
   (walkers_run_without_marker exDeps exEnvNoMarker exWorld exSmap ""
      ⟨by decide, by decide, by decide, by decide⟩).2.2.1⟩

/-! ## C12 -/

/-- C12. In `localRebJogger.walk`, for every misplaced existing non-replica
object whose destination directory was created (activity not aborted), the
result of `CopyObject` decides the outcome.  On success `walk` returns nil
with `objectsMoved` increased by 1 and `bytesMoved` by the file size (`int64`
additions, exact whenever the sums fit `int64`).  On a not-exist error `walk`
returns nil, the activity is not aborted and the counters are unchanged.  On
any other error the activity is aborted, `fshc` is called with the destination
path, the counters are unchanged and `walk` returns that error.  The lock is
released on all three paths. -/
theorem local_walk_copy_outcomes (d : Deps) (rj : localRebJogger) (x : xactRebBase)
    (e : LEntry) (hx : x.aborted = false) (he : reachesCopy e) :
    (e.copyErr = none →
      rj.walk d x e =
        ⟨none,
         { base := { rj.base with
             objectsMoved := addInt64 rj.base.objectsMoved 1,
             bytesMoved := addInt64 rj.base.bytesMoved e.size } },
         x,
         [Event.createDir (d.Dir e.hrwFQN), Event.lock e.lomUname,
          Event.copyObject e.fqn e.hrwFQN, Event.unlock e.lomUname]⟩ ∧
      (inInt64 (rj.base.objectsMoved + 1) → inInt64 (rj.base.bytesMoved + e.size) →
        (rj.walk d x e).rj.base.objectsMoved = rj.base.objectsMoved + 1 ∧
        (rj.walk d x e).rj.base.bytesMoved = rj.base.bytesMoved + e.size)) ∧
    (∀ err, e.copyErr = some err → err.notExist = true →
      rj.walk d x e =
        ⟨none, rj, x,
         [Event.createDir (d.Dir e.hrwFQN), Event.lock e.lomUname,
          Event.copyObject e.fqn e.hrwFQN, Event.unlock e.lomUname]⟩) ∧
    (∀ err, e.copyErr = some err → err.notExist = false →
      rj.walk d x e =
        ⟨some err, rj, x.Abort,
         [Event.createDir (d.Dir e.hrwFQN), Event.lock e.lomUname,
          Event.copyObject e.fqn e.hrwFQN, Event.unlock e.lomUname,
          Event.fshc err e.hrwFQN]⟩) := by
  obtain ⟨h1, h2, h3, h4, h5, h6, h7⟩ := he
  refine ⟨?_, ?_, ?_⟩
  · intro hc
    have hw : rj.walk d x e =
        ⟨none,
         { base := { rj.base with
             objectsMoved := addInt64 rj.base.objectsMoved 1,
             bytesMoved := addInt64 rj.base.bytesMoved e.size } },
         x,
         [Event.createDir (d.Dir e.hrwFQN), Event.lock e.lomUname,
          Event.copyObject e.fqn e.hrwFQN, Event.unlock e.lomUname]⟩ := by
      unfold localRebJogger.walk
      simp [hx, h1, h2, h3, h4, h5, h6, h7, hc]
    refine ⟨hw, fun ho hb => ?_⟩
    rw [hw]
    exact ⟨wrapInt64_of_inInt64 ho, wrapInt64_of_inInt64 hb⟩
  · intro err hc hn
    unfold localRebJogger.walk
    simp [hx, h1, h2, h3, h4, h5, h6, h7, hc, hn]
  · intro err hc hn
    unfold localRebJogger.walk
    simp [hx, h1, h2, h3, h4, h5, h6, h7, hc, hn]

/-- C12 on the sample objects: a copied one, a vanished one and one whose copy
fails on the destination. -/
theorem local_walk_copy_outcomes_witness :
    ((exLocalJogger.walk exDeps exXact exLEntry).err = none ∧
      (exLocalJogger.walk exDeps exXact exLEntry).rj.base.objectsMoved = 0 + 1 ∧
      (exLocalJogger.walk exDeps exXact exLEntry).rj.base.bytesMoved = 0 + 10) ∧
    exLocalJogger.walk exDeps exXact exLEntryGone =
      ⟨none, exLocalJogger, exXact,
       [Event.createDir "/mp2/cloud/b", Event.lock "b/o3",
        Event.copyObject "/mp1/cloud/b/o3" "/mp2/cloud/b/o3", Event.unlock "b/o3"]⟩ ∧
    exLocalJogger.walk exDeps exXact exLEntryFull =
      ⟨some ⟨"no space left", false⟩, exLocalJogger, exXactAborted,
       [Event.createDir "/mp2/cloud/b", Event.lock "b/o3",
        Event.copyObject "/mp1/cloud/b/o3" "/mp2/cloud/b/o3", Event.unlock "b/o3",
        Event.fshc ⟨"no space left", false⟩ "/mp2/cloud/b/o3"]⟩ :=
  ⟨⟨congrArg LWalkResult.err
      ((local_walk_copy_outcomes exDeps exLocalJogger exXact exLEntry rfl
        (by unfold reachesCopy; decide)).1 rfl).1,
    ((local_walk_copy_outcomes exDeps exLocalJogger exXact exLEntry rfl
        (by unfold reachesCopy; decide)).1 rfl).2
      (by unfold inInt64; decide) (by unfold inInt64; decide)⟩,
   (local_walk_copy_outcomes exDeps exLocalJogger exXact exLEntryGone rfl
      (by unfold reachesCopy; decide)).2.1 ⟨"no such file", true⟩ rfl rfl,
   (local_walk_copy_outcomes exDeps exLocalJogger exXact exLEntryFull rfl
      (by unfold reachesCopy; decide)).2.2 ⟨"no space left", false⟩ rfl rfl⟩

/-! ## C13 -/

/-- C13, as stated, fails: when the destination directory cannot be created,
`walk` aborts the activity and signals the health checker, but it returns nil,
not the error. -/
theorem local_walk_createDir_failure_example :
    reachesCreateDir exLEntryNoDir ∧
    exLEntryNoDir.createDirErr = some ⟨"read-only", false⟩ ∧
    (exLocalJogger.walk exDeps exXact exLEntryNoDir).err = none ∧
    (exLocalJogger.walk exDeps exXact exLEntryNoDir).xreb.aborted = true := by
  unfold reachesCreateDir
  decide

/-- C13, amended. For every misplaced object whose destination directory
cannot be created (activity not aborted), `localRebJogger.walk` aborts the
activity, signals the filesystem health checker for the destination path and
returns nil, taking no lock and copying nothing; the walker stops at the entry
that follows, whose `walk` returns the error of an aborted activity, and a
traversal that has no further entry ends without error. -/
theorem local_walk_createDir_failure (d : Deps) (rj : localRebJogger) (x : xactRebBase)
    (e : LEntry) (err : GoError) (hx : x.aborted = false) (he : reachesCreateDir e)
    (hc : e.createDirErr = some err) :
    rj.walk d x e =
      ⟨none, rj, x.Abort, [Event.createDir (d.Dir e.hrwFQN), Event.fshc err e.hrwFQN]⟩ ∧
    (∀ (e' : LEntry) (rest : List LStep),
      rj.traverse d x (LStep.visit e :: LStep.visit e' :: rest) =
        ⟨some (errorsNew (x.str ++ " aborted, path " ++ rj.base.mpath)), rj, x.Abort,
         [Event.createDir (d.Dir e.hrwFQN), Event.fshc err e.hrwFQN]⟩) ∧
    rj.traverse d x [LStep.visit e] =
      ⟨none, rj, x.Abort, [Event.createDir (d.Dir e.hrwFQN), Event.fshc err e.hrwFQN]⟩ := by
  obtain ⟨h1, h2, h3, h4, h5, h6⟩ := he
  have hw : rj.walk d x e =
      ⟨none, rj, x.Abort, [Event.createDir (d.Dir e.hrwFQN), Event.fshc err e.hrwFQN]⟩ := by
    unfold localRebJogger.walk
    simp [hx, h1, h2, h3, h4, h5, h6, hc]
  refine ⟨hw, ?_, ?_⟩
  · intro e' rest
    have hw' : rj.walk d x.Abort e' =
        ⟨some (errorsNew (x.str ++ " aborted, path " ++ rj.base.mpath)), rj, x.Abort, []⟩ := by
      unfold localRebJogger.walk
      simp [xactRebBase.Abort]
    simp [localRebJogger.traverse, hw, hw']
  · simp [localRebJogger.traverse, hw]

/-- C13, amended, on the sample object whose destination directory cannot be
created. -/
theorem local_walk_createDir_failure_witness :
    exLocalJogger.walk exDeps exXact exLEntryNoDir =
      ⟨none, exLocalJogger, exXactAborted,
       [Event.createDir "/mp2/cloud/b", Event.fshc ⟨"read-only", false⟩ "/mp2/cloud/b/o3"]⟩ ∧
    exLocalJogger.traverse exDeps exXact [LStep.visit exLEntryNoDir, LStep.visit exLEntry] =
      ⟨some (errorsNew "xaction aborted, path /mp1/cloud"), exLocalJogger, exXactAborted,
       [Event.createDir "/mp2/cloud/b", Event.fshc ⟨"read-only", false⟩ "/mp2/cloud/b/o3"]⟩ :=
  ⟨(local_walk_createDir_failure exDeps exLocalJogger exXact exLEntryNoDir
      ⟨"read-only", false⟩ rfl (by unfold reachesCreateDir; decide) rfl).1,
   (local_walk_createDir_failure exDeps exLocalJogger exXact exLEntryNoDir
      ⟨"read-only", false⟩ rfl (by unfold reachesCreateDir; decide) rfl).2.1 exLEntry []⟩

/-! ## C14 -/

/-- On an entry with nothing to move `walk` makes no call and leaves the
walker and the activity as they are. -/
theorem local_walk_nothingToMove (d : Deps) (rj : localRebJogger) (x : xactRebBase)
    (e : LEntry) (he : nothingToMove e) :
    (rj.walk d x e).events = [] ∧ (rj.walk d x e).rj = rj ∧ (rj.walk d x e).xreb = x ∧
    (x.aborted = false → e.err = none → (rj.walk d x e).err = none) := by
  unfold localRebJogger.walk
  dsimp only
  rcases he with h | h | h <;> simp only [h] <;> repeat' split
  all_goals simp_all

/-- A traversal over entries with nothing to move makes no call and leaves the
walker as it is. -/
theorem local_traverse_nothingToMove (d : Deps) (steps : List LStep) :
    ∀ (rj : localRebJogger) (x : xactRebBase),
      (∀ e, LStep.visit e ∈ steps → nothingToMove e) →
      (rj.traverse d x steps).events = [] ∧ (rj.traverse d x steps).rj = rj := by
  induction steps with
  | nil => intro rj x _; exact ⟨rfl, rfl⟩
  | cons s rest ih =>
    intro rj x h
    have hrest : ∀ e, LStep.visit e ∈ rest → nothingToMove e :=
      fun e he => h e (List.mem_cons_of_mem _ he)
    cases s with
    | extAbort => simpa only [localRebJogger.traverse] using ih rj x.Abort hrest
    | visit e =>
      obtain ⟨h1, h2, h3, -⟩ := local_walk_nothingToMove d rj x e (h e (List.mem_cons_self _ _))
      simp only [localRebJogger.traverse]
      split
      · exact ⟨h1, h2⟩
      · simp only [h1, h2, List.nil_append]
        exact ih rj _ hrest

/-- The walkers of a local run over trees with nothing to move end with both
counters at zero. -/
theorem runLocalJoggers_nothingToMove (d : Deps) (self : String)
    (tree : String → List LStep) (h : ∀ p e, LStep.visit e ∈ tree p → nothingToMove e)
    (paths : List String) :
    ∀ x, ∀ j ∈ (runLocalJoggers d self tree paths x).1,
      j.base.objectsMoved = 0 ∧ j.base.bytesMoved = 0 := by
  induction paths with
  | nil => intro x j hj; simp [runLocalJoggers] at hj
  | cons p ps ih =>
    intro x j hj
    simp only [runLocalJoggers, localRebJogger.jog, List.mem_cons] at hj
    rcases hj with rfl | hj
    · rw [(local_traverse_nothingToMove d (tree p) _ x (h p)).2]
      exact ⟨rfl, rfl⟩
    · exact ih _ j hj

/-- C14. For every entry whose object does not exist, is a replica copy, or is
not locally misplaced, `localRebJogger.walk` creates no directory, takes no
lock, copies nothing and leaves `objectsMoved` and `bytesMoved` unchanged, and
it returns nil when the activity is not aborted and the entry was handed over
without error; hence a traversal meeting only such entries leaves the walker
unchanged, and a local rebalance over trees without a misplaced object ends
with 0 objects and 0 bytes moved on every walker. -/
theorem local_walk_skips_nothingToMove (d : Deps) :
    (∀ (rj : localRebJogger) (x : xactRebBase) (e : LEntry), nothingToMove e →
      (rj.walk d x e).events = [] ∧
      (rj.walk d x e).rj.base.objectsMoved = rj.base.objectsMoved ∧
      (rj.walk d x e).rj.base.bytesMoved = rj.base.bytesMoved ∧
      (x.aborted = false → e.err = none → (rj.walk d x e).err = none)) ∧
    (∀ (rj : localRebJogger) (x : xactRebBase) (steps : List LStep),
      (∀ e, LStep.visit e ∈ steps → nothingToMove e) →
      (rj.traverse d x steps).events = [] ∧ (rj.traverse d x steps).rj = rj) ∧
    (∀ (env : LocalEnv) (w : World),
      (∀ p e, LStep.visit e ∈ env.tree p → nothingToMove e) →
      ∀ j ∈ (localKickoff d env w).joggers,
        j.base.objectsMoved = 0 ∧ j.base.bytesMoved = 0) := by
  refine ⟨?_, ?_, ?_⟩
  · intro rj x e he
    obtain ⟨h1, h2, -, h4⟩ := local_walk_nothingToMove d rj x e he
    exact ⟨h1, by rw [h2], by rw [h2], h4⟩
  · intro rj x steps h
    exact local_traverse_nothingToMove d steps rj x h
  · intro env w h j hj
    exact runLocalJoggers_nothingToMove d env.self env.tree h
      (walkerPaths env.availablePaths) env.renew j hj

/-- C14 on the sample object that is where it belongs. -/
theorem local_walk_skips_nothingToMove_witness :
    (exLocalJogger.walk exDeps exXact exLEntryInPlace).events = [] ∧
    (exLocalJogger.walk exDeps exXact exLEntryInPlace).rj.base.objectsMoved = 0 ∧
    (exLocalJogger.walk exDeps exXact exLEntryInPlace).rj.base.bytesMoved = 0 ∧
    (exLocalJogger.walk exDeps exXact exLEntryInPlace).err = none :=
  ⟨((local_walk_skips_nothingToMove exDeps).1 exLocalJogger exXact exLEntryInPlace
      (Or.inr (Or.inr rfl))).1,
   ((local_walk_skips_nothingToMove exDeps).1 exLocalJogger exXact exLEntryInPlace
      (Or.inr (Or.inr rfl))).2.1,
   ((local_walk_skips_nothingToMove exDeps).1 exLocalJogger exXact exLEntryInPlace
      (Or.inr (Or.inr rfl))).2.2.1,
   ((local_walk_skips_nothingToMove exDeps).1 exLocalJogger exXact exLEntryInPlace
      (Or.inr (Or.inr rfl))).2.2.2 rfl rfl⟩

/-! ## C15 -/

/-- The four shapes of the calls of `localRebJogger.walk`: none; a failed
directory creation; a copy under the lock; a copy under the lock followed by
the signal to the health checker. -/
theorem local_walk_cases (d : Deps) (rj : localRebJogger) (x : xactRebBase) (e : LEntry) :
    (rj.walk d x e).events = [] ∨
    (∃ err, (rj.walk d x e).events =
      [Event.createDir (d.Dir e.hrwFQN), Event.fshc err e.hrwFQN]) ∨
    (rj.walk d x e).events =
      [Event.createDir (d.Dir e.hrwFQN), Event.lock e.lomUname,
       Event.copyObject e.fqn e.hrwFQN, Event.unlock e.lomUname] ∨
    (∃ err, (rj.walk d x e).events =
      [Event.createDir (d.Dir e.hrwFQN), Event.lock e.lomUname,
       Event.copyObject e.fqn e.hrwFQN, Event.unlock e.lomUname,
       Event.fshc err e.hrwFQN]) := by
  unfold localRebJogger.walk
  dsimp only
  repeat' split
  all_goals simp

/-- C15. For every invocation of `localRebJogger.walk`: the read lock is taken
at most once, and only on the object's name; every name is unlocked as often
as it is locked, whatever the exit path; the lock is taken exactly when the
copy is attempted, so no path that returns before the copy takes it; and on an
entry that reaches the copy (activity not aborted) the lock is taken once and
released once, whether the copy succeeds, the source has vanished or the copy
fails otherwise. -/
theorem local_walk_lock_balanced (d : Deps) (rj : localRebJogger) (x : xactRebBase)
    (e : LEntry) :
    (∀ n, (rj.walk d x e).events.count (Event.unlock n) =
            (rj.walk d x e).events.count (Event.lock n)) ∧
    (∀ n, (rj.walk d x e).events.count (Event.lock n) ≤ if n = e.lomUname then 1 else 0) ∧
    (rj.walk d x e).events.count (Event.lock e.lomUname) =
      (rj.walk d x e).events.count (Event.copyObject e.fqn e.hrwFQN) ∧
    (x.aborted = false → reachesCopy e →
      (rj.walk d x e).events.count (Event.lock e.lomUname) = 1 ∧
      (rj.walk d x e).events.count (Event.unlock e.lomUname) = 1) := by
  have hreach : x.aborted = false → reachesCopy e →
      (rj.walk d x e).events.count (Event.lock e.lomUname) = 1 := by
    rintro hx ⟨h1, h2, h3, h4, h5, h6, h7⟩
    unfold localRebJogger.walk
    simp only [hx, h1, h2, h3, h4, h5, h6, h7]
    cases e.copyErr with
    | none => simp [List.count_cons]
    | some err => by_cases hn : err.notExist = false <;> simp [hn, List.count_cons]
  have hbal : ∀ n, (rj.walk d x e).events.count (Event.unlock n) =
      (rj.walk d x e).events.count (Event.lock n) := by
    intro n
    rcases local_walk_cases d rj x e with h | ⟨err, h⟩ | h | ⟨err, h⟩ <;> rw [h] <;>
      simp [List.count_cons]
  refine ⟨hbal, fun n => ?_, ?_, fun hx he => ⟨hreach hx he, ?_⟩⟩
  · rcases local_walk_cases d rj x e with h | ⟨err, h⟩ | h | ⟨err, h⟩ <;> rw [h] <;>
      (simp [List.count_cons]; try (split <;> simp_all))
  · rcases local_walk_cases d rj x e with h | ⟨err, h⟩ | h | ⟨err, h⟩ <;> rw [h] <;>
      simp [List.count_cons]
  · rw [hbal, hreach hx he]

/-- C15 on the sample objects: one lock and one unlock around a copy that
fails on the destination. -/
theorem local_walk_lock_balanced_witness :
    (exLocalJogger.walk exDeps exXact exLEntryFull).events.count (Event.lock "b/o3") = 1 ∧
    (exLocalJogger.walk exDeps exXact exLEntryFull).events.count (Event.unlock "b/o3") = 1 :=
  (local_walk_lock_balanced exDeps exLocalJogger exXact exLEntryFull).2.2.2 rfl
    (by unfold reachesCopy; decide)

/-! ## C16 -/

/-- A string that contains a token still contains it when text is appended. -/
theorem stringsContains_append (s t u : String) (h : stringsContains s t) :
    stringsContains (s ++ u) t := by
  unfold stringsContains at h ⊢
  rw [String.data_append]
  exact h.trans (List.prefix_append _ _).isInfix

/-- C16. For every entry, when the activity's abort flag is set,
`globalRebJogger.walk` and `localRebJogger.walk` return at once: no call is
made, walker and activity are unchanged, whatever the entry and the walk error
are, and the error returned is non-nil; its message starts with the printed
form of the activity and so contains the substring `xaction` whenever that
printed form does. -/
theorem walk_aborted_returns_xaction_error (d : Deps) (x : xactRebBase)
    (hab : x.aborted = true) (htok : x.printsToken) :
    (∀ (rj : globalRebJogger) (e : GEntry),
      rj.walk d x e =
        ⟨some (errorsNew (x.str ++ ": aborted, path " ++ rj.base.mpath)), rj, x, [], none⟩ ∧
      stringsContains (x.str ++ ": aborted, path " ++ rj.base.mpath) "xaction") ∧
    (∀ (rj : localRebJogger) (e : LEntry),
      rj.walk d x e =
        ⟨some (errorsNew (x.str ++ " aborted, path " ++ rj.base.mpath)), rj, x, []⟩ ∧
      stringsContains (x.str ++ " aborted, path " ++ rj.base.mpath) "xaction") := by
  constructor
  · intro rj e
    refine ⟨by unfold globalRebJogger.walk; simp [hab], ?_⟩
    exact stringsContains_append _ _ _ (stringsContains_append _ _ _ htok)
  · intro rj e
    refine ⟨by unfold localRebJogger.walk; simp [hab], ?_⟩
    exact stringsContains_append _ _ _ (stringsContains_append _ _ _ htok)

/-- C16 on the sample walkers and the aborted sample activity. -/
theorem walk_aborted_returns_xaction_error_witness :
    (exJogger.walk exDeps exXactAborted exEntry =
        ⟨some (errorsNew "xaction: aborted, path /mp1/cloud"), exJogger, exXactAborted, [],
          none⟩ ∧
      stringsContains "xaction: aborted, path /mp1/cloud" "xaction") ∧
    (exLocalJogger.walk exDeps exXactAborted exLEntry =
        ⟨some (errorsNew "xaction aborted, path /mp1/cloud"), exLocalJogger, exXactAborted,
          []⟩ ∧
      stringsContains "xaction aborted, path /mp1/cloud" "xaction") :=
  ⟨(walk_aborted_returns_xaction_error exDeps exXactAborted rfl
      (by unfold xactRebBase.printsToken stringsContains; decide)).1 exJogger exEntry,
   (walk_aborted_returns_xaction_error exDeps exXactAborted rfl
      (by unfold xactRebBase.printsToken stringsContains; decide)).2 exLocalJogger exLEntry⟩

/-! ## C17 -/

/-- The truncated quotient by a positive divisor lies between the dividend and
zero. -/
theorem tdiv_bounds (a b : Int) (hb : 0 < b) :
    (0 ≤ a → 0 ≤ a.tdiv b ∧ a.tdiv b ≤ a) ∧ (a < 0 → a ≤ a.tdiv b ∧ a.tdiv b ≤ 0) := by
  have hpos : ∀ c : Int, 0 ≤ c → 0 ≤ c.tdiv b ∧ c.tdiv b ≤ c := by
    intro c hc
    rw [Int.tdiv_eq_ediv hc (le_of_lt hb)]
    exact ⟨Int.ediv_nonneg hc (le_of_lt hb), Int.ediv_le_self b hc⟩
  refine ⟨hpos a, fun ha => ?_⟩
  have h := hpos (-a) (by omega)
  rw [Int.neg_tdiv] at h
  omega

/-- On `int64` values and a positive divisor the `int64` quotient is the
truncated quotient. -/
theorem divInt64_eq (a b : Int) (ha : inInt64 a) (hb : 0 < b) : divInt64 a b = a.tdiv b := by
  unfold divInt64
  apply wrapInt64_of_inInt64
  unfold inInt64 at ha ⊢
  have h := tdiv_bounds a b hb
  by_cases h0 : 0 ≤ a
  · have := h.1 h0; omega
  · have := h.2 (by omega); omega

/-- What the retry loop returns: `ok` tells whether one of the `n` calls from
number `i` on succeeds; on success the last call made is the first that
succeeds; without success all `n` calls are made. -/
theorem pingLoop_spec (config : Config) (healthOk : Nat → Bool) (n : Nat) :
    ∀ (i : Nat) (timeout : Int),
      ((pingLoop config healthOk n i timeout).1 = true ↔
        ∃ j, i ≤ j ∧ j < i + n ∧ healthOk j = true) ∧
      ((pingLoop config healthOk n i timeout).1 = true →
        1 ≤ (healthCalls (pingLoop config healthOk n i timeout).2).length ∧
        healthOk (i + (healthCalls (pingLoop config healthOk n i timeout).2).length - 1) = true ∧
        ∀ j, i ≤ j → j < i + (healthCalls (pingLoop config healthOk n i timeout).2).length - 1 →
          healthOk j = false) ∧
      ((pingLoop config healthOk n i timeout).1 = false →
        (healthCalls (pingLoop config healthOk n i timeout).2).length = n) := by
  induction n with
  | zero =>
    intro i timeout
    simp only [pingLoop, healthCalls]
    refine ⟨⟨fun h => absurd h (by simp), ?_⟩, fun h => absurd h (by simp), fun _ => rfl⟩
    rintro ⟨j, h1, h2, -⟩
    omega
  | succ n ih =>
    intro i timeout
    by_cases hi : healthOk i = true
    · simp only [pingLoop, hi, if_true]
      refine ⟨⟨fun _ => ⟨i, le_refl _, by omega, hi⟩, fun _ => trivial⟩, fun _ => ?_, fun h => ?_⟩
      · refine ⟨by simp [healthCalls], by simpa [healthCalls] using hi, fun j h1 h2 => ?_⟩
        simp [healthCalls] at h2
        omega
      · exact absurd h (by simp)
    · have hif : healthOk i = false := by simpa using hi
      simp only [pingLoop, hif, Bool.false_eq_true, if_false]
      generalize (if addInt64 timeout (divInt64 timeout 2) > config.MaxKeepalive then
        config.MaxKeepalive else addInt64 timeout (divInt64 timeout 2)) = t2
      obtain ⟨h1, h2, h3⟩ := ih (i + 1) t2
      have hlen : (healthCalls (NetEvent.health timeout :: NetEvent.sleep config.keepaliveRetry ::
          (pingLoop config healthOk n (i + 1) t2).2)).length =
          (healthCalls (pingLoop config healthOk n (i + 1) t2).2).length + 1 := by
        simp [healthCalls]
      rw [hlen]
      refine ⟨?_, ?_, ?_⟩
      · rw [h1]
        constructor
        · rintro ⟨j, hj1, hj2, hj3⟩
          exact ⟨j, by omega, by omega, hj3⟩
        · rintro ⟨j, hj1, hj2, hj3⟩
          have : j ≠ i := by
            rintro rfl
            rw [hif] at hj3
            exact absurd hj3 (by simp)
          exact ⟨j, by omega, by omega, hj3⟩
      · intro hok
        obtain ⟨hl, hlast, hbefore⟩ := h2 hok
        refine ⟨by omega, ?_, ?_⟩
        · have : i + ((healthCalls (pingLoop config healthOk n (i + 1) t2).2).length + 1) - 1 =
              i + 1 + (healthCalls (pingLoop config healthOk n (i + 1) t2).2).length - 1 := by
            omega
          rw [this]
          exact hlast
        · intro j hj1 hj2
          by_cases hji : j = i
          · rw [hji]; exact hif
          · exact hbefore j (by omega) (by omega)
      · intro hok
        rw [h3 hok]

/-- C17, as stated, fails: with a keepalive timeout of zero `pingTarget`
panics on the division and returns nothing; and with negative durations (a
liveness budget of -7 s, smaller than the keepalive timeout of -2 s) it calls
the peer three times. -/
theorem pingTarget_nonpositive_timeout_example :
    pingTarget exConfigZero exHealthNever = none ∧
    exConfigNeg.DestRetryTime < exConfigNeg.keepaliveTimeout ∧
    pingTarget exConfigNeg exHealthNever =
      some (false,
        [NetEvent.health (-2000000000), NetEvent.sleep 1000000000,
         NetEvent.health (-3000000000), NetEvent.sleep 1000000000,
         NetEvent.health (-4500000000), NetEvent.sleep 1000000000]) := by
  decide

/-- C17, amended. With a keepalive timeout of zero `pingTarget` panics on the
division.  With a non-zero keepalive timeout and `R = DestRetryTime /
keepaliveTimeout` (the `int64` quotient, no call being made when it is not
positive): `pingTarget` returns true if and only if at least one of its first
`R` health calls succeeds; when it returns true the last call it made is the
first that succeeds, so no call follows the first success; when all fail it
makes exactly `R` calls.  With a positive keepalive timeout `R` is the
truncated quotient, and when `DestRetryTime` is smaller than the keepalive
timeout `pingTarget` returns false without any call. -/
theorem pingTarget_result (config : Config) (healthOk : Nat → Bool) :
    (config.keepaliveTimeout = 0 → pingTarget config healthOk = none) ∧
    (config.keepaliveTimeout ≠ 0 →
      ∃ ok evs, pingTarget config healthOk = some (ok, evs) ∧
        (ok = true ↔ ∃ j, 1 ≤ j ∧
          j ≤ (divInt64 config.DestRetryTime config.keepaliveTimeout).toNat ∧
          healthOk j = true) ∧
        (ok = true →
          healthOk (healthCalls evs).length = true ∧
          ∀ j, 1 ≤ j → j < (healthCalls evs).length → healthOk j = false) ∧
        (ok = false →
          (healthCalls evs).length =
            (divInt64 config.DestRetryTime config.keepaliveTimeout).toNat)) ∧
    (0 < config.keepaliveTimeout → inInt64 config.DestRetryTime →
      divInt64 config.DestRetryTime config.keepaliveTimeout =
        config.DestRetryTime.tdiv config.keepaliveTimeout ∧
      (config.DestRetryTime < config.keepaliveTimeout →
        pingTarget config healthOk = some (false, []))) := by
  refine ⟨?_, ?_, ?_⟩
  · intro h0
    unfold pingTarget
    simp only [h0, if_true]
  · intro hne
    have hp : pingTarget config healthOk = some (pingLoop config healthOk
        (divInt64 config.DestRetryTime config.keepaliveTimeout).toNat 1
        config.keepaliveTimeout) := by
      unfold pingTarget
      simp only [hne, if_false]
    obtain ⟨h1, h2, h3⟩ := pingLoop_spec config healthOk
      (divInt64 config.DestRetryTime config.keepaliveTimeout).toNat 1 config.keepaliveTimeout
    refine ⟨_, _, hp, ?_, ?_, h3⟩
    · rw [h1]
      constructor
      · rintro ⟨j, hj1, hj2, hj3⟩
        exact ⟨j, hj1, by omega, hj3⟩
      · rintro ⟨j, hj1, hj2, hj3⟩
        exact ⟨j, hj1, by omega, hj3⟩
    · intro hok
      obtain ⟨hl, hlast, hbefore⟩ := h2 hok
      refine ⟨?_, fun j hj1 hj2 => hbefore j hj1 (by omega)⟩
      have : 1 + (healthCalls (pingLoop config healthOk
          (divInt64 config.DestRetryTime config.keepaliveTimeout).toNat 1
          config.keepaliveTimeout).2).length - 1 = (healthCalls (pingLoop config healthOk
          (divInt64 config.DestRetryTime config.keepaliveTimeout).toNat 1
          config.keepaliveTimeout).2).length := by omega
      rw [this] at hlast
      exact hlast
  · intro ht hD
    have hdiv := divInt64_eq _ _ hD ht
    refine ⟨hdiv, fun hlt => ?_⟩
    have hne : config.keepaliveTimeout ≠ 0 := by omega
    have hR : (config.DestRetryTime.tdiv config.keepaliveTimeout).toNat = 0 := by
      by_cases h0 : 0 ≤ config.DestRetryTime
      · rw [Int.tdiv_eq_zero_of_lt h0 hlt]; rfl
      · have := (tdiv_bounds config.DestRetryTime config.keepaliveTimeout ht).2 (by omega)
        omega
    unfold pingTarget
    simp only [hne, if_false, hdiv, hR]
    rfl

/-- C17, amended, on the sample configuration (three attempts): a peer that
answers the second call is probed twice and found alive, a peer that never
answers is probed three times and found dead; with a timeout of zero nothing
is returned, and with a budget of 1 s no call is made. -/
theorem pingTarget_result_witness :
    (∃ evs, pingTarget exConfig exHealthSecond = some (true, evs) ∧
      (healthCalls evs).length = 2) ∧
    (∃ evs, pingTarget exConfig exHealthNever = some (false, evs) ∧
      (healthCalls evs).length = 3) ∧
    pingTarget exConfigZero exHealthNever = none ∧
    pingTarget exConfigShort exHealthSecond = some (false, []) := by
  refine ⟨?_, ?_, (pingTarget_result exConfigZero exHealthNever).1 rfl,
    ((pingTarget_result exConfigShort exHealthSecond).2.2 (by decide)
      (by unfold inInt64; decide)).2 (by decide)⟩
  · obtain ⟨ok, evs, hp, hiff, hlast, -⟩ :=
      (pingTarget_result exConfig exHealthSecond).2.1 (by decide)
    have hok : ok = true := hiff.mpr ⟨2, by decide, by decide, rfl⟩
    refine ⟨evs, by rw [hp, hok], ?_⟩
    simpa [exHealthSecond] using (hlast hok).1
  · obtain ⟨ok, evs, hp, hiff, -, hall⟩ :=
      (pingTarget_result exConfig exHealthNever).2.1 (by decide)
    have hok : ok = false := by
      cases ok with
      | false => rfl
      | true =>
        obtain ⟨j, -, -, hj⟩ := hiff.mp rfl
        exact absurd hj (by simp [exHealthNever])
    refine ⟨evs, by rw [hp, hok], ?_⟩
    rw [hall hok]
    decide
/-! ## C18 -/

/-- The timeouts used by the retry loop: the first is the one the loop starts
with, each next one is the widened and capped predecessor, and all but the
first are at most `MaxKeepalive`. -/
theorem pingLoop_timeouts (config : Config) (healthOk : Nat → Bool) (n : Nat) :
    ∀ (i : Nat) (timeout : Int),
      healthCalls (pingLoop config healthOk n i timeout).2 = [] ∨
      ∃ ts, healthCalls (pingLoop config healthOk n i timeout).2 = timeout :: ts ∧
        List.Chain' (fun a b => b = min (addInt64 a (divInt64 a 2)) config.MaxKeepalive)
          (timeout :: ts) ∧
        ∀ u ∈ ts, u ≤ config.MaxKeepalive := by
  induction n with
  | zero => intro i timeout; exact Or.inl rfl
  | succ n ih =>
    intro i timeout
    by_cases hi : healthOk i = true
    · refine Or.inr ⟨[], ?_, ?_, ?_⟩
      · simp [pingLoop, hi, healthCalls]
      · exact List.chain'_singleton _
      · intro u hu; exact absurd hu (List.not_mem_nil u)
    · have hif : healthOk i = false := by simpa using hi
      have ht2 : (if addInt64 timeout (divInt64 timeout 2) > config.MaxKeepalive then
          config.MaxKeepalive else addInt64 timeout (divInt64 timeout 2)) =
          min (addInt64 timeout (divInt64 timeout 2)) config.MaxKeepalive := by
        rw [min_def]
        split <;> split <;> omega
      have hcalls : healthCalls (pingLoop config healthOk (n + 1) i timeout).2 =
          timeout :: healthCalls (pingLoop config healthOk n (i + 1)
            (min (addInt64 timeout (divInt64 timeout 2)) config.MaxKeepalive)).2 := by
        simp only [pingLoop, hif, Bool.false_eq_true, if_false, ht2]
        simp [healthCalls]
      rw [hcalls]
      rcases ih (i + 1) (min (addInt64 timeout (divInt64 timeout 2)) config.MaxKeepalive) with
        h | ⟨ts, h, hch, hle⟩
      · refine Or.inr ⟨[], by rw [h], List.chain'_singleton _, ?_⟩
        intro u hu; exact absurd hu (List.not_mem_nil u)
      · refine Or.inr ⟨_ :: ts, by rw [h], List.Chain'.cons rfl hch, ?_⟩
        intro u hu
        rcases List.mem_cons.mp hu with rfl | hu
        · exact min_le_right _ _
        · exact hle u hu

/-- C18. In `pingTarget`, whatever the initial keepalive timeout and however
many attempts are made: the first attempt uses the initial timeout, uncapped;
after a failed attempt with timeout `t` the next attempt uses
`min(t + t/2, MaxKeepalive)`, the sum and the halving being those of `int64`
(they are the exact `t + t/2` with integer division for `t >= 0` that fits
`int64`); hence every timeout from the second attempt on is at most
`MaxKeepalive`. -/
theorem pingTarget_timeouts (config : Config) (healthOk : Nat → Bool) (ok : Bool)
    (evs : List NetEvent) (h : pingTarget config healthOk = some (ok, evs)) :
    (∀ t ts, healthCalls evs = t :: ts →
      t = config.keepaliveTimeout ∧ ∀ u ∈ ts, u ≤ config.MaxKeepalive) ∧
    List.Chain' (fun a b => b = min (addInt64 a (divInt64 a 2)) config.MaxKeepalive)
      (healthCalls evs) ∧
    (∀ a : Int, 0 ≤ a → a + a / 2 < 2 ^ 63 → addInt64 a (divInt64 a 2) = a + a / 2) := by
  have hexact : ∀ a : Int, 0 ≤ a → a + a / 2 < 2 ^ 63 →
      addInt64 a (divInt64 a 2) = a + a / 2 := by
    intro a ha hlt
    have hdiv : divInt64 a 2 = a / 2 := by
      rw [divInt64_eq a 2 (by unfold inInt64; omega) (by decide),
        Int.tdiv_eq_ediv ha (by decide)]
    rw [hdiv]
    apply wrapInt64_of_inInt64
    unfold inInt64
    omega
  unfold pingTarget at h
  by_cases h0 : config.keepaliveTimeout = 0
  · simp [h0] at h
  · simp only [h0, if_false, Option.some.injEq] at h
    have hevs : evs = (pingLoop config healthOk
        (divInt64 config.DestRetryTime config.keepaliveTimeout).toNat 1
        config.keepaliveTimeout).2 := by rw [h]
    rw [hevs]
    rcases pingLoop_timeouts config healthOk
        (divInt64 config.DestRetryTime config.keepaliveTimeout).toNat 1
        config.keepaliveTimeout with hnil | ⟨ts, hts, hch, hle⟩
    · rw [hnil]
      exact ⟨fun t ts hc => absurd hc (by simp), List.chain'_nil, hexact⟩
    · rw [hts]
      refine ⟨fun t ts' hc => ?_, hch, hexact⟩
      obtain ⟨rfl, rfl⟩ := List.cons.inj hc
      exact ⟨rfl, hle⟩

/-- C18 on the sample configuration and a peer that never answers: the
timeouts of the three attempts are 2 s, 3 s and 4 s. -/
theorem pingTarget_timeouts_witness :
    healthCalls [NetEvent.health 2000000000, NetEvent.sleep 1000000000,
        NetEvent.health 3000000000, NetEvent.sleep 1000000000,
        NetEvent.health 4000000000, NetEvent.sleep 1000000000] =
      [2000000000, 3000000000, 4000000000] ∧
    List.Chain' (fun a b => b = min (addInt64 a (divInt64 a 2)) exConfig.MaxKeepalive)
      (healthCalls [NetEvent.health 2000000000, NetEvent.sleep 1000000000,
        NetEvent.health 3000000000, NetEvent.sleep 1000000000,
        NetEvent.health 4000000000, NetEvent.sleep 1000000000]) :=
  ⟨by decide,
   (pingTarget_timeouts exConfig exHealthNever false
      [NetEvent.health 2000000000, NetEvent.sleep 1000000000,
        NetEvent.health 3000000000, NetEvent.sleep 1000000000,
        NetEvent.health 4000000000, NetEvent.sleep 1000000000] (by decide)).2.1⟩

/-! ## C19 -/

/-- C19 at the failing input: with a keepalive timeout of 2 s, a cap of 4 s and
a budget `DestRetryTime` of 6 s, `pingTarget` probes a peer that never answers
three times, with timeouts of 2 s, 3 s and 4 s: 9 s in all, more than the
budget. -/
theorem pingTarget_exceeds_budget_example :
    pingTarget exConfig exHealthNever =
      some (false, [NetEvent.health 2000000000, NetEvent.sleep 1000000000,
        NetEvent.health 3000000000, NetEvent.sleep 1000000000,
        NetEvent.health 4000000000, NetEvent.sleep 1000000000]) ∧
    (healthCalls [NetEvent.health 2000000000, NetEvent.sleep 1000000000,
        NetEvent.health 3000000000, NetEvent.sleep 1000000000,
        NetEvent.health 4000000000, NetEvent.sleep 1000000000]).sum = 9000000000 ∧
    exConfig.DestRetryTime < 9000000000 := by
  decide

/-! ## C20 -/

/-- One iteration of phase 1: it makes snapshot calls only, and then returns
on a failure, breaks on a snapshot that has caught up, or sleeps and goes on
with the next iteration on an older snapshot. -/
theorem waitPhase1_step (config : Config) (V : Int) (peer : Peer) (fuel k : Nat) (t : Int) :
    ∃ evs t1, (∀ ev ∈ evs, ∃ u, ev = NetEvent.smap u) ∧
      ((failsAt peer k ∧
          waitPhase1 config V peer (fuel + 1) k t = (evs, LoopExit.returned)) ∨
       (caughtUpAt peer V k ∧
          waitPhase1 config V peer (fuel + 1) k t = (evs, LoopExit.broke)) ∨
       (behindAt peer V k ∧
          waitPhase1 config V peer (fuel + 1) k t =
            (evs ++ NetEvent.sleep config.keepaliveRetry ::
              (waitPhase1 config V peer fuel (k + 1) t1).1,
             (waitPhase1 config V peer fuel (k + 1) t1).2))) := by
  refine ⟨(if (peer.first k).err = some CallErr.deadline then
      [NetEvent.smap t, NetEvent.smap (mulInt64 config.keepaliveTimeout 2)]
      else [NetEvent.smap t]),
    (if (peer.first k).err = some CallErr.deadline then mulInt64 config.keepaliveTimeout 2
      else t), ?_, ?_⟩
  · intro ev hev
    split at hev
    · simp only [List.mem_cons, List.mem_singleton, List.not_mem_nil, or_false] at hev
      rcases hev with rfl | rfl <;> exact ⟨_, rfl⟩
    · simp only [List.mem_singleton] at hev
      exact ⟨_, hev⟩
  · unfold failsAt caughtUpAt behindAt
    simp only [waitPhase1, Peer.answer]
    by_cases hd : (peer.first k).err = some CallErr.deadline
    · simp only [hd, decide_True, if_true]
      cases herr : (peer.retry k).err with
      | some c => exact Or.inl ⟨Or.inl (by simp), rfl⟩
      | none =>
        cases hv : (peer.retry k).version with
        | none => exact Or.inl ⟨Or.inr rfl, rfl⟩
        | some v =>
          by_cases hge : v ≥ V
          · exact Or.inr (Or.inl ⟨⟨rfl, v, rfl, hge⟩, by simp [hge]⟩)
          · exact Or.inr (Or.inr ⟨⟨rfl, v, rfl, by omega⟩, by simp [hge]⟩)
    · simp only [hd, decide_False, if_false, Bool.false_eq_true]
      cases herr : (peer.first k).err with
      | some c => exact Or.inl ⟨Or.inl (by simp), rfl⟩
      | none =>
        cases hv : (peer.first k).version with
        | none => exact Or.inl ⟨Or.inr rfl, rfl⟩
        | some v =>
          by_cases hge : v ≥ V
          · exact Or.inr (Or.inl ⟨⟨rfl, v, rfl, hge⟩, by simp [hge]⟩)
          · exact Or.inr (Or.inr ⟨⟨rfl, v, rfl, by omega⟩, by simp [hge]⟩)

/-- An iteration that receives an older snapshot neither fails nor has caught
up. -/
theorem behindAt_excl (peer : Peer) (V : Int) (k : Nat) (h : behindAt peer V k) :
    ¬ failsAt peer k ∧ ¬ caughtUpAt peer V k := by
  obtain ⟨he, v, hv, hlt⟩ := h
  constructor
  · rintro (hf | hf)
    · exact hf he
    · rw [hv] at hf; exact absurd hf (by simp)
  · rintro ⟨-, v', hv', hge⟩
    rw [hv] at hv'
    cases hv'
    omega

/-- A failing iteration has not caught up. -/
theorem failsAt_excl (peer : Peer) (V : Int) (k : Nat) (h : failsAt peer k) :
    ¬ caughtUpAt peer V k := by
  rintro ⟨he, v, hv, -⟩
  rcases h with hf | hf
  · exact hf he
  · rw [hv] at hf; exact absurd hf (by simp)

/-- Phase 1 makes snapshot calls and sleeps, nothing else. -/
theorem waitPhase1_events (config : Config) (V : Int) (peer : Peer) (fuel : Nat) :
    ∀ (k : Nat) (t : Int), ¬ entersPhase3 (waitPhase1 config V peer fuel k t).1 := by
  induction fuel with
  | zero =>
    intro k t h
    rcases h with h | ⟨u, h⟩ <;> simp [waitPhase1] at h
  | succ fuel ih =>
    intro k t
    obtain ⟨evs, t1, hevs, hstep⟩ := waitPhase1_step config V peer fuel k t
    have hno : ¬ entersPhase3 evs := by
      rintro (h | ⟨u, h⟩)
      · obtain ⟨u, hu⟩ := hevs _ h; cases hu
      · obtain ⟨u', hu⟩ := hevs _ h; cases hu
    rcases hstep with ⟨-, h⟩ | ⟨-, h⟩ | ⟨-, h⟩ <;> rw [h]
    · exact hno
    · exact hno
    · rintro (h' | ⟨u, h'⟩)
      · simp only [List.mem_append, List.mem_cons] at h'
        rcases h' with h' | h' | h'
        · exact hno (Or.inl h')
        · cases h'
        · exact ih _ _ (Or.inl h')
      · simp only [List.mem_append, List.mem_cons] at h'
        rcases h' with h' | h' | h'
        · exact hno (Or.inr ⟨u, h'⟩)
        · cases h'
        · exact ih _ _ (Or.inr ⟨u, h'⟩)

/-- Phase 1 is left through `break` only in an iteration that receives a
snapshot that has caught up, all iterations before it having received an
older one. -/
theorem waitPhase1_broke (config : Config) (V : Int) (peer : Peer) (fuel : Nat) :
    ∀ (k : Nat) (t : Int), (waitPhase1 config V peer fuel k t).2 = LoopExit.broke →
      ∃ k', k ≤ k' ∧ caughtUpAt peer V k' ∧ ∀ j, k ≤ j → j < k' → behindAt peer V j := by
  induction fuel with
  | zero => intro k t h; simp [waitPhase1] at h
  | succ fuel ih =>
    intro k t h
    obtain ⟨evs, t1, -, hstep⟩ := waitPhase1_step config V peer fuel k t
    rcases hstep with ⟨-, h'⟩ | ⟨hc, -⟩ | ⟨hb, h'⟩
    · rw [h'] at h; cases h
    · exact ⟨k, le_refl _, hc, fun j h1 h2 => by omega⟩
    · rw [h'] at h
      obtain ⟨k', hk', hc, hbefore⟩ := ih (k + 1) t1 h
      refine ⟨k', by omega, hc, fun j h1 h2 => ?_⟩
      by_cases hj : j = k
      · rw [hj]; exact hb
      · exact hbefore j (by omega) h2

/-- After `m` iterations on older snapshots, phase 1 is left through `return`
by a failing iteration and through `break` by one that has caught up, given
iterations enough to get there. -/
theorem waitPhase1_exit (config : Config) (V : Int) (peer : Peer) (m : Nat) :
    ∀ (fuel k : Nat) (t : Int), m < fuel →
      (∀ j, k ≤ j → j < k + m → behindAt peer V j) →
      (failsAt peer (k + m) → (waitPhase1 config V peer fuel k t).2 = LoopExit.returned) ∧
      (caughtUpAt peer V (k + m) →
        (waitPhase1 config V peer fuel k t).2 = LoopExit.broke) := by
  induction m with
  | zero =>
    intro fuel k t hfuel _
    obtain ⟨fuel', rfl⟩ : ∃ f, fuel = f + 1 := ⟨fuel - 1, by omega⟩
    obtain ⟨evs, t1, -, hstep⟩ := waitPhase1_step config V peer fuel' k t
    constructor
    · intro hf
      rcases hstep with ⟨-, h'⟩ | ⟨hc, -⟩ | ⟨hb, -⟩
      · rw [h']
      · exact absurd hc (failsAt_excl peer V k hf)
      · exact absurd hf (behindAt_excl peer V k hb).1
    · intro hc
      rcases hstep with ⟨hf, -⟩ | ⟨-, h'⟩ | ⟨hb, -⟩
      · exact absurd hc (failsAt_excl peer V k hf)
      · rw [h']
      · exact absurd hc (behindAt_excl peer V k hb).2
  | succ m ih =>
    intro fuel k t hfuel hbehind
    obtain ⟨fuel', rfl⟩ : ∃ f, fuel = f + 1 := ⟨fuel - 1, by omega⟩
    obtain ⟨evs, t1, -, hstep⟩ := waitPhase1_step config V peer fuel' k t
    have hbk : behindAt peer V k := hbehind k (le_refl _) (by omega)
    have hnext := ih fuel' (k + 1) t1 (by omega) (fun j h1 h2 => hbehind j (by omega) (by omega))
    have hidx : k + 1 + m = k + (m + 1) := by omega
    rw [hidx] at hnext
    rcases hstep with ⟨hf, -⟩ | ⟨hc, -⟩ | ⟨-, h'⟩
    · exact absurd hf (behindAt_excl peer V k hbk).1
    · exact absurd hc (behindAt_excl peer V k hbk).2
    · rw [h']
      exact hnext

/-- C20. For every sequence of peer responses and however long the loops are
run: `waitForRebalanceFinish` sleeps the settling delay and polls the peer's
health only after phase 1 has received from that peer a snapshot whose version
is at least `rebalanceVersion` (all calls before the settling delay are
snapshot calls and retry sleeps); and if, after iterations that received an
older snapshot, a phase-1 call fails (after the single deadline retry) or its
response cannot be decoded, the function has returned once that iteration is
run, without the settling delay and without any health poll. -/
theorem waitForRebalanceFinish_phase3_gate (config : Config) (peer : Peer) (V : Int) :
    (∀ fuel, entersPhase3 (waitForRebalanceFinish config peer V fuel).events →
      (∃ k, caughtUpAt peer V k ∧ ∀ j, j < k → behindAt peer V j) ∧
      ∃ p1 p3, (waitForRebalanceFinish config peer V fuel).events =
          p1 ++ NetEvent.settle :: p3 ∧ ¬ entersPhase3 p1) ∧
    (∀ k fuel, (∀ j, j < k → behindAt peer V j) → failsAt peer k → k < fuel →
      (waitForRebalanceFinish config peer V fuel).done = true ∧
      ¬ entersPhase3 (waitForRebalanceFinish config peer V fuel).events) ∧
    (∀ k fuel, (∀ j, j < k → behindAt peer V j) → caughtUpAt peer V k → k < fuel →
      NetEvent.settle ∈ (waitForRebalanceFinish config peer V fuel).events) := by
  refine ⟨?_, ?_, ?_⟩
  · intro fuel h
    unfold waitForRebalanceFinish at h ⊢
    have hno := waitPhase1_events config V peer fuel 0 config.defaultTimeout
    cases hexit : (waitPhase1 config V peer fuel 0 config.defaultTimeout).2 with
    | returned => simp only [hexit] at h; exact absurd h hno
    | polling => simp only [hexit] at h; exact absurd h hno
    | broke =>
      obtain ⟨k, -, hc, hb⟩ := waitPhase1_broke config V peer fuel 0 config.defaultTimeout hexit
      refine ⟨⟨k, hc, fun j hj => hb j (Nat.zero_le _) hj⟩,
        (waitPhase1 config V peer fuel 0 config.defaultTimeout).1,
        (waitPhase3 config peer fuel 0).1, ?_, hno⟩
      simp only [hexit]
  · intro k fuel hb hf hfuel
    have hexit := (waitPhase1_exit config V peer k fuel 0 config.defaultTimeout hfuel
      (fun j _ h2 => hb j (by omega))).1 (by simpa using hf)
    unfold waitForRebalanceFinish
    simp only [hexit]
    exact ⟨trivial, waitPhase1_events config V peer fuel 0 config.defaultTimeout⟩
  · intro k fuel hb hc hfuel
    have hexit := (waitPhase1_exit config V peer k fuel 0 config.defaultTimeout hfuel
      (fun j _ h2 => hb j (by omega))).2 (by simpa using hc)
    unfold waitForRebalanceFinish
    simp only [hexit]
    simp

/-- C20 on the sample peers: the peer whose second call fails even after the
retry is given up without settling delay and health poll, the peer that
catches up at the second call is waited for. -/
theorem waitForRebalanceFinish_phase3_gate_witness :
    ((waitForRebalanceFinish exConfig exPeerDown 7 5).done = true ∧
      ¬ entersPhase3 (waitForRebalanceFinish exConfig exPeerDown 7 5).events) ∧
    NetEvent.settle ∈ (waitForRebalanceFinish exConfig exPeer 7 5).events :=
  ⟨(waitForRebalanceFinish_phase3_gate exConfig exPeerDown 7).2.1 1 5
      (by
        intro j hj
        have : j = 0 := by omega
        subst this
        exact ⟨rfl, 6, rfl, by decide⟩)
      (Or.inl (by decide)) (by decide),
   (waitForRebalanceFinish_phase3_gate exConfig exPeer 7).2.2 1 5
      (by
        intro j hj
        have : j = 0 := by omega
        subst this
        exact ⟨rfl, 6, rfl, by decide⟩)
      ⟨rfl, 7, rfl, by decide⟩ (by decide)⟩

/-! ## C21 -/

/-- C21, as stated, fails: with a default timeout of 30 s and a keepalive
timeout of 2 s, the snapshot call that runs into the deadline is retried with
a timeout of 4 s, not 60 s. -/
theorem waitPhase1_retry_timeout_example :
    (exPeerSlow.first 0).err = some CallErr.deadline ∧
    (waitForRebalanceFinish exConfig exPeerSlow 7 1).events =
      [NetEvent.smap 30000000000, NetEvent.smap 4000000000, NetEvent.settle,
       NetEvent.health 30000000000] ∧
    (4000000000 : Int) ≠ 2 * exConfig.defaultTimeout := by
  decide

/-- Every iteration of phase 1 opens with a snapshot call that uses the
timeout held in `args`. -/
theorem waitPhase1_first_call (config : Config) (V : Int) (peer : Peer) (fuel k : Nat)
    (t : Int) : ∃ rest, (waitPhase1 config V peer (fuel + 1) k t).1 = NetEvent.smap t :: rest := by
  simp only [waitPhase1]
  repeat' split
  all_goals exact ⟨_, rfl⟩

/-- Once `args.timeout` is twice the keepalive timeout, every snapshot call of
phase 1 uses that timeout. -/
theorem waitPhase1_timeout_kept (config : Config) (V : Int) (peer : Peer) (fuel : Nat) :
    ∀ (k : Nat) (u : Int),
      NetEvent.smap u ∈
        (waitPhase1 config V peer fuel k (mulInt64 config.keepaliveTimeout 2)).1 →
      u = mulInt64 config.keepaliveTimeout 2 := by
  induction fuel with
  | zero =>
    intro k u h
    simp [waitPhase1] at h
  | succ fuel ih =>
    intro k u h
    simp only [waitPhase1, ite_self] at h
    have hevs : ∀ ev ∈ (if decide ((peer.first k).err = some CallErr.deadline) = true then
        [NetEvent.smap (mulInt64 config.keepaliveTimeout 2),
         NetEvent.smap (mulInt64 config.keepaliveTimeout 2)]
        else [NetEvent.smap (mulInt64 config.keepaliveTimeout 2)]),
        ev = NetEvent.smap (mulInt64 config.keepaliveTimeout 2) := by
      intro ev hev
      split at hev <;> simp at hev <;> exact hev
    have hu : ∀ {l : List NetEvent}, (∀ ev ∈ l, ev =
        NetEvent.smap (mulInt64 config.keepaliveTimeout 2)) → NetEvent.smap u ∈ l →
        u = mulInt64 config.keepaliveTimeout 2 := by
      intro l hl hm
      have := hl _ hm
      injection this
    split at h
    · exact hu hevs h
    · split at h
      · exact hu hevs h
      · split at h
        · exact hu hevs h
        · simp only [List.mem_append, List.mem_cons] at h
          rcases h with h | h | h
          · exact hu hevs h
          · cases h
          · exact ih (k + 1) u h

/-- C21, amended. In phase 1 of `waitForRebalanceFinish`, when a snapshot call
fails with deadline-exceeded, it is retried exactly once in that iteration,
with a timeout equal to twice the keepalive timeout
(`keepaliveTimeoutDuration(config) * 2`, an `int64` product), whatever the
timeout of the failed call was.  When the retry fails as well or cannot be
decoded the function returns; when it brings a current snapshot phase 1 ends;
otherwise the loop goes on after the retry sleep with that timeout in `args`:
the next iteration opens with a call that uses it, and so does every later
snapshot call of phase 1. -/
theorem waitPhase1_deadline_retry (config : Config) (V : Int) (peer : Peer) (fuel k : Nat)
    (t : Int) (hd : (peer.first k).err = some CallErr.deadline) :
    ((peer.retry k).err ≠ none ∨ (peer.retry k).version = none →
      waitPhase1 config V peer (fuel + 1) k t =
        ([NetEvent.smap t, NetEvent.smap (mulInt64 config.keepaliveTimeout 2)],
         LoopExit.returned)) ∧
    (∀ v, (peer.retry k).err = none → (peer.retry k).version = some v → v ≥ V →
      waitPhase1 config V peer (fuel + 1) k t =
        ([NetEvent.smap t, NetEvent.smap (mulInt64 config.keepaliveTimeout 2)],
         LoopExit.broke)) ∧
    (∀ v, (peer.retry k).err = none → (peer.retry k).version = some v → v < V →
      waitPhase1 config V peer (fuel + 1) k t =
        (NetEvent.smap t :: NetEvent.smap (mulInt64 config.keepaliveTimeout 2) ::
           NetEvent.sleep config.keepaliveRetry ::
           (waitPhase1 config V peer fuel (k + 1) (mulInt64 config.keepaliveTimeout 2)).1,
         (waitPhase1 config V peer fuel (k + 1) (mulInt64 config.keepaliveTimeout 2)).2)) ∧
    (∀ fuel1 k1, ∃ rest,
      (waitPhase1 config V peer (fuel1 + 1) k1 (mulInt64 config.keepaliveTimeout 2)).1 =
        NetEvent.smap (mulInt64 config.keepaliveTimeout 2) :: rest) ∧
    (∀ fuel1 k1 u,
      NetEvent.smap u ∈
        (waitPhase1 config V peer fuel1 k1 (mulInt64 config.keepaliveTimeout 2)).1 →
      u = mulInt64 config.keepaliveTimeout 2) ∧
    (inInt64 (config.keepaliveTimeout * 2) →
      mulInt64 config.keepaliveTimeout 2 = 2 * config.keepaliveTimeout) := by
  refine ⟨?_, ?_, ?_, fun fuel1 k1 => waitPhase1_first_call config V peer fuel1 k1 _,
    fun fuel1 k1 u => waitPhase1_timeout_kept config V peer fuel1 k1 u, ?_⟩
  · intro h
    simp only [waitPhase1, hd, decide_True, if_true]
    cases herr : (peer.retry k).err with
    | some c => rfl
    | none =>
      rcases h with h | h
      · exact absurd herr h
      · simp only [h]
  · intro v herr hv hge
    simp only [waitPhase1, hd, decide_True, if_true, herr, hv, hge]
  · intro v herr hv hlt
    have hge : ¬ v ≥ V := by omega
    simp only [waitPhase1, hd, decide_True, if_true, herr, hv, hge, if_false,
      List.cons_append, List.nil_append]
  · intro hr
    unfold mulInt64
    rw [wrapInt64_of_inInt64 hr]
    ring

/-- C21, amended, on the sample peers whose first snapshot call runs into the
deadline: the retry uses 4 s, twice the keepalive timeout of 2 s, and where
the retry brings an old snapshot the call of the next iteration uses 4 s as
well. -/
theorem waitPhase1_deadline_retry_witness :
    waitPhase1 exConfig 7 exPeerSlow (0 + 1) 0 30000000000 =
      ([NetEvent.smap 30000000000, NetEvent.smap (mulInt64 exConfig.keepaliveTimeout 2)],
       LoopExit.broke) ∧
    waitPhase1 exConfig 7 exPeerSlowBehind (1 + 1) 0 30000000000 =
      (NetEvent.smap 30000000000 :: NetEvent.smap (mulInt64 exConfig.keepaliveTimeout 2) ::
         NetEvent.sleep exConfig.keepaliveRetry ::
         (waitPhase1 exConfig 7 exPeerSlowBehind 1 (0 + 1)
           (mulInt64 exConfig.keepaliveTimeout 2)).1,
       (waitPhase1 exConfig 7 exPeerSlowBehind 1 (0 + 1)
           (mulInt64 exConfig.keepaliveTimeout 2)).2) ∧
    mulInt64 exConfig.keepaliveTimeout 2 = 2 * exConfig.keepaliveTimeout :=
  ⟨(waitPhase1_deadline_retry exConfig 7 exPeerSlow 0 0 30000000000 rfl).2.1 7 rfl rfl
      (by decide),
   (waitPhase1_deadline_retry exConfig 7 exPeerSlowBehind 1 0 30000000000 rfl).2.2.1 6 rfl rfl
      (by decide),
   (waitPhase1_deadline_retry exConfig 7 exPeerSlow 0 0 30000000000 rfl).2.2.2.2.2
      (by unfold inInt64; decide)⟩

/-! ## C22 -/

/-- C22. For every incoming frame, `recvRebalanceObj` adds exactly 1 to the
counter `stats.RxCount` (`rx.n`) and `hdr.ObjAttrs.Size` to the counter
`stats.RxSize` (`rx.size`), in one `AddMany`, when the incoming
error is nil and both the init of the receive context and the receive succeed,
and makes no stats update in every other case. -/
theorem recvRebalanceObj_stats (hdr : Header) (err initErr recvErr : Option GoError) :
    (recvRebalanceObj hdr err initErr recvErr).stats =
      if err = none ∧ initErr = none ∧ recvErr = none then
        [Event.statsAdd RxCount 1, Event.statsAdd RxSize hdr.ObjAttrs.Size]
      else [] := by
  unfold recvRebalanceObj
  cases err <;> cases initErr <;> cases recvErr <;> simp

/-! ## C23 -/

/-- C23, as stated, fails: a bucket without provider prints as its name alone,
without the separator that the form `Provider ++ "://" ++ Name` would have. -/
theorem bck_String_no_provider_example :
    exBckPlain.Ns.IsGlobal = true ∧
    exBckPlain.String = "photos" ∧
    exBckPlain.String ≠ exBckPlain.Provider ++ "://" ++ exBckPlain.Name := by
  decide

/-- C23, amended. For every bucket `b` with a non-empty provider, `b.String()`
has the display form `provider://[namespace/]name`: it is
`Provider ++ "://" ++ Name` when the namespace is global and
`Provider ++ "://" ++ Ns.String() ++ "/" ++ Name` otherwise; with an empty
provider the leading `provider://` is left out.  For every namespace,
`Ns.String()` is `"@" ++ UUID` (when the UUID is non-empty) followed by
`"#" ++ Name` (when the name is non-empty). -/
theorem bck_String_form (b : Bck) :
    (b.Provider ≠ "" →
      b.String = if b.Ns.IsGlobal then b.Provider ++ "://" ++ b.Name
                 else b.Provider ++ "://" ++ b.Ns.String ++ "/" ++ b.Name) ∧
    (b.Provider = "" →
      b.String = if b.Ns.IsGlobal then b.Name else b.Ns.String ++ "/" ++ b.Name) ∧
    b.Ns.String =
      (if b.Ns.UUID ≠ "" then "@" ++ b.Ns.UUID else "") ++
        (if b.Ns.Name ≠ "" then "#" ++ b.Ns.Name else "") := by
  refine ⟨?_, ?_, ?_⟩
  · intro hp
    unfold Bck.String
    simp [hp, BckProviderSeparator]
  · intro hp
    unfold Bck.String
    simp [hp]
  · rcases b with ⟨name, prov, ⟨u, n⟩⟩
    unfold Ns.String Ns.IsGlobal NsGlobal
    by_cases hu : u = "" <;> by_cases hn : n = "" <;>
      simp [hu, hn, NsUUIDPrefix, NsNamePrefix] <;> rfl

/-- C23, amended, on the sample bucket of a remote cluster. -/
theorem bck_String_form_witness :
    exBckRemote.String = "ais://@cluster1#team/photos" ∧
    exBckPlain.String = "photos" :=
  ⟨((bck_String_form exBckRemote).1 (by decide)).trans (by decide),
   ((bck_String_form exBckPlain).2.1 (by decide)).trans (by decide)⟩

/-! ## C24 -/

/-- The first separator of `l ++ '#' :: r` stands right behind `l` when `l`
has none. -/
theorem indexOf_sep_append (l r : List Char) (h : NsNamePrefix ∉ l) :
    (l ++ NsNamePrefix :: r).indexOf NsNamePrefix = l.length := by
  induction l with
  | nil => simp [List.indexOf_cons]
  | cons c cs ih =>
    have hc : c ≠ NsNamePrefix := fun e => h (by simp [e])
    have hcs : NsNamePrefix ∉ cs := fun e => h (by simp [e])
    simp [List.indexOf_cons, hc, ih hcs]

/-- Parsing `'@' :: u ++ '#' :: m` gives back `u` and `m` when `u` has no
separator. -/
theorem parseNsUname_full (u m : List Char) (h : NsNamePrefix ∉ u) :
    ParseNsUname (String.mk (NsUUIDPrefix :: (u ++ NsNamePrefix :: m))) =
      ⟨String.mk u, String.mk m⟩ := by
  unfold ParseNsUname
  simp only [List.head?_cons, List.length_cons, gt_iff_lt, Nat.zero_lt_succ, and_self,
    if_true, List.drop_succ_cons, List.drop_zero, indexOf_sep_append u m h,
    List.length_append]
  rw [if_neg (by omega)]
  simp

/-- C24. For every namespace `n` whose UUID does not contain `#` (in
particular every `n` whose components contain only letters, digits, `_` and
`-`), `n.Uname()` is `"@" ++ UUID ++ "#" ++ Name`, and `ParseNsUname` gives
back `n` both from `n.Uname()` and from `n.String()`. -/
theorem parseNsUname_roundtrip (n : Ns) (h : '#' ∉ n.UUID.data) :
    n.Uname = "@" ++ n.UUID ++ "#" ++ n.Name ∧
    ParseNsUname n.Uname = n ∧
    ParseNsUname n.String = n := by
  rcases n with ⟨⟨u⟩, ⟨m⟩⟩
  have h1 : NsNamePrefix ∉ u := h
  refine ⟨rfl, ?_, ?_⟩
  · have e : (Ns.mk ⟨u⟩ ⟨m⟩).Uname = String.mk (NsUUIDPrefix :: (u ++ NsNamePrefix :: m)) := by
      apply String.ext
      simp [Ns.Uname, String.data_append, String.singleton]
    rw [e, parseNsUname_full u m h1]
  · by_cases hu : u = [] <;> by_cases hm : m = []
    · subst hu; subst hm; decide
    · subst hu
      have e : (Ns.mk ⟨[]⟩ ⟨m⟩).String = String.mk (NsNamePrefix :: m) := by
        apply String.ext
        have hm1 : (⟨m⟩ : String) ≠ "" := fun e => hm (congrArg String.data e)
        have hg : (Ns.mk ⟨[]⟩ ⟨m⟩).IsGlobal = false := by
          simp [Ns.IsGlobal, NsGlobal, hm1]
        simp [Ns.String, hg, hm1, String.data_append, String.singleton]
      rw [e]
      unfold ParseNsUname
      simp [NsNamePrefix, NsUUIDPrefix, List.indexOf_cons]
    · subst hm
      have e : (Ns.mk ⟨u⟩ ⟨[]⟩).String = String.mk (NsUUIDPrefix :: u) := by
        apply String.ext
        have hu1 : (⟨u⟩ : String) ≠ "" := fun e => hu (congrArg String.data e)
        have hg : (Ns.mk ⟨u⟩ ⟨[]⟩).IsGlobal = false := by
          simp [Ns.IsGlobal, NsGlobal, hu1]
        simp [Ns.String, hg, hu1, String.data_append, String.singleton]
      rw [e]
      unfold ParseNsUname
      have hi : u.indexOf NsNamePrefix = u.length := List.indexOf_eq_length.mpr h1
      simp [hi]
    · have e : (Ns.mk ⟨u⟩ ⟨m⟩).String = String.mk (NsUUIDPrefix :: (u ++ NsNamePrefix :: m)) := by
        apply String.ext
        have hu1 : (⟨u⟩ : String) ≠ "" := fun e => hu (congrArg String.data e)
        have hm1 : (⟨m⟩ : String) ≠ "" := fun e => hm (congrArg String.data e)
        have hg : (Ns.mk ⟨u⟩ ⟨m⟩).IsGlobal = false := by
          simp [Ns.IsGlobal, NsGlobal, hu1]
        simp [Ns.String, hg, hu1, hm1, String.data_append, String.singleton]
      rw [e, parseNsUname_full u m h1]

/-- C24 on the namespace `@cluster1#team`. -/
theorem parseNsUname_roundtrip_witness :
    exBckRemote.Ns.Uname = "@cluster1#team" ∧
    ParseNsUname exBckRemote.Ns.Uname = exBckRemote.Ns ∧
    ParseNsUname exBckRemote.Ns.String = exBckRemote.Ns :=
  parseNsUname_roundtrip exBckRemote.Ns (by decide)

/-! ## C25 -/

/-- Splitting never gives the empty list of segments. -/
theorem stringsSplit_ne_nil (sep : Char) (s : List Char) : stringsSplit sep s ≠ [] := by
  induction s with
  | nil => simp [stringsSplit]
  | cons c cs ih =>
    unfold stringsSplit
    split
    · simp
    · split <;> simp

/-- A segment free of the separator, followed by the separator, is split off
as it stands. -/
theorem stringsSplit_append (sep : Char) (a b : List Char) (h : sep ∉ a) :
    stringsSplit sep (a ++ sep :: b) = a :: stringsSplit sep b := by
  induction a with
  | nil => simp [stringsSplit]
  | cons c cs ih =>
    have hc : c ≠ sep := fun e => h (by simp [e])
    have hcs : sep ∉ cs := fun e => h (by simp [e])
    rw [List.cons_append, stringsSplit, if_neg hc, ih hcs]

/-- One step of the replacement. -/
theorem replaceAllAux_succ (old new : List Char) (f : Nat) (s : List Char) :
    replaceAllAux old new (f + 1) s =
      if old.isPrefixOf s then new ++ replaceAllAux old new f (s.drop old.length)
      else match s with
        | [] => []
        | c :: cs => c :: replaceAllAux old new f cs := by
  cases s <;> rfl

/-- The replacement walks over characters that cannot start a match. -/
theorem replaceAllAux_skip (c0 : Char) (o new s : List Char) (f : Nat) (a : List Char)
    (h : c0 ∉ a) :
    replaceAllAux (c0 :: o) new (a.length + f) (a ++ s) =
      a ++ replaceAllAux (c0 :: o) new f s := by
  induction a with
  | nil => simp
  | cons c cs ih =>
    have hc : c0 ≠ c := fun e => h (by simp [e])
    have hcs : c0 ∉ cs := fun e => h (by simp [e])
    have hf : (c :: cs).length + f = (cs.length + f) + 1 := by simp; omega
    rw [hf, List.cons_append, replaceAllAux_succ]
    have hp : (c0 :: o).isPrefixOf (c :: (cs ++ s)) = false := by
      simp [List.isPrefixOf, hc]
    simp only [hp, Bool.false_eq_true, if_false, ih hcs, List.cons_append]

/-- A match at the head is replaced. -/
theorem replaceAllAux_hit (old new s : List Char) (f : Nat) :
    replaceAllAux old new (f + 1) (old ++ s) = new ++ replaceAllAux old new f s := by
  rw [replaceAllAux_succ]
  have hp : old.isPrefixOf (old ++ s) = true := by
    rw [List.isPrefixOf_iff_prefix]
    exact List.prefix_append _ _
  simp only [hp, if_true, List.drop_left]

/-- Without a match nothing is replaced. -/
theorem replaceAllAux_miss (old new : List Char) (f : Nat) (s : List Char)
    (h : ¬ old <:+: s) : replaceAllAux old new f s = s := by
  induction f generalizing s with
  | zero => rfl
  | succ f ih =>
    rw [replaceAllAux_succ]
    have hp : old.isPrefixOf s = false := by
      cases hb : old.isPrefixOf s with
      | false => rfl
      | true => exact absurd (List.isPrefixOf_iff_prefix.mp hb).isInfix h
    simp only [hp, Bool.false_eq_true, if_false]
    cases s with
    | nil => rfl
    | cons c cs =>
      have hcs : ¬ old <:+: cs := fun e => h (List.infix_cons e)
      simp only [ih cs hcs]

/-- A single match, preceded by characters that cannot start one, is replaced
and the rest is left as it stands. -/
theorem stringsReplaceAll_once (c0 : Char) (a o new s : List Char) (ha : c0 ∉ a)
    (hs : ¬ (c0 :: o) <:+: s) :
    stringsReplaceAll (a ++ (c0 :: o) ++ s) (c0 :: o) new = a ++ new ++ s := by
  unfold stringsReplaceAll
  rw [if_neg (List.cons_ne_nil _ _)]
  have hf : (a ++ (c0 :: o) ++ s).length + 1 = a.length + (((c0 :: o).length + s.length) + 1) := by
    simp only [List.length_append]; omega
  rw [hf, List.append_assoc, replaceAllAux_skip c0 o new _ _ a ha, replaceAllAux_hit,
    replaceAllAux_miss _ _ _ _ hs, List.append_assoc]

/-- C25 at the failing input: for the tracker `disk.sda.x.sda.y`, of the form
`disk.<disk-name>.<metric-name>` with the disk `sda` and the metric `x.sda.y`,
`extractPromDiskMetricName` returns the metric name `disk.x.y` where its doc
comment promises `disk.x.sda.y`: `strings.ReplaceAll` removes every occurrence
of `.sda.`, not only the one behind the prefix. -/
theorem extractPromDiskMetricName_repeat_example :
    "disk.sda.x.sda.y" = "disk." ++ "sda" ++ "." ++ "x.sda.y" ∧
    "sda" ≠ "" ∧ '.' ∉ "sda".data ∧
    extractPromDiskMetricName "disk.sda.x.sda.y" = some ("sda", "disk.x.y") ∧
    extractPromDiskMetricName "disk.sda.x.sda.y" ≠ some ("sda", "disk." ++ "x.sda.y") := by
  decide

/-- Where the disk name is free of `.` and the metric name does not contain
`.<disk-name>.`, `extractPromDiskMetricName` returns what its doc comment
promises for `disk.<disk-name>.<metric-name>`: the disk name and
`disk.<metric-name>`. -/
theorem extractPromDiskMetricName_form (disk metric : String) (hd : '.' ∉ disk.data)
    (hm : ¬ ('.' :: disk.data ++ ['.']) <:+: metric.data) :
    extractPromDiskMetricName ("disk." ++ disk ++ "." ++ metric) =
      some (disk, "disk." ++ metric) := by
  rcases disk with ⟨dk⟩
  rcases metric with ⟨mt⟩
  dsimp only at hd hm
  have hname : ("disk." ++ (⟨dk⟩ : String) ++ "." ++ ⟨mt⟩ : String).data =
      ['d', 'i', 's', 'k'] ++ ('.' :: (dk ++ ['.'])) ++ mt := by
    simp [String.data_append]
  have hname2 : ("disk." ++ (⟨dk⟩ : String) ++ "." ++ ⟨mt⟩ : String).data =
      ['d', 'i', 's', 'k'] ++ '.' :: (dk ++ '.' :: mt) := by
    rw [hname]; simp
  have hsplit : (stringsSplit '.' ("disk." ++ (⟨dk⟩ : String) ++ "." ++ ⟨mt⟩ : String).data)[1]?
      = some dk := by
    rw [hname2, stringsSplit_append '.' _ _ (by decide), stringsSplit_append '.' _ _ hd]
    simp
  have hrep : stringsReplaceAll ("disk." ++ (⟨dk⟩ : String) ++ "." ++ ⟨mt⟩ : String).data
      ('.' :: dk ++ ['.']) ['.'] = ['d', 'i', 's', 'k'] ++ ['.'] ++ mt := by
    rw [hname]
    exact stringsReplaceAll_once '.' ['d', 'i', 's', 'k'] (dk ++ ['.']) ['.'] mt (by decide) hm
  unfold extractPromDiskMetricName
  rw [hsplit]
  simp only [hrep]
  congr 2

/-- The tracker `disk.sda.read.bps` gives the disk `sda` and the metric
`disk.read.bps`. -/
theorem extractPromDiskMetricName_form_witness :
    extractPromDiskMetricName ("disk." ++ "sda" ++ "." ++ "read.bps") =
      some ("sda", "disk." ++ "read.bps") :=
  extractPromDiskMetricName_form "sda" "read.bps" (by decide) (by decide)

/-! ## C26 -/

/-- C26. `runMpathTest` asks the dispatcher to disable the mountpath if and
only if the mountpath is inaccessible or the number of read errors or the
number of write errors reaches the configured `ErrorLimit`; it does so at most
once and for the tested mountpath; and `isTestPassed` returns a non-nil error
exactly when it returns `passed = false`. -/
theorem runMpathTest_disables_iff (errorLimit : Int) (mpath : String) (readErrs writeErrs : Int)
    (pathExists : Bool) :
    (runMpathTest errorLimit mpath readErrs writeErrs pathExists ≠ [] ↔
      (pathExists = false ∨ readErrs ≥ errorLimit ∨ writeErrs ≥ errorLimit)) ∧
    (∀ call ∈ runMpathTest errorLimit mpath readErrs writeErrs pathExists, call.1 = mpath) ∧
    (runMpathTest errorLimit mpath readErrs writeErrs pathExists).length ≤ 1 ∧
    ((isTestPassed errorLimit readErrs writeErrs pathExists).2 ≠ none ↔
      (isTestPassed errorLimit readErrs writeErrs pathExists).1 = false) := by
  unfold runMpathTest isTestPassed
  cases pathExists
  · simp
  · by_cases hr : readErrs < errorLimit <;> by_cases hw : writeErrs < errorLimit <;>
      simp [hr, hw] <;> omega

/-! ## C27 -/

/-- One round of the paged loop with a limit and no page cap, on a page that
is fetched and printed without error. -/
theorem listObjectsPaged_step (limit : Int) (hl : 0 < limit) (p : ObjListPage)
    (rest : List ObjListPage) (pc toShow : Int) (he : p.err = none) (hp : p.printErr = none) :
    listObjectsPaged limit 0 (p :: rest) pc toShow =
      if p.token = "" ∨ toShow - (p.Entries.length : Int) ≤ 0 then
        ⟨true, none, [p.Entries.take toShow.toNat], 1⟩
      else
        ⟨(listObjectsPaged limit 0 rest (pc + 1) (toShow - (p.Entries.length : Int))).returned,
         (listObjectsPaged limit 0 rest (pc + 1) (toShow - (p.Entries.length : Int))).err,
         p.Entries.take toShow.toNat ::
           (listObjectsPaged limit 0 rest (pc + 1) (toShow - (p.Entries.length : Int))).printed,
         (listObjectsPaged limit 0 rest (pc + 1) (toShow - (p.Entries.length : Int))).fetched
           + 1⟩ := by
  have hprint : (if limit > 0 ∧ toShow < (p.Entries.length : Int)
      then p.Entries.take toShow.toNat else p.Entries) = p.Entries.take toShow.toNat := by
    split
    · rfl
    · rename_i hc
      rw [List.take_of_length_le]
      have : (p.Entries.length : Int) ≤ toShow := by
        by_contra hcon
        exact hc ⟨hl, by omega⟩
      omega
  have hmax : ¬ ((0 : Int) > 0 ∧ pc + 1 ≥ 0) := by omega
  have hlim : limit > 0 := hl
  conv_lhs => unfold listObjectsPaged
  simp only [he, hp]
  rw [hprint]
  by_cases ht : p.token = ""
  · simp only [ht, if_true, true_or]
  · simp only [ht, if_false, false_or, hmax, hlim, if_true, true_and]

/-- The paged loop with a limit and no page cap, from any point where entries
remain to be shown. -/
theorem listObjectsPaged_take (limit : Int) (hl : 0 < limit) (last : ObjListPage)
    (hlast : last.token = "") (init : List ObjListPage) :
    ∀ (pageCounter toShow : Int), 0 < toShow →
      (∀ p ∈ init, p.token ≠ "") →
      (∀ p ∈ init ++ [last], p.err = none ∧ p.printErr = none) →
      (listObjectsPaged limit 0 (init ++ [last]) pageCounter toShow).returned = true ∧
      (listObjectsPaged limit 0 (init ++ [last]) pageCounter toShow).err = none ∧
      (listObjectsPaged limit 0 (init ++ [last]) pageCounter toShow).printed.flatten =
        (allEntries (init ++ [last])).take toShow.toNat ∧
      (∀ j, j < (listObjectsPaged limit 0 (init ++ [last]) pageCounter toShow).fetched →
        j < (init ++ [last]).length ∧
        ((allEntries ((init ++ [last]).take j)).length : Int) < toShow) := by
  induction init with
  | nil =>
    intro pc toShow hts _ hok
    have h1 := hok last (by simp)
    rw [List.nil_append, listObjectsPaged_step limit hl last [] pc toShow h1.1 h1.2,
      if_pos (Or.inl hlast)]
    refine ⟨rfl, rfl, by simp [allEntries], ?_⟩
    intro j hj
    have hj0 : j = 0 := by
      have : j < 1 := hj
      omega
    subst hj0
    simp [allEntries, hts]
  | cons p init ih =>
    intro pc toShow hts htok hok
    have h1 := hok p (by simp)
    have htp : p.token ≠ "" := htok p (by simp)
    rw [List.cons_append, listObjectsPaged_step limit hl p (init ++ [last]) pc toShow h1.1 h1.2]
    by_cases hdone : toShow - (p.Entries.length : Int) ≤ 0
    · rw [if_pos (Or.inr hdone)]
      refine ⟨rfl, rfl, ?_, ?_⟩
      · simp only [List.flatten_cons, List.flatten_nil, List.append_nil, allEntries,
          List.flatMap_cons]
        rw [List.take_append_of_le_length (by omega)]
      · intro j hj
        have hj0 : j = 0 := by
          have : j < 1 := hj
          omega
        subst hj0
        simp [allEntries, hts]
    · rw [if_neg (by simp [htp, hdone])]
      have hts1 : 0 < toShow - (p.Entries.length : Int) := by omega
      obtain ⟨r1, r2, r3, r4⟩ := ih (pc + 1) (toShow - (p.Entries.length : Int)) hts1
        (fun q hq => htok q (by simp [hq]))
        (fun q hq => hok q (by simp only [List.cons_append, List.mem_cons]; exact Or.inr hq))
      refine ⟨r1, r2, ?_, ?_⟩
      · simp only [List.flatten_cons, r3, allEntries, List.flatMap_cons]
        have hn : toShow.toNat = p.Entries.length +
            (toShow - (p.Entries.length : Int)).toNat := by omega
        rw [hn, List.take_append, List.take_of_length_le (by omega)]
      · intro j hj
        cases j with
        | zero => simp [allEntries, hts]
        | succ j =>
          have hj1 : j < (listObjectsPaged limit 0 (init ++ [last]) (pc + 1)
              (toShow - (p.Entries.length : Int))).fetched := Nat.lt_of_succ_lt_succ hj
          have := r4 j hj1
          simp only [List.take_succ_cons, allEntries, List.flatMap_cons, List.length_append,
            List.length_cons] at this ⊢
          constructor
          · omega
          · push_cast
            omega

/-- C27. In `listObjects` in paged mode with `limit > 0` and no page cap
(`maxPages = 0`), for every finite sequence of pages that ends with an empty
continuation token (fetched and printed without error), the loop returns, the
entries handed to printing are the first `limit` entries of those pages, so
that their number is the minimum of `limit` and the total number of entries,
and every page that is fetched is fetched while fewer than `limit` entries
have been shown. -/
theorem listObjectsPaged_limit (limit : Int) (hl : 0 < limit) (init : List ObjListPage)
    (last : ObjListPage) (hinit : ∀ p ∈ init, p.token ≠ "") (hlast : last.token = "")
    (hok : ∀ p ∈ init ++ [last], p.err = none ∧ p.printErr = none) :
    (listObjectsPaged limit 0 (init ++ [last]) 0 limit).returned = true ∧
    (listObjectsPaged limit 0 (init ++ [last]) 0 limit).err = none ∧
    (listObjectsPaged limit 0 (init ++ [last]) 0 limit).printed.flatten =
      (allEntries (init ++ [last])).take limit.toNat ∧
    (((listObjectsPaged limit 0 (init ++ [last]) 0 limit).printed.flatten.length : Nat) : Int) =
      min limit ((allEntries (init ++ [last])).length : Int) ∧
    (∀ j, j < (listObjectsPaged limit 0 (init ++ [last]) 0 limit).fetched →
      j < (init ++ [last]).length ∧
      ((allEntries ((init ++ [last]).take j)).length : Int) < limit) := by
  obtain ⟨r1, r2, r3, r4⟩ := listObjectsPaged_take limit hl last hlast init 0 limit hl hinit hok
  refine ⟨r1, r2, r3, ?_, r4⟩
  rw [r3, List.length_take]
  omega

/-- C27 on the sample listing of three and four entries with a limit of
five: both pages are fetched and five entries are printed. -/
theorem listObjectsPaged_limit_witness :
    (listObjectsPaged 5 0 exPages 0 5).printed = [["a", "b", "c"], ["d", "e"]] ∧
    (((listObjectsPaged 5 0 exPages 0 5).printed.flatten.length : Nat) : Int) =
      min 5 ((allEntries exPages).length : Int) :=
  ⟨by decide,
   (listObjectsPaged_limit 5 (by decide) [⟨none, ["a", "b", "c"], "t1", none⟩]
      ⟨none, ["d", "e", "f", "g"], "", none⟩ (by decide) rfl (by decide)).2.2.2.1⟩

/-! ## C28 -/

/-- Among targets with distinct IDs, one of which is `self`, all but one are
peers. -/
theorem peers_length_of_mem (self : String) (l : List Snode)
    (hnd : (l.map Snode.DaemonID).Nodup) (hmem : self ∈ l.map Snode.DaemonID) :
    (l.filter (fun si => si.DaemonID ≠ self)).length + 1 = l.length := by
  induction l with
  | nil => simp at hmem
  | cons a l ih =>
    rw [List.map_cons, List.nodup_cons] at hnd
    by_cases ha : a.DaemonID = self
    · have hnot : self ∉ l.map Snode.DaemonID := ha ▸ hnd.1
      have hall : l.filter (fun si => si.DaemonID ≠ self) = l := by
        rw [List.filter_eq_self]
        intro si hsi
        have : si.DaemonID ≠ self := fun e => hnot (e ▸ List.mem_map_of_mem _ hsi)
        simpa using this
      rw [List.filter_cons, if_neg (by simp [ha]), hall, List.length_cons]
    · have hmem1 : self ∈ l.map Snode.DaemonID := by
        rw [List.map_cons, List.mem_cons] at hmem
        rcases hmem with h | h
        · exact absurd h.symm ha
        · exact h
      rw [List.filter_cons, if_pos (by simp [ha]), List.length_cons, ih hnd.2 hmem1,
        List.length_cons]

/-- Among targets none of which is `self`, all are peers. -/
theorem peers_length_of_not_mem (self : String) (l : List Snode)
    (hmem : self ∉ l.map Snode.DaemonID) :
    l.filter (fun si => si.DaemonID ≠ self) = l := by
  rw [List.filter_eq_self]
  intro si hsi
  have : si.DaemonID ≠ self := fun e => hmem (e ▸ List.mem_map_of_mem _ hsi)
  simpa using this

/-- The barrier at the end of `runGlobalReb` returns when the wait of
`pollRebalancingDone` does. -/
theorem globalBarrier_status (env : GlobalEnv) (smap : smapX) (t : String) (w : World)
    (hp : (pollRebalancingDone env.self smap).1 = Status.returned) :
    (globalBarrier env smap t w).status = Status.returned := by
  unfold globalBarrier
  by_cases h : t = env.self
  · simp only [h, if_true, hp]
  · simp only [h, if_false]

/-- With the target itself in the ID-keyed map no waiter is in excess; with
the target missing from a non-empty map one waiter is, while the wait of
`pollRebalancingDone` returns. -/
theorem surplusWaiters_cases (self : String) (smap : smapX) :
    (smap.keyedByID → self ∈ smap.targetIDs → surplusWaiters self smap = 0) ∧
    (self ∉ smap.targetIDs → smap.Tmap ≠ [] →
      surplusWaiters self smap = 1 ∧ (pollRebalancingDone self smap).1 = Status.returned) := by
  constructor
  · intro hkey hmem
    have hlen := peers_length_of_mem self smap.Tmap hkey hmem
    unfold surplusWaiters
    omega
  · intro hmem hne
    have hall := peers_length_of_not_mem self smap.Tmap hmem
    have hpos : 0 < smap.Tmap.length := List.length_pos.mpr hne
    constructor
    · unfold surplusWaiters
      rw [hall]
      omega
    · unfold pollRebalancingDone
      simp only [hall]
      rw [if_neg (by omega), if_neg (by omega)]

/-- C28. For every snapshot whose target map (keyed by daemon ID) contains the
target itself, the number of peers probed by `runGlobalReb`, and so the
maximum number of failure messages, equals `len(Tmap) - 1`, the capacity of
the cancel channel, so that no probe result can block and `runGlobalReb`
returns; likewise `pollRebalancingDone` starts exactly `len(Tmap) - 1`
waiters, matching its wait-group count, and returns.  Without that
precondition the equality fails: the peers are `len(Tmap)` many. -/
theorem peers_match_capacity (env : GlobalEnv) (smap : smapX) (hkey : smap.keyedByID) :
    (env.self ∈ smap.targetIDs →
      ((smap.peersOf env.self).length : Int) = smap.CountTargets - 1 ∧
      (∀ (d : Deps) (w : World) (t : String),
        (runGlobalReb d env w smap t).status = Status.returned) ∧
      pollRebalancingDone env.self smap =
        (Status.returned,
         (smap.peersOf env.self).map (fun si => Event.waitFinish si.DaemonID smap.Version) ++
           [Event.pollDone]) ∧
      ((((smap.peersOf env.self).map
          (fun si => Event.waitFinish si.DaemonID smap.Version)).length : Nat) : Int) =
        (smap.Tmap.length : Int) - 1) ∧
    (env.self ∉ smap.targetIDs →
      ((smap.peersOf env.self).length : Int) = smap.CountTargets ∧
      ((smap.peersOf env.self).length : Int) ≠ smap.CountTargets - 1) := by
  constructor
  · intro hmem
    have hlen := peers_length_of_mem env.self smap.Tmap hkey hmem
    have hlenI : ((List.filter (fun si => decide (si.DaemonID ≠ env.self)) smap.Tmap).length : Int)
        = (smap.Tmap.length : Int) - 1 := by omega
    have hpoll : pollRebalancingDone env.self smap =
        (Status.returned,
         (smap.peersOf env.self).map (fun si => Event.waitFinish si.DaemonID smap.Version) ++
           [Event.pollDone]) := by
      unfold pollRebalancingDone smapX.peersOf
      simp only [hlenI]
      rw [if_neg (by omega), if_neg (by omega)]
    refine ⟨hlenI, ?_, hpoll, ?_⟩
    · intro d w t
      unfold runGlobalReb
      simp only [smapX.CountTargets]
      rw [if_neg (by omega)]
      have hle : (List.filter (fun si => !env.pingTarget si)
          (List.filter (fun si => decide (si.DaemonID ≠ env.self)) smap.Tmap)).length ≤
          (List.filter (fun si => decide (si.DaemonID ≠ env.self)) smap.Tmap).length :=
        List.length_filter_le _ _
      rw [if_neg (by omega)]
      split
      · rfl
      · split
        · rfl
        · exact globalBarrier_status env smap t _ (by rw [hpoll])
    · rw [List.length_map]
      exact hlenI
  · intro hmem
    have hall := peers_length_of_not_mem env.self smap.Tmap hmem
    unfold smapX.peersOf smapX.CountTargets
    rw [hall]
    constructor
    · rfl
    · omega

/-- C28 on the sample snapshot of the targets A and B, seen from A. -/
theorem peers_match_capacity_witness :
    ((exSmap.peersOf exEnv.self).length : Int) = exSmap.CountTargets - 1 ∧
    (runGlobalReb exDeps exEnv exWorld exSmap "A").status = Status.returned ∧
    ((exSmapB.peersOf exEnv.self).length : Int) ≠ exSmapB.CountTargets - 1 :=
  ⟨((peers_match_capacity exEnv exSmap (by unfold smapX.keyedByID; decide)).1 (by decide)).1,
   ((peers_match_capacity exEnv exSmap (by unfold smapX.keyedByID; decide)).1 (by decide)).2.1 exDeps exWorld "A",
   ((peers_match_capacity exEnv exSmapB (by unfold smapX.keyedByID; decide)).2 (by decide)).2⟩

/-! ## C29 -/

/-- A value xored with a right shift of itself determines the value. -/
theorem xorShiftRight_inj (k : Nat) (hk : 0 < k) (x y : Nat) (hx : x < 2 ^ 64)
    (hy : y < 2 ^ 64) (h : x ^^^ (x >>> k) = y ^^^ (y >>> k)) : x = y := by
  have key : ∀ d i, 64 ≤ i + d → x.testBit i = y.testBit i := by
    intro d
    induction d with
    | zero =>
      intro i hi
      have hp : 2 ^ 64 ≤ 2 ^ i := Nat.pow_le_pow_right (by norm_num) (by omega)
      rw [Nat.testBit_eq_false_of_lt (lt_of_lt_of_le hx hp),
        Nat.testBit_eq_false_of_lt (lt_of_lt_of_le hy hp)]
    | succ d ih =>
      intro i hi
      have h1 := congrArg (fun z => z.testBit i) h
      simp only [Nat.testBit_xor, Nat.testBit_shiftRight] at h1
      rw [ih (k + i) (by omega)] at h1
      revert h1
      cases x.testBit i <;> cases y.testBit i <;> cases y.testBit (k + i) <;> simp
  exact Nat.eq_of_testBit_eq (fun i => key 64 i (by omega))

/-- A value xored with a left shift of itself, cut to 64 bits, determines the
value. -/
theorem xorShiftLeft_inj (k : Nat) (hk : 0 < k) (x y : Nat)
    (h : x ^^^ ((x <<< k) % 2 ^ 64) = y ^^^ ((y <<< k) % 2 ^ 64)) : x = y := by
  apply Nat.eq_of_testBit_eq
  intro i
  induction i using Nat.strong_induction_on with
  | _ i ih =>
    have h1 := congrArg (fun z => z.testBit i) h
    simp only [Nat.testBit_xor, Nat.testBit_mod_two_pow, Nat.testBit_shiftLeft] at h1
    by_cases hik : k ≤ i
    · rw [ih (i - k) (by omega)] at h1
      revert h1
      cases x.testBit i <;> cases y.testBit i <;> cases y.testBit (i - k) <;>
        cases decide (i < 64) <;> cases decide (i ≥ k) <;> simp
    · have hd : decide (i ≥ k) = false := by simpa using hik
      simpa [hd] using h1

/-- Multiplication by the constant of `xorshift64` is undone by
multiplication by its inverse modulo `2 ^ 64`. -/
theorem xorshiftMul_inverse (x : Nat) (hx : x < 2 ^ 64) :
    (xorshiftMul x * 6415128727920758069) % 2 ^ 64 = x := by
  unfold xorshiftMul
  rw [Nat.mod_mul_mod, Nat.mul_assoc, Nat.mul_mod]
  have hc : (2685821657736338717 * 6415128727920758069) % 2 ^ 64 = 1 := by norm_num
  rw [hc, Nat.mul_one, Nat.mod_mod, Nat.mod_eq_of_lt hx]

/-- A one-to-one map of the 64-bit values into themselves is onto. -/
theorem onto_of_one_to_one (f : Nat → Nat) (hb : ∀ x, x < 2 ^ 64 → f x < 2 ^ 64)
    (hi : ∀ x y, x < 2 ^ 64 → y < 2 ^ 64 → f x = f y → x = y) : invertibleOn64 f := by
  refine ⟨hb, hi, ?_⟩
  intro z hz
  have hinj : Function.Injective (fun a : Fin (2 ^ 64) => (⟨f a.1, hb a.1 a.2⟩ : Fin (2 ^ 64))) := by
    intro a b hab
    exact Fin.ext (hi a.1 b.1 a.2 b.2 (congrArg Fin.val hab))
  obtain ⟨a, ha⟩ := Finite.surjective_of_injective hinj ⟨z, hz⟩
  exact ⟨a.1, a.2, congrArg Fin.val ha⟩

/-- A right shift does not leave the 64-bit values. -/
theorem shiftRight_lt (k x : Nat) (hx : x < 2 ^ 64) : x >>> k < 2 ^ 64 := by
  rw [Nat.shiftRight_eq_div_pow]
  exact lt_of_le_of_lt (Nat.div_le_self _ _) hx

/-- C29. `xorshift64` is injective on 64-bit unsigned integers: it is the
composition of its three xor-shift steps and of the final multiplication by
the odd constant 2685821657736338717 modulo `2 ^ 64`, and each of the four is
invertible on the 64-bit values (one-to-one and onto), as is `xorshift64`
itself. -/
theorem xorshift64_injective :
    (∀ x, xorshift64 x = xorshiftMul (xorshiftStepC (xorshiftStepB (xorshiftStepA x)))) ∧
    invertibleOn64 xorshiftStepA ∧ invertibleOn64 xorshiftStepB ∧
    invertibleOn64 xorshiftStepC ∧ invertibleOn64 xorshiftMul ∧
    invertibleOn64 xorshift64 ∧
    (∀ x y, x < 2 ^ 64 → y < 2 ^ 64 → x ≠ y → xorshift64 x ≠ xorshift64 y) := by
  have hA : invertibleOn64 xorshiftStepA :=
    onto_of_one_to_one _ (fun x hx => Nat.xor_lt_two_pow hx (shiftRight_lt 12 x hx))
      (fun x y hx hy h => xorShiftRight_inj 12 (by norm_num) x y hx hy h)
  have hB : invertibleOn64 xorshiftStepB :=
    onto_of_one_to_one _ (fun x hx => Nat.xor_lt_two_pow hx (Nat.mod_lt _ (by norm_num)))
      (fun x y _ _ h => xorShiftLeft_inj 25 (by norm_num) x y h)
  have hC : invertibleOn64 xorshiftStepC :=
    onto_of_one_to_one _ (fun x hx => Nat.xor_lt_two_pow hx (shiftRight_lt 27 x hx))
      (fun x y hx hy h => xorShiftRight_inj 27 (by norm_num) x y hx hy h)
  have hM : invertibleOn64 xorshiftMul :=
    onto_of_one_to_one _ (fun x _ => Nat.mod_lt _ (by norm_num))
      (fun x y hx hy h => by
        rw [← xorshiftMul_inverse x hx, ← xorshiftMul_inverse y hy, h])
  have hcomp : ∀ x, xorshift64 x =
      xorshiftMul (xorshiftStepC (xorshiftStepB (xorshiftStepA x))) := fun _ => rfl
  have hX : invertibleOn64 xorshift64 :=
    onto_of_one_to_one _
      (fun x hx => by
        rw [hcomp]
        exact hM.1 _ (hC.1 _ (hB.1 _ (hA.1 x hx))))
      (fun x y hx hy h => by
        rw [hcomp, hcomp] at h
        have h3 := hM.2.1 _ _ (hC.1 _ (hB.1 _ (hA.1 x hx))) (hC.1 _ (hB.1 _ (hA.1 y hy))) h
        have h2 := hC.2.1 _ _ (hB.1 _ (hA.1 x hx)) (hB.1 _ (hA.1 y hy)) h3
        have h1 := hB.2.1 _ _ (hA.1 x hx) (hA.1 y hy) h2
        exact hA.2.1 x y hx hy h1)
  exact ⟨hcomp, hA, hB, hC, hM, hX, fun x y hx hy hne h => hne (hX.2.1 x y hx hy h)⟩

/-! ## C30 -/

/-- The `int64` AND of `n` with the mask `2 ^ k - 1` is the non-negative
remainder of `n` modulo `2 ^ k`. -/
theorem andInt64_mask (n : Int) (k : Nat) (hk : k ≤ 62) :
    andInt64 n (2 ^ k - 1) = n % 2 ^ k := by
  have hpow : (2 : Int) ^ k ≤ 2 ^ 62 := pow_le_pow_right₀ (by norm_num) hk
  have hpos : (0 : Int) < 2 ^ k := by positivity
  have hb : (((2 : Int) ^ k - 1) % 2 ^ 64).toNat = 2 ^ k - 1 := by
    rw [Int.emod_eq_of_lt (by omega) (by omega)]
    have h1 : ((2 : Int) ^ k - 1) = ((2 ^ k - 1 : Nat) : Int) := by
      have : 1 ≤ 2 ^ k := Nat.one_le_two_pow
      push_cast [Nat.cast_sub this]
      rfl
    rw [h1, Int.toNat_ofNat]
  unfold andInt64
  rw [hb, Nat.and_pow_two_sub_one_eq_mod]
  have hnn : 0 ≤ n % 2 ^ 64 := Int.emod_nonneg _ (by norm_num)
  have hcast : (((n % 2 ^ 64).toNat % 2 ^ k : Nat) : Int) = n % 2 ^ k := by
    rw [Int.natCast_mod, Int.toNat_of_nonneg hnn, Nat.cast_pow, Nat.cast_ofNat]
    exact Int.emod_emod_of_dvd n (pow_dvd_pow 2 (show k ≤ 64 by omega))
  rw [hcast]
  apply wrapInt64_of_inInt64
  have h0 : 0 ≤ n % 2 ^ k := Int.emod_nonneg _ (by omega)
  have h1 : n % 2 ^ k < 2 ^ k := Int.emod_lt_of_pos _ hpos
  unfold inInt64
  constructor <;> omega

/-- C30. For every `n`, `IsThrottle(n)` holds iff `n mod 32 = 31`,
`IsMiniThrottle(n)` iff `n mod 16 = 15` and `IsMicroThrottle(n)` iff
`n mod 8 = 7` (non-negative remainder); hence `IsThrottle(n)` implies
`IsMiniThrottle(n)`, which implies `IsMicroThrottle(n)`, and `IsThrottle`
holds for exactly one value in every 32 consecutive integers. -/
theorem isThrottle_mod (n : Int) :
    (IsThrottle n = true ↔ n % 32 = 31) ∧
    (IsMiniThrottle n = true ↔ n % 16 = 15) ∧
    (IsMicroThrottle n = true ↔ n % 8 = 7) ∧
    (IsThrottle n = true → IsMiniThrottle n = true) ∧
    (IsMiniThrottle n = true → IsMicroThrottle n = true) ∧
    (∃! m : Int, n ≤ m ∧ m < n + 32 ∧ IsThrottle m = true) := by
  have e5 : ∀ m : Int, (IsThrottle m = true ↔ m % 32 = 31) := by
    intro m
    have h := andInt64_mask m 5 (by norm_num)
    have hc : throttleBatch = 31 := by decide
    norm_num at h
    simp only [IsThrottle, hc, h, decide_eq_true_eq]
  have e4 : IsMiniThrottle n = true ↔ n % 16 = 15 := by
    have h := andInt64_mask n 4 (by norm_num)
    have hc : throMiniBatch = 15 := by decide
    norm_num at h
    simp only [IsMiniThrottle, hc, h, decide_eq_true_eq]
  have e3 : IsMicroThrottle n = true ↔ n % 8 = 7 := by
    have h := andInt64_mask n 3 (by norm_num)
    have hc : throMicroBatch = 7 := by decide
    norm_num at h
    simp only [IsMicroThrottle, hc, h, decide_eq_true_eq]
  refine ⟨e5 n, e4, e3, ?_, ?_, ?_⟩
  · rw [e5 n, e4]; omega
  · rw [e4, e3]; omega
  · refine ⟨n + (31 - n % 32), ⟨by omega, by omega, (e5 _).mpr (by omega)⟩, ?_⟩
    rintro m ⟨h1, h2, h3⟩
    have h4 := (e5 m).mp h3
    omega


end Rebalance
